import Mathlib

/-! # COP3530 course website: search filter, page controllers, theme and map visualizer

A shallow embedding of the pure logic of `assets/js/search.js`,
`assets/js/problems.js`, `assets/js/announcements.js`, `assets/js/modules.js`,
`assets/js/components.js`, `assets/js/theme.js` and `visualizer.js`, with the
properties of the specification stated over it.

Modelling conventions.

* A JavaScript string is a list of characters (`Str`), that is, of Unicode
  scalar values: text with a lone surrogate code unit has no counterpart.
  `toLowerCase` is exact on text made of ASCII characters and the Greek letters
  U+0391 to U+03C9, the final-sigma rule included; other characters are left
  as they are.
* A value decoded from JSON is a `JSVal`; its objects are finite maps over
  their own keys, first binding wins, and the members they inherit from
  `Object.prototype` are not modelled.
* The table `locations` of the visualizer is an object used as a map, and its
  prototype matters: an assignment to the key `__proto__` creates no own
  property but installs the record as prototype, a read of a key that names a
  member of `Object.prototype` gives that member when the table has no own
  record of the name, and `for ... in` lists the keys that are array indices
  first.  All three are modelled.
* A number read from a CSV cell by `parseFloat` or `parseInt` is kept as the
  call that produced it (`JSNumber`); whether it is `NaN` is computed from the
  text.  The Leaflet calls of `drawMap` are recorded as `Layer`s.  Leaflet is
  not part of the repository; of its behaviour, the model takes that building
  a marker or a line throws when a coordinate is `NaN` or `undefined`, and
  that the calls return on coordinates given in degrees.
* Calling a string method on a value that has none throws a `TypeError`; such
  code returns in `JS α = Except JSError α`.
* The DOM is reduced to the children of the render target: one `Node` per
  appended element.
* What the platform decides is a parameter of the definitions: the time value
  of `new Date(v)` (`dateValue`), the numeric conversion of a value
  (`toNumber`), the collation of `localeCompare`, and the current time.
-/

namespace Cop3530

/-! ## JavaScript strings -/

/-- A JavaScript string, as its sequence of characters (Unicode scalar
values). -/
abbrev Str := List Char

/-- White space and line terminators, the characters removed by
`String.prototype.trim`. -/
def isWhiteSpace (c : Char) : Bool :=
  let n := c.toNat
  n == 0x09 || n == 0x0A || n == 0x0B || n == 0x0C || n == 0x0D || n == 0x20 ||
  n == 0xA0 || n == 0x1680 || (0x2000 ≤ n && n ≤ 0x200A) || n == 0x2028 ||
  n == 0x2029 || n == 0x202F || n == 0x205F || n == 0x3000 || n == 0xFEFF

/-- Leading white space removed. -/
def trimStart (s : Str) : Str := s.dropWhile isWhiteSpace

/-- Trailing white space removed. -/
def trimEnd (s : Str) : Str := (s.reverse.dropWhile isWhiteSpace).reverse

/-- The method `String.prototype.trim`. -/
def trim (s : Str) : Str := trimEnd (trimStart s)

/-- A Greek capital letter, U+0391 to U+03A9 (U+03A2 is unassigned). -/
def isGreekCapital (c : Char) : Bool :=
  0x391 ≤ c.toNat && c.toNat ≤ 0x3A9 && c.toNat != 0x3A2

/-- A Greek small letter, U+03B1 to U+03C9. -/
def isGreekSmall (c : Char) : Bool := 0x3B1 ≤ c.toNat && c.toNat ≤ 0x3C9

/-- The simple lower-case mapping of a character, on ASCII and Greek capital
letters. -/
def lowerChar (c : Char) : Char :=
  if isGreekCapital c then Char.ofNat (c.toNat + 32) else c.toLower

/-- The Unicode property `Cased`, on ASCII and Greek letters. -/
def isCased (c : Char) : Bool := c.isAlpha || isGreekCapital c || isGreekSmall c

/-- The Unicode property `Case_Ignorable`, on ASCII: apostrophe, full stop,
colon, circumflex and grave accent. -/
def isCaseIgnorable (c : Char) : Bool :=
  c.toNat == 0x27 || c.toNat == 0x2E || c.toNat == 0x3A || c.toNat == 0x5E || c.toNat == 0x60

/-- The text goes on with case-ignorable characters and then a cased letter. -/
def followedByCased (rest : Str) : Bool :=
  match rest.dropWhile isCaseIgnorable with
  | c :: _ => isCased c
  | [] => false

/-- Lower-casing of the rest of a text; `afterCased` tells that what came before
ends in a cased letter and then case-ignorable characters.  The capital sigma
U+03A3 becomes the final sigma U+03C2 when it follows a cased letter and no
cased letter follows it (the condition `Final_Sigma` of the Unicode special
casing, which `toLowerCase` applies), and the small sigma U+03C3 otherwise. -/
def toLowerCaseFrom (afterCased : Bool) (s : Str) : Str :=
  match s with
  | [] => []
  | c :: rest =>
    (if c.toNat = 0x3A3 then
        (if afterCased && !followedByCased rest then Char.ofNat 0x3C2 else Char.ofNat 0x3C3)
      else lowerChar c) ::
      toLowerCaseFrom (if isCased c then true else if isCaseIgnorable c then afterCased else false)
        rest

/-- The method `String.prototype.toLowerCase`. -/
def toLowerCase (s : Str) : Str := toLowerCaseFrom false s

/-- The method `String.prototype.includes`: `includes s t` is `s.includes(t)`. -/
def includes (s t : Str) : Bool := s.tails.any (fun u => t.isPrefixOf u)

/-- The method `String.prototype.split` with a one-character separator. -/
def split (s : Str) (sep : Char) : List Str :=
  match s with
  | [] => [[]]
  | c :: cs =>
    if c = sep then [] :: split cs sep
    else
      match split cs sep with
      | [] => [[c]]
      | w :: ws => (c :: w) :: ws

/-! ## JavaScript values -/

/-- A JavaScript value as `JSON.parse` produces it, plus `undefined`. -/
inductive JSVal where
  | undefined
  | null
  | bool (b : Bool)
  | num (n : Int)
  | str (s : Str)
  | arr (xs : List JSVal)
  | obj (props : List (Str × JSVal))

/-- Errors thrown by the modelled code. -/
inductive JSError where
  | typeError
  deriving DecidableEq

/-- Computations that may throw. -/
abbrev JS (α : Type) := Except JSError α

namespace JSVal

/-- Truthiness (`ToBoolean`). -/
def truthy : JSVal → Bool
  | undefined => false
  | null => false
  | bool b => b
  | num n => n != 0
  | str s => !s.isEmpty
  | arr _ => true
  | obj _ => true

/-- The test `v === undefined`. -/
def isUndefined : JSVal → Bool
  | undefined => true
  | _ => false

/-- The test `v` is the string `t` (strict equality with a string). -/
def isStr (v : JSVal) (t : Str) : Bool :=
  match v with
  | str s => s == t
  | _ => false

/-- The test `typeof v === 'string'`. -/
def isString : JSVal → Bool
  | str _ => true
  | _ => false

/-- The index named by a property key, when the key is the canonical decimal
form of a number below `n`. -/
def arrayIndex (key : Str) (n : Nat) : Option Nat :=
  (List.range n).find? (fun i => Nat.toDigits 10 i == key)

/-- Property read `v[key]` on a value that is neither `null` nor `undefined`. -/
def getProp (v : JSVal) (key : Str) : JSVal :=
  match v with
  | obj props => (props.lookup key).getD undefined
  | arr xs =>
    if key == "length".toList then num xs.length
    else
      match arrayIndex key xs.length with
      | some i => xs.getD i undefined
      | none => undefined
  | str s =>
    if key == "length".toList then num s.length
    else
      match arrayIndex key s.length with
      | some i => (s.get? i).elim undefined (fun c => str [c])
      | none => undefined
  | _ => undefined

end JSVal

/-! ## Array methods with a callback that may throw -/

namespace JSArray

/-- The method `Array.prototype.some`: stops at the first element accepted. -/
def some {α : Type} (xs : List α) (p : α → JS Bool) : JS Bool :=
  match xs with
  | [] => .ok false
  | x :: rest =>
    match p x with
    | .error e => .error e
    | .ok true => .ok true
    | .ok false => some rest p

/-- The method `Array.prototype.every`: stops at the first element rejected. -/
def every {α : Type} (xs : List α) (p : α → JS Bool) : JS Bool :=
  match xs with
  | [] => .ok true
  | x :: rest =>
    match p x with
    | .error e => .error e
    | .ok false => .ok false
    | .ok true => every rest p

/-- The method `Array.prototype.filter`: the callback runs on every element in
order, and the first exception aborts the call. -/
def filter {α : Type} (xs : List α) (p : α → JS Bool) : JS (List α) :=
  match xs with
  | [] => .ok []
  | x :: rest =>
    match p x with
    | .error e => .error e
    | .ok keep =>
      match filter rest p with
      | .error e => .error e
      | .ok kept => .ok (if keep then x :: kept else kept)

end JSArray

/-! ## search.js -/

/-- An element appended to a render target: the card of an item, the error
card of `Components.createErrorMessage`, or one of the placeholders the pages
and the `SearchFilter` write for an empty list. -/
inductive Node where
  | card (item : JSVal)
  | noItemsFound
  | noProblemsFound
  | errorMessage
  | noAnnouncementsYet
  | noModulesYet

/-- The item a card was rendered from. -/
def Node.item? : Node → Option JSVal
  | .card item => Option.some item
  | _ => none

/-- The items whose cards are among the children of a render target. -/
def renderedItems (children : List Node) : List JSVal := children.filterMap Node.item?

/-- The value is a string whose lower-cased form has `t` as a substring. -/
def entryContains (v : JSVal) (t : Str) : Bool :=
  match v with
  | .str s => decide (t <:+: toLowerCase s)
  | _ => false

/-- The expression `v.toLowerCase().includes(searchTerm)`. -/
def lowerIncludes (v : JSVal) (searchTerm : Str) : JS Bool :=
  match v with
  | .str s => .ok (includes (toLowerCase s) searchTerm)
  | _ => .error .typeError

/-- Property read `v[key]`, which throws on `null` and `undefined`. -/
def JSVal.get (v : JSVal) (key : Str) : JS JSVal :=
  match v with
  | .undefined => .error .typeError
  | .null => .error .typeError
  | w => .ok (w.getProp key)

/-- The call `itemTags.includes(tag)` with a string `tag`: membership for an
array, substring test for a string, and a `TypeError` on any other truthy
value, which has no method `includes`. -/
def tagsInclude (problemTags : JSVal) (tag : Str) : JS Bool :=
  match problemTags with
  | .arr xs => .ok (xs.any (fun x => x.isStr tag))
  | .str s => .ok (includes s tag)
  | _ => .error .typeError

/-- The callback of the tag filter, the same in `SearchFilter.filterByTags` and
in `ProblemsPage.applyFilters`: with `problemTags = problem.tags || []`, every
selected tag is in `problemTags`. -/
def hasSelectedTags (selectedTags : List Str) (problem : JSVal) : JS Bool :=
  match problem.get "tags".toList with
  | .error e => .error e
  | .ok tags =>
    let problemTags := if tags.truthy then tags else JSVal.arr []
    JSArray.every selectedTags (fun tag => tagsInclude problemTags tag)

/-- The state of a `SearchFilter`: `container` holds the children of the render
target (`none` when no container was supplied), `renderFunction` tells whether
a rendering function was supplied; the element it returns for an item is
`Node.card item`. -/
structure SearchFilter where
  items : List JSVal
  searchFields : List Str
  filterTags : List Str
  container : Option (List Node)
  renderFunction : Bool

namespace SearchFilter

/-- The method `SearchFilter.render`. -/
def render (sf : SearchFilter) (itemsToRender : List JSVal) : SearchFilter :=
  if sf.container.isNone || !sf.renderFunction then sf
  else if itemsToRender.length = 0 then
    { sf with container := Option.some [Node.noItemsFound] }
  else
    { sf with container := Option.some (itemsToRender.map Node.card) }

/-- The method `SearchFilter.getNestedValue`. -/
def getNestedValue (obj : JSVal) (path : Str) : JSVal :=
  (split path '.').foldl
    (fun current key =>
      if current.truthy && !(current.getProp key).isUndefined then current.getProp key
      else JSVal.null)
    obj

/-- The callback of `searchFields.some` in `search`, applied to the value of a
field. -/
def fieldMatches (value : JSVal) (searchTerm : Str) : JS Bool :=
  match value with
  | .arr vs => JSArray.some vs (fun v => lowerIncludes v searchTerm)
  | v => if v.truthy then lowerIncludes v searchTerm else .ok false

/-- The callback of `items.filter` in `search`. -/
def itemMatches (searchFields : List Str) (searchTerm : Str) (item : JSVal) : JS Bool :=
  JSArray.some searchFields (fun field => fieldMatches (getNestedValue item field) searchTerm)

/-- The method `SearchFilter.search`. -/
def search (sf : SearchFilter) (query : Str) : JS SearchFilter :=
  let searchTerm := trim (toLowerCase query)
  if searchTerm.isEmpty then .ok (sf.render sf.items)
  else
    match JSArray.filter sf.items (itemMatches sf.searchFields searchTerm) with
    | .error e => .error e
    | .ok filteredItems => .ok (sf.render filteredItems)

/-- The method `SearchFilter.filterByTags`. -/
def filterByTags (sf : SearchFilter) (tags : List Str) : JS SearchFilter :=
  if tags.length = 0 then .ok (sf.render sf.items)
  else
    match JSArray.filter sf.items (hasSelectedTags tags) with
    | .error e => .error e
    | .ok filteredItems => .ok (sf.render filteredItems)

/-- The method `SearchFilter.toggleTag`, which the Problems page replaces by its
own. -/
def toggleTag (sf : SearchFilter) (tag : Str) : JS SearchFilter :=
  if sf.filterTags.contains tag then
    filterByTags { sf with filterTags := sf.filterTags.filter (fun t => t != tag) }
      (sf.filterTags.filter (fun t => t != tag))
  else
    filterByTags { sf with filterTags := sf.filterTags ++ [tag] } (sf.filterTags ++ [tag])

/-- The method `SearchFilter.clearFilters`. -/
def clearFilters (sf : SearchFilter) : SearchFilter :=
  render { sf with filterTags := [] } sf.items

/-- The items shown in the render target. -/
def shown (sf : SearchFilter) : List JSVal :=
  match sf.container with
  | Option.some children => renderedItems children
  | none => []

/-- A field value on which the search callback cannot throw: a string, an
array of strings, or a falsy value (an absent field reads as `null`). -/
def searchable (value : JSVal) : Bool :=
  match value with
  | .str _ => true
  | .arr vs => vs.all JSVal.isString
  | v => !v.truthy

/-- Every declared search field of every item is searchable. -/
def wellTyped (sf : SearchFilter) : Bool :=
  sf.items.all (fun item => sf.searchFields.all (fun field => searchable (getNestedValue item field)))

/-- The term `t` is a substring of the lower-cased field value: of the string
itself, or of one string entry of an array. -/
def fieldContains (value : JSVal) (t : Str) : Bool :=
  match value with
  | .str s => decide (t <:+: toLowerCase s)
  | .arr vs => vs.any (fun v => entryContains v t)
  | _ => false

end SearchFilter

/-! ## problems.js -/

/-- The callback `value && value.toLowerCase().includes(searchTerm)` on the
value of one of the fields `title`, `description`, `topic`. -/
def textFieldMatches (value : JSVal) (searchTerm : Str) : JS Bool :=
  if value.truthy then lowerIncludes value searchTerm else .ok false

/-- The expression
`problem.tags && problem.tags.some(tag => tag.toLowerCase().includes(searchTerm))`. -/
def tagsMatch (tags : JSVal) (searchTerm : Str) : JS Bool :=
  if tags.truthy then
    match tags with
    | .arr xs => JSArray.some xs (fun tag => lowerIncludes tag searchTerm)
    | _ => .error .typeError
  else .ok false

/-- The callback of the inline search filter in `applyFilters`. -/
def inlineMatches (searchTerm : Str) (problem : JSVal) : JS Bool :=
  match JSArray.some ["title".toList, "description".toList, "topic".toList]
      (fun field =>
        match problem.get field with
        | .error e => .error e
        | .ok value => textFieldMatches value searchTerm) with
  | .error e => .error e
  | .ok true => .ok true
  | .ok false =>
    match problem.get "tags".toList with
    | .error e => .error e
    | .ok tags => tagsMatch tags searchTerm

/-- The state of the Problems page: the loaded problems, the selected tags in
insertion order, whether `setupSearch` built the `SearchFilter`, the text of
the input `problems-search` (`none` when the element is missing) and the
children of `problems-container` (`none` when the element is missing). -/
structure ProblemsPage where
  problems : List JSVal
  selectedTags : List Str
  searchFilter : Bool
  searchInput : Option Str
  container : Option (List Node)

namespace ProblemsPage

/-- The method `ProblemsPage.createProblemCard`: the card of a problem.  The
reads `problem.difficulty` and `problem.tags` throw on `null` and `undefined`,
and `(problem.tags || []).map` throws when `tags` is a truthy value that is no
array. -/
def createProblemCard (problem : JSVal) : JS Node :=
  match problem.get "tags".toList with
  | .error e => .error e
  | .ok tags =>
    if tags.truthy then
      match tags with
      | .arr _ => .ok (Node.card problem)
      | _ => .error .typeError
    else .ok (Node.card problem)

/-- The method `ProblemsPage.renderFilteredProblems`, on problems for which
`createProblemCard` returns a card, as it does for every problem of the data
model; the statements about rendered problems are made for such problems. -/
def renderFilteredProblems (pg : ProblemsPage) (problems : List JSVal) : ProblemsPage :=
  match pg.container with
  | none => pg
  | Option.some _ =>
    if problems.length = 0 then
      { pg with container := Option.some [Node.noProblemsFound] }
    else
      { pg with container := Option.some (problems.map Node.card) }

/-- The method `ProblemsPage.renderProblems`. -/
def renderProblems (pg : ProblemsPage) : ProblemsPage := pg.renderFilteredProblems pg.problems

/-- The method `ProblemsPage.applyFilters`. -/
def applyFilters (pg : ProblemsPage) : JS ProblemsPage :=
  match (if pg.selectedTags.length > 0 then
      JSArray.filter pg.problems (hasSelectedTags pg.selectedTags)
    else .ok pg.problems) with
  | .error e => .error e
  | .ok tagFiltered =>
    match pg.searchInput with
    | Option.some value =>
      if !(trim value).isEmpty then
        let searchTerm := trim (toLowerCase value)
        match JSArray.filter tagFiltered (inlineMatches searchTerm) with
        | .error e => .error e
        | .ok filteredProblems => .ok (pg.renderFilteredProblems filteredProblems)
      else .ok (pg.renderFilteredProblems tagFiltered)
    | none => .ok (pg.renderFilteredProblems tagFiltered)

/-- The replacement for `toggleTag` installed by `setupTagFiltering`; the call
`this.searchFilter.toggleTag(tag)` throws when no `SearchFilter` was built. -/
def toggleTag (pg : ProblemsPage) (tag : Str) : JS ProblemsPage :=
  if !pg.searchFilter then .error .typeError
  else if pg.selectedTags.contains tag then
    applyFilters { pg with selectedTags := pg.selectedTags.filter (fun t => t != tag) }
  else
    applyFilters { pg with selectedTags := pg.selectedTags ++ [tag] }

/-- The `SearchFilter` built by `setupSearch`: it holds the problem list and
renders into the same container as the page. -/
def filterOf (pg : ProblemsPage) : SearchFilter :=
  { items := pg.problems
    searchFields := ["title".toList, "description".toList, "topic".toList, "tags".toList]
    filterTags := []
    container := pg.container
    renderFunction := true }

/-- An `input` event on `problems-search` that leaves `value` in the box: the
listener installed by `SearchFilter.setupSearchInput` runs `search(value)`. -/
def input (pg : ProblemsPage) (value : Str) : JS ProblemsPage :=
  match pg.searchInput with
  | none => .ok pg
  | Option.some _ =>
    if !pg.searchFilter then .ok { pg with searchInput := Option.some value }
    else
      match (filterOf pg).search value with
      | .error e => .error e
      | .ok sf => .ok { pg with searchInput := Option.some value, container := sf.container }

/-- The method `ProblemsPage.clearAllFilters`. -/
def clearAllFilters (pg : ProblemsPage) : ProblemsPage :=
  renderProblems { pg with selectedTags := [], searchInput := pg.searchInput.map (fun _ => []) }

/-- The page once `init` has run on a loaded problem list, with both elements
present: no tag selected, an empty search box, every problem rendered. -/
def loaded (problems : List JSVal) : ProblemsPage :=
  renderProblems
    { problems := problems
      selectedTags := []
      searchFilter := true
      searchInput := Option.some []
      container := Option.some [] }

/-- The items shown in `problems-container`. -/
def shown (pg : ProblemsPage) : List JSVal :=
  match pg.container with
  | Option.some children => renderedItems children
  | none => []

end ProblemsPage

/-- A user action on the Problems page. -/
inductive PageEvent where
  | toggleTag (tag : Str)
  | input (value : Str)

/-- One user action handled by the page. -/
def ProblemsPage.step (pg : ProblemsPage) (e : PageEvent) : JS ProblemsPage :=
  match e with
  | .toggleTag tag => pg.toggleTag tag
  | .input value => pg.input value

/-- A sequence of user actions, handled one after the other. -/
def ProblemsPage.run (pg : ProblemsPage) (events : List PageEvent) : JS ProblemsPage :=
  match events with
  | [] => .ok pg
  | e :: rest =>
    match pg.step e with
    | .error err => .error err
    | .ok pg' => ProblemsPage.run pg' rest

/-- The tag list of a problem holds the string `tag`. -/
def hasTag (problem : JSVal) (tag : Str) : Bool :=
  match problem.getProp "tags".toList with
  | .arr xs => xs.any (fun x => x.isStr tag)
  | _ => false

/-- A text field of a problem: a string, or absent. -/
def isTextField (value : JSVal) : Bool :=
  match value with
  | .str _ => true
  | .undefined => true
  | .null => true
  | _ => false

/-- A tag list of a problem: an array of strings, or absent. -/
def isTagList (value : JSVal) : Bool :=
  match value with
  | .arr xs => xs.all JSVal.isString
  | .undefined => true
  | .null => true
  | _ => false

/-- A problem of the data model: an object whose `title`, `description` and
`topic` are strings or absent and whose `tags` is an array of strings or
absent. -/
def isProblem (problem : JSVal) : Bool :=
  match problem with
  | .obj _ =>
    isTextField (problem.getProp "title".toList) &&
    isTextField (problem.getProp "description".toList) &&
    isTextField (problem.getProp "topic".toList) &&
    isTagList (problem.getProp "tags".toList)
  | _ => false

/-- The search term `t` occurs in one of the lower-cased strings of a tag
list. -/
def tagsContain (tags : JSVal) (t : Str) : Bool :=
  match tags with
  | .arr xs => xs.any (fun x => entryContains x t)
  | _ => false

/-- The search term `t` occurs in the lower-cased title, description or topic
of the problem, or in one of its lower-cased tags. -/
def problemContains (problem : JSVal) (t : Str) : Bool :=
  entryContains (problem.getProp "title".toList) t ||
  entryContains (problem.getProp "description".toList) t ||
  entryContains (problem.getProp "topic".toList) t ||
  tagsContain (problem.getProp "tags".toList) t

/-- A problem with a title and a list of tags. -/
def problemOf (title : String) (tags : List String) : JSVal :=
  .obj [("title".toList, .str title.toList),
        ("tags".toList, .arr (tags.map (fun t => JSVal.str t.toList)))]

/-! ## visualizer.js -/

/-- A number read from a CSV cell by `parseFloat(text)` or `parseInt(text, 10)`,
kept as the call that produced it. -/
inductive JSNumber where
  | parseFloat (text : Str)
  | parseInt (text : Str)
  deriving DecidableEq

/-- The text after a leading sign `+` or `-`, if it has one. -/
def dropSign (s : Str) : Str :=
  match s with
  | c :: rest => if c = '+' ∨ c = '-' then rest else s
  | [] => []

/-- The text starts with a decimal digit, or with a point and a decimal
digit. -/
def startsDecimal (s : Str) : Bool :=
  match s with
  | c :: rest =>
    c.isDigit ||
      (c == '.' &&
        match rest with
        | d :: _ => d.isDigit
        | [] => false)
  | [] => false

/-- The result of `parseFloat(text)` is `NaN`: after the leading white space and
an optional sign, the text starts neither a decimal literal nor the word
`Infinity`. -/
def parseFloatIsNaN (text : Str) : Bool :=
  !(startsDecimal (dropSign (trimStart text)) ||
    "Infinity".toList.isPrefixOf (dropSign (trimStart text)))

/-- The result of `parseInt(text, 10)` is `NaN`: after the leading white space
and an optional sign, the text does not start with a decimal digit. -/
def parseIntIsNaN (text : Str) : Bool :=
  match dropSign (trimStart text) with
  | c :: _ => !c.isDigit
  | [] => true

/-- The test `isNaN(n)`. -/
def JSNumber.isNaN : JSNumber → Bool
  | .parseFloat text => parseFloatIsNaN text
  | .parseInt text => parseIntIsNaN text

/-- A record of the table `locations`. -/
structure Location where
  name : Str
  lat : JSNumber
  lng : JSNumber
  deriving DecidableEq

/-- An element of the array `paths`: the fields `from`, `to` and `time`. -/
structure Path where
  fromId : Str
  toId : Str
  time : JSNumber
  deriving DecidableEq

/-- The property name `__proto__`.  On a plain object an assignment to it
creates no own property: it replaces the prototype when the value is an
object, and does nothing otherwise. -/
def protoKey : Str := "__proto__".toList

/-- The names of the members of `Object.prototype`.  A plain object that has no
own property of such a name reads the inherited member, a function (the
prototype itself for `__proto__`), which is truthy. -/
def objectPrototypeMembers : List Str :=
  ["constructor".toList, "__defineGetter__".toList, "__defineSetter__".toList,
   "hasOwnProperty".toList, "__lookupGetter__".toList, "__lookupSetter__".toList,
   "isPrototypeOf".toList, "propertyIsEnumerable".toList, "toString".toList,
   "valueOf".toList, "__proto__".toList, "toLocaleString".toList]

/-- Creation or update of the own property `key` of an object held as the list
of its own properties in order of creation: an existing key keeps its place. -/
def assign {β : Type} (obj : List (Str × β)) (key : Str) (value : β) : List (Str × β) :=
  match obj with
  | [] => [(key, value)]
  | (k, v) :: rest =>
    if k = key then (key, value) :: rest else (k, v) :: assign rest key value

/-- A row object built by `parseCSV`: each column name with its cell, `none`
standing for `undefined`. -/
abbrev Row := List (Str × Option Str)

/-- The assignment `obj[col] = values[index]` of `parseCSV`.  The value is a
string or `undefined`, so for the column name `__proto__` nothing happens. -/
def Row.set (obj : Row) (col : Str) (value : Option Str) : Row :=
  if col = protoKey then obj else assign obj col value

/-- Property read `row[key]` for a key that names no member of
`Object.prototype`; a missing property reads as `undefined`. -/
def Row.get (row : Row) (key : Str) : Option Str := (row.lookup key).getD none

/-- Truthiness of a cell: a string that is not empty. -/
def cellTruthy (cell : Option Str) : Bool :=
  match cell with
  | Option.some s => !s.isEmpty
  | none => false

/-- The function `parseCSV`. -/
def parseCSV (text : Str) : List Row :=
  let lines := split (trim text) '\n'
  if lines.length < 2 then []
  else
    let header := (split (lines.headD []) ',').map trim
    lines.tail.map (fun line =>
      let values := (split line ',').map trim
      header.enum.foldl (fun obj (col : Nat × Str) => obj.set col.2 (values.get? col.1)) [])

/-- The object `locations`: its own properties in order of creation, and the
record that an assignment to the key `__proto__` has installed as its
prototype (`none` while the prototype is `Object.prototype`). -/
structure LocationTable where
  own : List (Str × Location)
  proto : Option Location
  deriving DecidableEq

/-- The assignment `locations[key] = record`. -/
def LocationTable.set (table : LocationTable) (key : Str) (record : Location) : LocationTable :=
  if key = protoKey then { table with proto := Option.some record }
  else { table with own := assign table.own key record }

/-- The loop of `loadMasterGraph` that fills the table `locations`. -/
def loadLocations (locationsData : List Row) : LocationTable :=
  locationsData.foldl
    (fun locations row =>
      if cellTruthy (row.get "LocationID".toList) && cellTruthy (row.get "Latitude".toList)
          && cellTruthy (row.get "Longitude".toList) then
        locations.set ((row.get "LocationID".toList).getD [])
          { name := if cellTruthy (row.get "Name".toList) then (row.get "Name".toList).getD []
                    else "Unnamed Location".toList
            lat := JSNumber.parseFloat ((row.get "Latitude".toList).getD [])
            lng := JSNumber.parseFloat ((row.get "Longitude".toList).getD []) }
      else locations)
    { own := [], proto := none }

/-- The loop of `loadMasterGraph` that fills the array `paths`. -/
def loadPaths (pathsData : List Row) : List Path :=
  pathsData.foldl
    (fun paths row =>
      if cellTruthy (row.get "LocationID_1".toList) && cellTruthy (row.get "LocationID_2".toList)
          && cellTruthy (row.get "Time".toList) then
        paths ++ [{ fromId := (row.get "LocationID_1".toList).getD []
                    toId := (row.get "LocationID_2".toList).getD []
                    time := JSNumber.parseInt ((row.get "Time".toList).getD []) }]
      else paths)
    []

/-- The header cells of a CSV text, as `parseCSV` reads them. -/
def csvHeader (text : Str) : List Str :=
  (split ((split (trim text) '\n').headD []) ',').map trim

/-- The global state of the visualizer.  The object `locations` is held as its
own properties in order of creation (`locations`) and the record installed as
its prototype through the key `__proto__`, if any (`locationsProto`). -/
structure Visualizer where
  locations : List (Str × Location)
  locationsProto : Option Location
  paths : List Path
  toggledOffPathKeys : List Str

/-- The state after `loadMasterGraph` has fetched both files. -/
def loadMasterGraph (locationsText pathsText : Str) : Visualizer :=
  { locations := (loadLocations (parseCSV locationsText)).own
    locationsProto := (loadLocations (parseCSV locationsText)).proto
    paths := loadPaths (parseCSV pathsText)
    toggledOffPathKeys := [] }

/-- The template string `from-to` of a path. -/
def pathKey (path : Path) : Str := path.fromId ++ "-".toList ++ path.toId

/-- The template string `to-from` of a path. -/
def reversePathKey (path : Path) : Str := path.toId ++ "-".toList ++ path.fromId

/-- The method `Set.prototype.add`. -/
def setAdd (keys : List Str) (key : Str) : List Str :=
  if keys.contains key then keys else keys ++ [key]

/-- The method `Set.prototype.delete`. -/
def setDelete (keys : List Str) (key : Str) : List Str := keys.filter (fun k => k != key)

/-- The click handler of the line of a path, on the set `toggledOffPathKeys`. -/
def clickPath (toggledOffPathKeys : List Str) (path : Path) : List Str :=
  if toggledOffPathKeys.contains (pathKey path) then
    setDelete (setDelete toggledOffPathKeys (pathKey path)) (reversePathKey path)
  else
    setAdd (setAdd toggledOffPathKeys (pathKey path)) (reversePathKey path)

/-- A layer added to the map by `drawMap`: a location marker, the line of a
path with its colour and the two keys its click handler holds, or the label
with the time of a path. -/
inductive Layer where
  | marker (id : Str) (loc : Location)
  | polyline (fromLoc toLoc : Location) (color : Str) (pathKey reversePathKey : Str)
  | weightLabel (fromLoc toLoc : Location) (time : JSNumber)
  deriving DecidableEq

/-- The array index that a property key stands for: the key is the decimal
form, without leading zero, of a number below `2^32 - 1`. -/
def arrayIndexKey (key : Str) : Option Nat :=
  if !key.isEmpty && key.all Char.isDigit && (key.length == 1 || key.head? != Option.some '0') then
    if key.foldl (fun n c => 10 * n + (c.toNat - 48)) 0 < 4294967295 then
      Option.some (key.foldl (fun n c => 10 * n + (c.toNat - 48)) 0)
    else none
  else none

/-- The own properties of an object in the order in which `for ... in` and
`Object.keys` list them: the keys that are array indices in ascending numeric
order, then the other keys in order of creation. -/
def enumerationOrder {β : Type} (obj : List (Str × β)) : List (Str × β) :=
  (obj.filter (fun entry => (arrayIndexKey entry.1).isSome)).insertionSort
      (fun a b => (arrayIndexKey a.1).getD 0 ≤ (arrayIndexKey b.1).getD 0) ++
    obj.filter (fun entry => (arrayIndexKey entry.1).isNone)

/-- The value read by `locations[key]` in `drawMap`, as far as the function
uses it: a location record, another truthy value (its `lat` and `lng` are
`undefined`), or `undefined`. -/
inductive Resolved where
  | record (loc : Location)
  | other
  | missing
  deriving DecidableEq

/-- The read `locations[key]` in the loop over the paths: an own record; else
for the key `__proto__` the prototype, which is the installed record or
`Object.prototype`; else the inherited member for a name of a member of
`Object.prototype`; else `undefined`.  (When a record is installed as prototype
its properties `name`, `lat` and `lng` are inherited too; the loop over the
markers throws on them unless the table has own records of these three names,
so the loop over the paths never reads them.) -/
def Visualizer.resolve (v : Visualizer) (key : Str) : Resolved :=
  match v.locations.lookup key with
  | Option.some loc => Resolved.record loc
  | none =>
    if key = protoKey then
      match v.locationsProto with
      | Option.some record => Resolved.record record
      | none => Resolved.other
    else if key ∈ objectPrototypeMembers then Resolved.other
    else Resolved.missing

/-- The call `L.marker([loc.lat, loc.lng], ...).addTo(map)` for a record of the
table: Leaflet builds a `LatLng`, whose constructor throws when a coordinate
is `NaN`; `none` stands for the exception. -/
def addMarker (id : Str) (loc : Location) : Option (List Layer) :=
  if loc.lat.isNaN || loc.lng.isNaN then none else Option.some [Layer.marker id loc]

/-- The keys that `for (const id in locations)` lists after the own ones: the
properties `name`, `lat` and `lng` of a record installed as prototype, unless
an own property of the same name hides them. -/
def inheritedKeys (v : Visualizer) : List Str :=
  match v.locationsProto with
  | Option.some _ =>
    ["name".toList, "lat".toList, "lng".toList].filter
      (fun key => (v.locations.lookup key).isNone)
  | none => []

/-- The loop `for (const id in locations)` of `drawMap`, one step per key: the
marker of each own record, and for an inherited key the call `L.marker` on
the coordinates of a string or a number, which are `undefined`, so that the
call throws. -/
def markerSteps (v : Visualizer) : List (Option (List Layer)) :=
  (enumerationOrder v.locations).map (fun entry => addMarker entry.1 entry.2) ++
    (inheritedKeys v).map (fun _ => none)

/-- The body of `paths.forEach` in `drawMap`: the layers drawn for one path,
`none` when building and adding the line throws because a coordinate is `NaN`
or `undefined`; the line is then not drawn. -/
def drawPath (v : Visualizer) (path : Path) : Option (List Layer) :=
  match v.resolve path.fromId with
  | Resolved.missing => Option.some []
  | Resolved.other =>
    match v.resolve path.toId with
    | Resolved.missing => Option.some []
    | _ => none
  | Resolved.record fromLoc =>
    match v.resolve path.toId with
    | Resolved.missing => Option.some []
    | Resolved.other => none
    | Resolved.record toLoc =>
      if fromLoc.lat.isNaN || fromLoc.lng.isNaN || toLoc.lat.isNaN || toLoc.lng.isNaN then none
      else
        let isToggledOff := v.toggledOffPathKeys.contains (pathKey path)
        let edgeColor := if isToggledOff then "#FF0000".toList else "#0000FF".toList
        Option.some
          (Layer.polyline fromLoc toLoc edgeColor (pathKey path) (reversePathKey path) ::
            (if !isToggledOff then [Layer.weightLabel fromLoc toLoc path.time] else []))

/-- The map after a run of `drawMap`: the layers added, and whether the
function ran to its end (`false` when a call threw; the layers added before
stay on the map). -/
structure Drawing where
  layers : List Layer
  completed : Bool
  deriving DecidableEq

/-- The steps run in turn, up to the first that throws. -/
def runSteps (steps : List (Option (List Layer))) : Drawing :=
  match steps with
  | [] => { layers := [], completed := true }
  | none :: _ => { layers := [], completed := false }
  | Option.some layers :: rest =>
    { layers := layers ++ (runSteps rest).layers, completed := (runSteps rest).completed }

/-- The function `drawMap`, on a map cleared of its markers and lines. -/
def drawMap (v : Visualizer) : Drawing :=
  if v.locations.length = 0 then { layers := [], completed := true }
  else runSteps (markerSteps v ++ v.paths.map (drawPath v))

/-- The line of the `i`-th path is on the map after `drawMap`: the function has
reached that path without a throw, and has drawn a line for it. -/
def lineOnMap (v : Visualizer) (i : Nat) : Bool :=
  v.locations.length != 0 &&
  (markerSteps v ++ (v.paths.take i).map (drawPath v)).all Option.isSome &&
  match v.paths.get? i with
  | Option.some path =>
    (match drawPath v path with
     | Option.some layers => !layers.isEmpty
     | none => false)
  | none => false

/-- A click on the line of the `i`-th path: when that line is on the map, its
handler updates the set and the map is redrawn. -/
def Visualizer.click (v : Visualizer) (i : Nat) : Visualizer :=
  match v.paths.get? i with
  | none => v
  | Option.some path =>
    if lineOnMap v i then { v with toggledOffPathKeys := clickPath v.toggledOffPathKeys path }
    else v

/-- A sequence of clicks. -/
def Visualizer.clicks (v : Visualizer) (indices : List Nat) : Visualizer :=
  indices.foldl Visualizer.click v

/-! ## Reads of own properties -/

/-- The read `current[key]` finds an own property or nothing, as the model of
values decoded from JSON takes it: `current` is falsy; or it is an object and
`key` is an own key of it or names no member of `Object.prototype`; or it is
an array or a string and `key` is `length` or an index of it. -/
def ownRead (current : JSVal) (key : Str) : Bool :=
  !current.truthy ||
  match current with
  | .obj props => (props.lookup key).isSome || !objectPrototypeMembers.contains key
  | .arr xs => key == "length".toList || (JSVal.arrayIndex key xs.length).isSome
  | .str s => key == "length".toList || (JSVal.arrayIndex key s.length).isSome
  | _ => false

/-- Every read that `getNestedValue` makes along the path is a read of an own
property or of nothing. -/
def ownPath (obj : JSVal) (path : Str) : Bool :=
  ((split path '.').foldl
    (fun (state : JSVal × Bool) key =>
      (if state.1.truthy && !(state.1.getProp key).isUndefined then state.1.getProp key
       else JSVal.null,
       state.2 && ownRead state.1 key))
    (obj, true)).2

/-- Every declared search field of every item is read through own properties
only. -/
def SearchFilter.ownFields (sf : SearchFilter) : Bool :=
  sf.items.all (fun item => sf.searchFields.all (fun field => ownPath item field))

/-! ## Coordinates in degrees -/

/-- The number written by a text of decimal digits. -/
def natOfDigits (digits : Str) : Nat := digits.foldl (fun n c => 10 * n + (c.toNat - 48)) 0

/-- A decimal numeral, `digits` or `digits.digits` with an optional sign, as the
number made of all its digits and the count of its digits after the point: the
numeral `-82.35` gives `(8235, 2)`. -/
def decimalNumeral (text : Str) : Option (Nat × Nat) :=
  match dropSign text with
  | [] => none
  | c :: rest =>
    if c.isDigit then
      match rest.dropWhile Char.isDigit with
      | [] => Option.some (natOfDigits (c :: rest), 0)
      | d :: frac =>
        if d = '.' ∧ frac.all Char.isDigit = true then
          Option.some (natOfDigits (c :: rest.takeWhile Char.isDigit ++ frac), frac.length)
        else none
    else none

/-- The number was read by `parseFloat` from a decimal numeral of magnitude at
most `bound`. -/
def JSNumber.within (n : JSNumber) (bound : Nat) : Bool :=
  match n with
  | .parseFloat text =>
    match decimalNumeral text with
    | Option.some (digits, scale) => decide (digits ≤ bound * 10 ^ scale)
    | none => false
  | .parseInt _ => false

/-- The coordinates of the record are degrees: a latitude from -90 to 90 and a
longitude from -180 to 180, each read from a decimal numeral. -/
def Location.inDegrees (loc : Location) : Bool := loc.lat.within 90 && loc.lng.within 180

/-! ## CSV texts built from rows -/

/-- A row of the locations file: the text of its four cells. -/
structure LocationRow where
  id : Str
  name : Str
  lat : Str
  lng : Str
  deriving DecidableEq

/-- The cells of a row, in column order. -/
def LocationRow.fields (r : LocationRow) : List Str := [r.id, r.name, r.lat, r.lng]

/-- The cells of a row joined by commas. -/
def csvLine (r : LocationRow) : Str :=
  r.id ++ ',' :: (r.name ++ ',' :: (r.lat ++ ',' :: r.lng))

/-- The header line of the locations file. -/
def locationsHeader : Str := "LocationID,Name,Latitude,Longitude".toList

/-- The CSV text made of the header and one comma-joined line per row. -/
def locationsCSV (rows : List LocationRow) : Str :=
  locationsHeader ++ rows.flatMap (fun r => '\n' :: csvLine r)

/-- A cell that is not empty and holds neither a comma nor a newline. -/
def plainField (f : Str) : Bool := !f.isEmpty && !f.contains ',' && !f.contains '\n'

/-- A cell that neither starts nor ends with white space. -/
def noOuterSpace (f : Str) : Bool :=
  match f.head?, f.getLast? with
  | Option.some a, Option.some b => !isWhiteSpace a && !isWhiteSpace b
  | _, _ => false

/-- The table entry a row stands for: its id as key, with its name and the
numbers parsed from its latitude and longitude. -/
def LocationRow.entry (r : LocationRow) : Str × Location :=
  (r.id, { name := r.name, lat := JSNumber.parseFloat r.lat, lng := JSNumber.parseFloat r.lng })

/-- The object with the four columns of the locations file bound to the cells
of a row. -/
def LocationRow.object (r : LocationRow) : Row :=
  [("LocationID".toList, Option.some r.id), ("Name".toList, Option.some r.name),
   ("Latitude".toList, Option.some r.lat), ("Longitude".toList, Option.some r.lng)]

/-- Every cell of the row is plain and free of outer white space. -/
def LocationRow.clean (r : LocationRow) : Bool :=
  r.fields.all (fun f => plainField f && noOuterSpace f)

/-! ## Sorting and fetching -/

namespace JSArray

/-- One step of the sort: `a` goes in front of the first element `b` with
`compare(a, b) <= 0`. -/
def orderedInsert {α : Type} (compare : α → α → JS Int) (a : α) (sorted : List α) :
    JS (List α) :=
  match sorted with
  | [] => .ok [a]
  | b :: rest =>
    match compare a b with
    | .error e => .error e
    | .ok c =>
      if c ≤ 0 then .ok (a :: b :: rest)
      else
        match orderedInsert compare a rest with
        | .error e => .error e
        | .ok inserted => .ok (b :: inserted)

/-- The method `Array.prototype.sort` with a comparator.  The sort is stable, so
for a comparator that is a consistent total preorder its result is the one of
this insertion sort; an exception of the comparator aborts the call. -/
def sort {α : Type} (compare : α → α → JS Int) (xs : List α) : JS (List α) :=
  match xs with
  | [] => .ok []
  | a :: rest =>
    match sort compare rest with
    | .error e => .error e
    | .ok sorted => orderedInsert compare a sorted

end JSArray

/-- The object `Components.fetchJSON` resolves to: the parsed array, or the
message of the error. -/
inductive FetchResult where
  | data (data : List JSVal)
  | error (message : Str)

/-! ## announcements.js -/

/-- The comparator `(a, b) => new Date(b.posted_at) - new Date(a.posted_at)`;
`dateValue` is the time value of `new Date(v)` in milliseconds, `none` for an
invalid date, and the `NaN` an invalid date gives counts as `0` in the sort. -/
def compareAnnouncements (dateValue : JSVal → Option Int) (a b : JSVal) : JS Int :=
  match b.get "posted_at".toList with
  | .error e => .error e
  | .ok postedB =>
    match a.get "posted_at".toList with
    | .error e => .error e
    | .ok postedA =>
      match dateValue postedB, dateValue postedA with
      | Option.some timeB, Option.some timeA => .ok (timeB - timeA)
      | _, _ => .ok 0

/-- The state of the Announcements page: the stored list, whether `setupSearch`
built the `SearchFilter`, whether the input `announcements-search` exists, and
the children of `announcements-container`. -/
structure AnnouncementsPage where
  announcements : List JSVal
  searchFilter : Bool
  searchInput : Bool
  container : Option (List Node)

namespace AnnouncementsPage

/-- The method `AnnouncementsPage.showError`: the error card is appended to the
container. -/
def showError (pg : AnnouncementsPage) : AnnouncementsPage :=
  { pg with container := pg.container.map (fun children => children ++ [Node.errorMessage]) }

/-- The method `AnnouncementsPage.loadAnnouncements`, given what `fetchJSON`
resolved to; an error with an empty message is falsy, and the call
`data.sort` on `null` then throws. -/
def loadAnnouncements (dateValue : JSVal → Option Int) (pg : AnnouncementsPage)
    (fetched : FetchResult) : JS AnnouncementsPage :=
  match fetched with
  | .error message =>
    if !message.isEmpty then .ok (showError pg) else .error .typeError
  | .data data =>
    match JSArray.sort (compareAnnouncements dateValue) data with
    | .error e => .error e
    | .ok sorted => .ok { pg with announcements := sorted }

/-- The `SearchFilter` built by `setupSearch`. -/
def filterOf (pg : AnnouncementsPage) : SearchFilter :=
  { items := pg.announcements
    searchFields := ["title".toList, "body".toList]
    filterTags := []
    container := pg.container
    renderFunction := true }

/-- The method `AnnouncementsPage.setupSearch`: the constructor of
`SearchFilter` renders all its items at once. -/
def setupSearch (pg : AnnouncementsPage) : AnnouncementsPage :=
  if !pg.searchInput || pg.container.isNone then pg
  else
    { pg with searchFilter := true
              container := ((filterOf pg).render (filterOf pg).items).container }

/-- The method `AnnouncementsPage.renderAnnouncements`. -/
def renderAnnouncements (pg : AnnouncementsPage) : AnnouncementsPage :=
  match pg.container with
  | none => pg
  | Option.some _ =>
    if pg.announcements.length = 0 then
      { pg with container := Option.some [Node.noAnnouncementsYet] }
    else
      { pg with container := Option.some (pg.announcements.map Node.card) }

/-- The method `AnnouncementsPage.init`. -/
def init (dateValue : JSVal → Option Int) (pg : AnnouncementsPage) (fetched : FetchResult) :
    JS AnnouncementsPage :=
  match loadAnnouncements dateValue pg fetched with
  | .error e => .error e
  | .ok loaded => .ok (renderAnnouncements (setupSearch loaded))

/-- The page as its constructor leaves it, over the container found in the
document. -/
def create (children : List Node) (searchInput : Bool) : AnnouncementsPage :=
  { announcements := [], searchFilter := false, searchInput := searchInput,
    container := Option.some children }

/-- The items shown in `announcements-container`. -/
def shown (pg : AnnouncementsPage) : List JSVal :=
  match pg.container with
  | Option.some children => renderedItems children
  | none => []

end AnnouncementsPage

/-- The time value of an announcement under `dateValue`, `0` for an invalid
date. -/
def postedAt (dateValue : JSVal → Option Int) (a : JSVal) : Int :=
  (dateValue (a.getProp "posted_at".toList)).getD 0

/-- An announcement with a valid timestamp: a value that is neither `null` nor
`undefined` and whose `posted_at` gives a valid date. -/
def validAnnouncement (dateValue : JSVal → Option Int) (a : JSVal) : Bool :=
  match a with
  | .undefined => false
  | .null => false
  | v => (dateValue (v.getProp "posted_at".toList)).isSome

/-- The number a string of decimal digits stands for. -/
def digitsValue (s : Str) : Option Int :=
  if !s.isEmpty && s.all Char.isDigit then
    Option.some (s.foldl (fun n c => 10 * n + ((c.toNat : Int) - 48)) 0)
  else none

/-- The number of days from 1970-01-01 to a date of the proleptic Gregorian
calendar. -/
def daysFromCivil (year month day : Int) : Int :=
  let y := if month ≤ 2 then year - 1 else year
  let era := y / 400
  let yoe := y - era * 400
  let mp := (month + 9) % 12
  let doy := (153 * mp + 2) / 5 + day - 1
  let doe := yoe * 365 + yoe / 4 - yoe / 100 + doy
  era * 146097 + doe - 719468

/-- The number of days of a month. -/
def daysInMonth (year month : Int) : Int :=
  if month = 2 then
    (if year % 4 = 0 ∧ (year % 100 ≠ 0 ∨ year % 400 = 0) then 29 else 28)
  else if month = 4 ∨ month = 6 ∨ month = 9 ∨ month = 11 then 30
  else 31

/-- The time value of `new Date(v)` for a string in the date-only form
`YYYY-MM-DD` of the date-time string format, which is read as midnight UTC;
other values are not modelled and give `none`. -/
def isoDateValue (v : JSVal) : Option Int :=
  match v with
  | .str [y1, y2, y3, y4, '-', m1, m2, '-', d1, d2] =>
    match digitsValue [y1, y2, y3, y4], digitsValue [m1, m2], digitsValue [d1, d2] with
    | Option.some year, Option.some month, Option.some day =>
      if 1 ≤ month ∧ month ≤ 12 ∧ 1 ≤ day ∧ day ≤ daysInMonth year month then
        Option.some (daysFromCivil year month day * 86400000)
      else none
    | _, _, _ => none
  | _ => none

/-! ## modules.js -/

/-- The comparator `(a, b) => a.week - b.week`; `toNumber` is the numeric
conversion of a value, `none` for `NaN`, which counts as `0` in the sort. -/
def compareModules (toNumber : JSVal → Option Int) (a b : JSVal) : JS Int :=
  match a.get "week".toList with
  | .error e => .error e
  | .ok weekA =>
    match b.get "week".toList with
    | .error e => .error e
    | .ok weekB =>
      match toNumber weekA, toNumber weekB with
      | Option.some x, Option.some y => .ok (x - y)
      | _, _ => .ok 0

/-- The state of the Modules page, as for the Announcements page. -/
structure ModulesPage where
  modules : List JSVal
  searchFilter : Bool
  searchInput : Bool
  container : Option (List Node)

namespace ModulesPage

/-- The method `ModulesPage.showError`. -/
def showError (pg : ModulesPage) : ModulesPage :=
  { pg with container := pg.container.map (fun children => children ++ [Node.errorMessage]) }

/-- The method `ModulesPage.loadModules`. -/
def loadModules (toNumber : JSVal → Option Int) (pg : ModulesPage) (fetched : FetchResult) :
    JS ModulesPage :=
  match fetched with
  | .error message =>
    if !message.isEmpty then .ok (showError pg) else .error .typeError
  | .data data =>
    match JSArray.sort (compareModules toNumber) data with
    | .error e => .error e
    | .ok sorted => .ok { pg with modules := sorted }

/-- The `SearchFilter` built by `setupSearch`. -/
def filterOf (pg : ModulesPage) : SearchFilter :=
  { items := pg.modules
    searchFields := ["title".toList, "summary".toList, "topics".toList]
    filterTags := []
    container := pg.container
    renderFunction := true }

/-- The method `ModulesPage.setupSearch`. -/
def setupSearch (pg : ModulesPage) : ModulesPage :=
  if !pg.searchInput || pg.container.isNone then pg
  else
    { pg with searchFilter := true
              container := ((filterOf pg).render (filterOf pg).items).container }

/-- The method `ModulesPage.renderModules`. -/
def renderModules (pg : ModulesPage) : ModulesPage :=
  match pg.container with
  | none => pg
  | Option.some _ =>
    if pg.modules.length = 0 then
      { pg with container := Option.some [Node.noModulesYet] }
    else
      { pg with container := Option.some (pg.modules.map Node.card) }

/-- The method `ModulesPage.init`. -/
def init (toNumber : JSVal → Option Int) (pg : ModulesPage) (fetched : FetchResult) :
    JS ModulesPage :=
  match loadModules toNumber pg fetched with
  | .error e => .error e
  | .ok loaded => .ok (renderModules (setupSearch loaded))

/-- The page as its constructor leaves it. -/
def create (children : List Node) (searchInput : Bool) : ModulesPage :=
  { modules := [], searchFilter := false, searchInput := searchInput,
    container := Option.some children }

end ModulesPage

/-! ## problems.js: start-up -/

/-- The comparator `(a, b) => a.title.localeCompare(b.title)`: `a.title` has to
be a string, and `localeCompare` stands for the collation of the platform,
applied to the string and the other title. -/
def compareProblems (localeCompare : Str → JSVal → Int) (a b : JSVal) : JS Int :=
  match a.get "title".toList with
  | .error e => .error e
  | .ok (JSVal.str titleA) =>
    match b.get "title".toList with
    | .error e => .error e
    | .ok titleB => .ok (localeCompare titleA titleB)
  | .ok _ => .error .typeError

namespace ProblemsPage

/-- The method `ProblemsPage.showError`. -/
def showError (pg : ProblemsPage) : ProblemsPage :=
  { pg with container := pg.container.map (fun children => children ++ [Node.errorMessage]) }

/-- The method `ProblemsPage.loadProblems`. -/
def loadProblems (localeCompare : Str → JSVal → Int) (pg : ProblemsPage)
    (fetched : FetchResult) : JS ProblemsPage :=
  match fetched with
  | .error message =>
    if !message.isEmpty then .ok (showError pg) else .error .typeError
  | .data data =>
    match JSArray.sort (compareProblems localeCompare) data with
    | .error e => .error e
    | .ok sorted => .ok { pg with problems := sorted }

/-- The method `ProblemsPage.setupSearch`. -/
def setupSearch (pg : ProblemsPage) : ProblemsPage :=
  if pg.searchInput.isNone || pg.container.isNone then pg
  else
    { pg with searchFilter := true
              container := ((filterOf pg).render (filterOf pg).items).container }

/-- The method `ProblemsPage.init`; `setupTagFiltering` and `renderTagCloud`
leave the state kept here as it is. -/
def init (localeCompare : Str → JSVal → Int) (pg : ProblemsPage) (fetched : FetchResult) :
    JS ProblemsPage :=
  match loadProblems localeCompare pg fetched with
  | .error e => .error e
  | .ok loaded => .ok (renderProblems (setupSearch loaded))

/-- The page as its constructor leaves it. -/
def create (children : List Node) (searchInput : Option Str) : ProblemsPage :=
  { problems := [], selectedTags := [], searchFilter := false, searchInput := searchInput,
    container := Option.some children }

end ProblemsPage

/-! ## components.js: relative time -/

/-- The table `intervals` of `formatRelativeTime`, in the order of its keys. -/
def intervals : List (Str × Int) :=
  [("year".toList, 31536000), ("month".toList, 2592000), ("week".toList, 604800),
   ("day".toList, 86400), ("hour".toList, 3600), ("minute".toList, 60)]

/-- The decimal form of an integer, as a template string prints it. -/
def numberToString (n : Int) : Str :=
  if n < 0 then '-' :: Nat.toDigits 10 n.natAbs else Nat.toDigits 10 n.toNat

/-- The text `N unit ago`, the unit in the plural unless `N` is one. -/
def agoText (interval : Int) (unit : Str) : Str :=
  numberToString interval ++ " ".toList ++ unit ++
    (if interval = 1 then [] else "s".toList) ++ " ago".toList

/-- The loop of `formatRelativeTime` over the entries of `intervals`; on
integers and a positive divisor `/` is the floor of the quotient. -/
def relativeTimeOf (diffInSeconds : Int) (entries : List (Str × Int)) : Str :=
  match entries with
  | [] => "Just now".toList
  | (unit, seconds) :: rest =>
    if diffInSeconds / seconds ≥ 1 then agoText (diffInSeconds / seconds) unit
    else relativeTimeOf diffInSeconds rest

/-- The function `Components.formatRelativeTime`, given the time value `now` of
the current time in milliseconds; on an invalid date the difference is `NaN`
and no comparison of the loop holds. -/
def formatRelativeTime (dateValue : JSVal → Option Int) (now : Int) (dateString : JSVal) :
    Str :=
  match dateValue dateString with
  | none => "Just now".toList
  | Option.some date => relativeTimeOf ((now - date) / 1000) intervals

/-! ## theme.js -/

/-- The state of the `ThemeManager`: the field `theme`, the item `theme` of the
local storage (`none` when absent) and whether the root element carries the
class `dark`. -/
structure ThemeManager where
  theme : Str
  stored : Option Str
  dark : Bool

namespace ThemeManager

/-- Truthiness of `getStoredTheme()`: an item that is present and not empty. -/
def hasStoredTheme (tm : ThemeManager) : Bool :=
  match tm.stored with
  | Option.some s => !s.isEmpty
  | none => false

/-- The method `ThemeManager.updateTheme`. -/
def updateTheme (tm : ThemeManager) : ThemeManager :=
  { tm with dark := decide (tm.theme = "dark".toList) }

/-- The method `ThemeManager.toggle`. -/
def toggle (tm : ThemeManager) : ThemeManager :=
  let theme := if tm.theme = "dark".toList then "light".toList else "dark".toList
  updateTheme { tm with theme := theme, stored := Option.some theme }

/-- The listener of `setupSystemThemeListener` on a change of the system colour
scheme. -/
def systemChange (tm : ThemeManager) (isDark : Bool) : ThemeManager :=
  if !tm.hasStoredTheme then
    updateTheme { tm with theme := if isDark then "dark".toList else "light".toList }
  else tm

/-- The constructor: the stored theme if there is one, the system preference
otherwise. -/
def create (stored : Option Str) (prefersDark : Bool) : ThemeManager :=
  updateTheme
    { theme :=
        match stored with
        | Option.some s =>
          if !s.isEmpty then s else (if prefersDark then "dark".toList else "light".toList)
        | none => if prefersDark then "dark".toList else "light".toList
      stored := stored
      dark := false }

end ThemeManager

/-- An event of the theme manager. -/
inductive ThemeEvent where
  | toggle
  | systemChange (isDark : Bool)

/-- One event handled by the theme manager. -/
def ThemeManager.step (tm : ThemeManager) (e : ThemeEvent) : ThemeManager :=
  match e with
  | .toggle => tm.toggle
  | .systemChange isDark => tm.systemChange isDark

/-- A sequence of events, handled one after the other. -/
def ThemeManager.run (tm : ThemeManager) (events : List ThemeEvent) : ThemeManager :=
  events.foldl ThemeManager.step tm

/-! ## Example data -/

/-- The object with one string property `title`. -/
def titled (title : String) : JSVal := .obj [("title".toList, .str title.toList)]

/-- A filter over three titled items, searching the field `title`. -/
def exampleFilter : SearchFilter :=
  { items := [titled "Alpha", titled "Beta", titled "Gamma"]
    searchFields := ["title".toList]
    filterTags := []
    container := Option.some []
    renderFunction := true }

/-- The Problems page loaded with three problems. -/
def examplePage : ProblemsPage :=
  ProblemsPage.loaded
    [problemOf "Alpha" ["x", "y"], problemOf "Beta" ["y"], problemOf "Gamma" ["x"]]

/-- A map whose location ids contain hyphens: the paths `a` to `b-c` and `a-b`
to `c` have the same key `a-b-c`. -/
def hyphenMap : Visualizer :=
  loadMasterGraph
    "LocationID,Name,Latitude,Longitude\na,A,1,1\nb-c,B,2,2\na-b,C,3,3\nc,D,4,4".toList
    "LocationID_1,LocationID_2,Time\na,b-c,5\na-b,c,7".toList

/-- The map of the two locations `A` and `B`, with a path between them and a
path to a location `C` that is not in the table. -/
def exampleMap : Visualizer :=
  loadMasterGraph
    "LocationID,Name,Latitude,Longitude\nA,Alpha,1.0,2.0\nB,Beta,3.0,4.0".toList
    "LocationID_1,LocationID_2,Time\nA,B,5\nB,C,7".toList

/-- The map of three locations, the second with the latitude `abc`, and a path
between the first and the third. -/
def nanMap : Visualizer :=
  loadMasterGraph
    "LocationID,Name,Latitude,Longitude\nA,Alpha,1,1\nB,Beta,abc,4\nC,Gamma,3,3".toList
    "LocationID_1,LocationID_2,Time\nA,C,5".toList

/-- The map of the two locations `A` and `B`, with a path from `constructor`,
which is no location, and then a path between `A` and `B`. -/
def inheritedNameMap : Visualizer :=
  loadMasterGraph
    "LocationID,Name,Latitude,Longitude\nA,Alpha,1,1\nB,Beta,2,2".toList
    "LocationID_1,LocationID_2,Time\nconstructor,A,3\nA,B,5".toList

/-- Two rows whose ids `A` and `A ` differ by a trailing space only. -/
def collidingRows : List LocationRow :=
  [⟨"A".toList, "Alpha".toList, "1.0".toList, "2.0".toList⟩,
   ⟨"A ".toList, "Beta".toList, "3.0".toList, "4.0".toList⟩]

/-- A single row, with the id `__proto__`. -/
def protoRows : List LocationRow :=
  [⟨"__proto__".toList, "Alpha".toList, "1.0".toList, "2.0".toList⟩]

/-- The two rows of the example of the specification. -/
def exampleRows : List LocationRow :=
  [⟨"A".toList, "Alpha".toList, "1.0".toList, "2.0".toList⟩,
   ⟨"B".toList, "Beta".toList, "3.0".toList, "4.0".toList⟩]

/-- A filter over the single item titled with the Greek word alpha, final
sigma (U+03B1 U+03C2). -/
def sigmaFilter : SearchFilter :=
  { exampleFilter with items := [titled "\u03b1\u03c2"] }

/-- A filter over the single item titled with the Greek capitals alpha and
sigma (U+0391 U+03A3). -/
def capitalSigmaFilter : SearchFilter :=
  { exampleFilter with items := [titled "\u0391\u03a3"] }

/-- The page with the tag `x` selected and the text `al` in the search box. -/
def filteredPage : ProblemsPage :=
  { examplePage with selectedTags := ["x".toList], searchInput := Option.some "al".toList }

/-- The announcement with the given `posted_at`. -/
def postedOn (date : String) : JSVal := .obj [("posted_at".toList, .str date.toList)]

/-! # Theorems -/

/-! ## Strings -/

theorem toLowerCase_nil : toLowerCase [] = [] := rfl

theorem includes_iff (s t : Str) : includes s t = true ↔ t <:+: s := by
  unfold includes
  rw [List.any_eq_true]
  constructor
  · rintro ⟨u, hu, hp⟩
    rw [List.mem_tails] at hu
    rw [List.isPrefixOf_iff_prefix] at hp
    exact hp.isInfix.trans hu.isInfix
  · intro h
    obtain ⟨u, hp, hu⟩ := List.infix_iff_prefix_suffix.mp h
    exact ⟨u, (List.mem_tails _ _).mpr hu, List.isPrefixOf_iff_prefix.mpr hp⟩

theorem trimEnd_prefix_self (s : Str) : trimEnd s <+: s := by
  unfold trimEnd
  have h : s.reverse.dropWhile isWhiteSpace <:+ s.reverse := List.dropWhile_suffix _
  have := List.reverse_prefix.mpr h
  simpa using this

theorem trim_infix_self (s : Str) : trim s <:+: s := by
  unfold trim trimStart
  exact (trimEnd_prefix_self _).isInfix.trans (List.dropWhile_suffix _).isInfix

theorem isWhiteSpace_false_of_range (n : Nat) (c : Char) (hn : c.toNat = n)
    (h1 : 33 ≤ n) (h2 : n ≤ 1500) (h3 : n ≠ 0xA0) : isWhiteSpace c = false := by
  unfold isWhiteSpace
  simp only [hn]
  simp
  omega

theorem toNat_ofNat_small (n : Nat) (h : n < 0xd800) : (Char.ofNat n).toNat = n := by
  unfold Char.ofNat
  have hv : n.isValidChar := Or.inl h
  simp only [hv, dite_true]
  unfold Char.ofNatAux Char.toNat
  simp [UInt32.toNat]

theorem isWhiteSpace_toLower (c : Char) : isWhiteSpace c.toLower = isWhiteSpace c := by
  unfold Char.toLower
  simp only
  split
  next h =>
    rw [isWhiteSpace_false_of_range (c.toNat + 32) _ (toNat_ofNat_small _ (by omega))
        (by omega) (by omega) (by omega),
      isWhiteSpace_false_of_range c.toNat c rfl (by omega) (by omega) (by omega)]
  next h => rfl

theorem isWhiteSpace_lowerChar (c : Char) : isWhiteSpace (lowerChar c) = isWhiteSpace c := by
  unfold lowerChar
  split
  next h =>
    unfold isGreekCapital at h
    simp only [Bool.and_eq_true, decide_eq_true_eq, bne_iff_ne, ne_eq] at h
    rw [isWhiteSpace_false_of_range (c.toNat + 32) _ (toNat_ofNat_small _ (by omega))
        (by omega) (by omega) (by omega),
      isWhiteSpace_false_of_range c.toNat c rfl (by omega) (by omega) (by omega)]
  next h => exact isWhiteSpace_toLower c

theorem all_isWhiteSpace_toLowerCaseFrom (b : Bool) (s : Str) :
    (toLowerCaseFrom b s).all isWhiteSpace = s.all isWhiteSpace := by
  induction s generalizing b with
  | nil => rfl
  | cons c rest ih =>
    unfold toLowerCaseFrom
    rw [List.all_cons, List.all_cons, ih]
    congr 1
    split
    next h =>
      rw [isWhiteSpace_false_of_range 0x3A3 c h (by omega) (by omega) (by omega)]
      split <;> decide
    next h => exact isWhiteSpace_lowerChar c

theorem trim_eq_nil_iff (s : Str) : trim s = [] ↔ s.all isWhiteSpace = true := by
  unfold trim trimEnd trimStart
  rw [List.reverse_eq_nil_iff, List.dropWhile_eq_nil_iff, List.all_eq_true]
  constructor
  · intro h
    have hnil : s.dropWhile isWhiteSpace = [] := by
      rw [← List.dropWhile_idempotent, List.dropWhile_eq_nil_iff]
      intro x hx
      exact h x (List.mem_reverse.mpr hx)
    exact List.dropWhile_eq_nil_iff.mp hnil
  · intro h
    rw [List.dropWhile_eq_nil_iff.mpr h]
    intro x hx
    cases hx

theorem trim_toLowerCase_ne_nil (s : Str) (h : trim s ≠ []) : trim (toLowerCase s) ≠ [] := by
  intro hnil
  apply h
  rw [trim_eq_nil_iff] at hnil ⊢
  unfold toLowerCase at hnil
  rwa [all_isWhiteSpace_toLowerCaseFrom] at hnil

/-! ## Array methods -/

theorem some_ok_of_forall_ok {α : Type} (xs : List α) (p : α → JS Bool)
    (h : ∀ x ∈ xs, ∃ b, p x = .ok b) : ∃ b, JSArray.some xs p = .ok b := by
  induction xs with
  | nil => exact ⟨false, rfl⟩
  | cons x rest ih =>
    obtain ⟨b, hb⟩ := h x (List.mem_cons_self _ _)
    unfold JSArray.some
    rw [hb]
    cases b with
    | true => exact ⟨true, rfl⟩
    | false => exact ih (fun y hy => h y (List.mem_cons_of_mem _ hy))

theorem some_true_of_mem {α : Type} (xs : List α) (p : α → JS Bool) (x : α) (b : Bool)
    (hx : x ∈ xs) (hp : p x = .ok true) (h : JSArray.some xs p = .ok b) : b = true := by
  induction xs with
  | nil => cases hx
  | cons y rest ih =>
    unfold JSArray.some at h
    rcases List.mem_cons.mp hx with rfl | hmem
    · rw [hp] at h
      cases h
      rfl
    · cases hy : p y with
      | error e => rw [hy] at h; cases h
      | ok c =>
        rw [hy] at h
        cases c with
        | true => cases h; rfl
        | false => exact ih hmem h

theorem mem_of_some_true {α : Type} (xs : List α) (p : α → JS Bool)
    (h : JSArray.some xs p = .ok true) : ∃ x ∈ xs, p x = .ok true := by
  induction xs with
  | nil => cases h
  | cons y rest ih =>
    unfold JSArray.some at h
    cases hy : p y with
    | error e => rw [hy] at h; cases h
    | ok c =>
      rw [hy] at h
      cases c with
      | true => exact ⟨y, List.mem_cons_self _ _, hy⟩
      | false =>
        obtain ⟨x, hx, hpx⟩ := ih h
        exact ⟨x, List.mem_cons_of_mem _ hx, hpx⟩

theorem filter_ok_of_forall_ok {α : Type} (xs : List α) (p : α → JS Bool)
    (h : ∀ x ∈ xs, ∃ b, p x = .ok b) : ∃ r, JSArray.filter xs p = .ok r := by
  induction xs with
  | nil => exact ⟨[], rfl⟩
  | cons x rest ih =>
    obtain ⟨b, hb⟩ := h x (List.mem_cons_self _ _)
    obtain ⟨r, hr⟩ := ih (fun y hy => h y (List.mem_cons_of_mem _ hy))
    unfold JSArray.filter
    rw [hb, hr]
    exact ⟨_, rfl⟩

theorem filter_ok_sublist {α : Type} (xs : List α) (p : α → JS Bool) (r : List α)
    (h : JSArray.filter xs p = .ok r) : List.Sublist r xs := by
  induction xs generalizing r with
  | nil => cases h; exact List.Sublist.refl _
  | cons x rest ih =>
    unfold JSArray.filter at h
    cases hx : p x with
    | error e => rw [hx] at h; cases h
    | ok keep =>
      rw [hx] at h
      cases hrest : JSArray.filter rest p with
      | error e => rw [hrest] at h; cases h
      | ok kept =>
        rw [hrest] at h
        cases h
        cases keep with
        | true => exact (ih kept hrest).cons₂ x
        | false => exact (ih kept hrest).cons x

theorem filter_ok_forall_ok {α : Type} (xs : List α) (p : α → JS Bool) (r : List α)
    (h : JSArray.filter xs p = .ok r) : ∀ x ∈ xs, ∃ b, p x = .ok b := by
  induction xs generalizing r with
  | nil => intro x hx; cases hx
  | cons y rest ih =>
    unfold JSArray.filter at h
    cases hy : p y with
    | error e => rw [hy] at h; cases h
    | ok keep =>
      rw [hy] at h
      cases hrest : JSArray.filter rest p with
      | error e => rw [hrest] at h; cases h
      | ok kept =>
        intro x hx
        rcases List.mem_cons.mp hx with rfl | hmem
        · exact ⟨keep, hy⟩
        · exact ih kept hrest x hmem

theorem filter_ok_eq {α : Type} (xs : List α) (p : α → JS Bool) (q : α → Bool) (r : List α)
    (hq : ∀ x ∈ xs, ∀ b, p x = .ok b → b = q x)
    (h : JSArray.filter xs p = .ok r) : r = xs.filter q := by
  induction xs generalizing r with
  | nil => cases h; rfl
  | cons y rest ih =>
    unfold JSArray.filter at h
    cases hy : p y with
    | error e => rw [hy] at h; cases h
    | ok keep =>
      rw [hy] at h
      cases hrest : JSArray.filter rest p with
      | error e => rw [hrest] at h; cases h
      | ok kept =>
        rw [hrest] at h
        cases h
        have hk := hq y (List.mem_cons_self _ _) keep hy
        have hkept := ih kept (fun x hx => hq x (List.mem_cons_of_mem _ hx)) hrest
        rw [List.filter_cons, ← hk, hkept]

theorem some_ok_eq_any {α : Type} (xs : List α) (p : α → JS Bool) (q : α → Bool) (b : Bool)
    (hq : ∀ x ∈ xs, ∀ c, p x = .ok c → c = q x)
    (h : JSArray.some xs p = .ok b) : b = xs.any q := by
  induction xs with
  | nil => cases h; rfl
  | cons y rest ih =>
    unfold JSArray.some at h
    cases hy : p y with
    | error e => rw [hy] at h; cases h
    | ok c =>
      rw [hy] at h
      have hc := hq y (List.mem_cons_self _ _) c hy
      cases c with
      | true =>
        cases h
        rw [List.any_cons, ← hc]
        rfl
      | false =>
        rw [List.any_cons, ← hc]
        exact ih (fun x hx => hq x (List.mem_cons_of_mem _ hx)) h

theorem some_eq_any {α : Type} (xs : List α) (p : α → JS Bool) (q : α → Bool)
    (h : ∀ x ∈ xs, p x = .ok (q x)) : JSArray.some xs p = .ok (xs.any q) := by
  induction xs with
  | nil => rfl
  | cons y rest ih =>
    unfold JSArray.some
    rw [h y (List.mem_cons_self _ _), List.any_cons]
    cases q y with
    | true => rfl
    | false => exact ih (fun x hx => h x (List.mem_cons_of_mem _ hx))

theorem every_eq_all {α : Type} (xs : List α) (p : α → JS Bool) (q : α → Bool)
    (h : ∀ x ∈ xs, p x = .ok (q x)) : JSArray.every xs p = .ok (xs.all q) := by
  induction xs with
  | nil => rfl
  | cons y rest ih =>
    unfold JSArray.every
    rw [h y (List.mem_cons_self _ _), List.all_cons]
    cases q y with
    | true => exact ih (fun x hx => h x (List.mem_cons_of_mem _ hx))
    | false => rfl

theorem filter_eq_filter {α : Type} (xs : List α) (p : α → JS Bool) (q : α → Bool)
    (h : ∀ x ∈ xs, p x = .ok (q x)) : JSArray.filter xs p = .ok (xs.filter q) := by
  induction xs with
  | nil => rfl
  | cons y rest ih =>
    unfold JSArray.filter
    rw [h y (List.mem_cons_self _ _), ih (fun x hx => h x (List.mem_cons_of_mem _ hx)),
      List.filter_cons]

/-! ## SearchFilter -/

namespace SearchFilter

theorem renderedItems_map_card (l : List JSVal) : renderedItems (l.map Node.card) = l := by
  induction l with
  | nil => rfl
  | cons x rest ih =>
    show renderedItems (Node.card x :: rest.map Node.card) = x :: rest
    unfold renderedItems at ih ⊢
    rw [List.filterMap_cons]
    simp only [Node.item?]
    rw [ih]

theorem shown_render (sf : SearchFilter) (children : List Node) (l : List JSVal)
    (hc : sf.container = Option.some children) (hr : sf.renderFunction = true) :
    (sf.render l).shown = l := by
  unfold render shown
  rw [hc, hr]
  cases l with
  | nil => rfl
  | cons x rest =>
    simp only [Option.isNone_some, Bool.not_true, Bool.or_self, Bool.false_eq_true, if_false,
      List.length_cons, Nat.succ_ne_zero]
    exact renderedItems_map_card (x :: rest)

theorem lowerIncludes_ok (v : JSVal) (t : Str) (c : Bool) (h : lowerIncludes v t = .ok c) :
    c = entryContains v t := by
  cases v with
  | str s =>
    simp only [lowerIncludes, Except.ok.injEq] at h
    simp only [entryContains]
    rw [← h]
    cases hi : includes (toLowerCase s) t with
    | true => exact (decide_eq_true ((includes_iff _ _).mp hi)).symm
    | false =>
      symm
      apply decide_eq_false
      intro hinfix
      rw [(includes_iff _ _).mpr hinfix] at hi
      cases hi
  | undefined => cases h
  | null => cases h
  | bool _ => cases h
  | num _ => cases h
  | arr _ => cases h
  | obj _ => cases h

theorem fieldMatches_ok (value : JSVal) (t : Str) (b : Bool) (ht : t ≠ [])
    (h : fieldMatches value t = .ok b) : b = fieldContains value t := by
  cases value with
  | arr vs =>
    simp only [fieldMatches] at h
    simp only [fieldContains]
    exact some_ok_eq_any vs _ _ b (fun v _ c hc => lowerIncludes_ok v t c hc) h
  | str s =>
    cases s with
    | nil =>
      simp only [fieldMatches, JSVal.truthy, List.isEmpty_nil, Bool.not_true,
        Bool.false_eq_true, if_false, Except.ok.injEq] at h
      simp only [fieldContains, toLowerCase_nil]
      rw [← h]
      symm
      apply decide_eq_false
      intro hinfix
      exact ht (List.eq_nil_of_infix_nil hinfix)
    | cons c cs =>
      simp only [fieldMatches, JSVal.truthy, List.isEmpty_cons, Bool.not_false, if_true] at h
      exact lowerIncludes_ok _ t b h
  | undefined => cases h; rfl
  | null => cases h; rfl
  | bool x => cases x <;> cases h; rfl
  | num n =>
    simp only [fieldMatches] at h
    by_cases hn : (JSVal.num n).truthy = true
    · rw [if_pos hn] at h; cases h
    · rw [if_neg hn] at h; cases h; rfl
  | obj _ => cases h

theorem fieldMatches_total (value : JSVal) (t : Str) (h : searchable value = true) :
    ∃ b, fieldMatches value t = .ok b := by
  cases value with
  | arr vs =>
    simp only [fieldMatches]
    apply some_ok_of_forall_ok
    intro v hv
    have hs : v.isString = true := List.all_eq_true.mp h v hv
    cases v with
    | str s => exact ⟨_, rfl⟩
    | undefined => cases hs
    | null => cases hs
    | bool _ => cases hs
    | num _ => cases hs
    | arr _ => cases hs
    | obj _ => cases hs
  | str s =>
    simp only [fieldMatches]
    by_cases hs : (JSVal.str s).truthy = true
    · rw [if_pos hs]; exact ⟨_, rfl⟩
    · rw [if_neg hs]; exact ⟨_, rfl⟩
  | undefined => exact ⟨false, rfl⟩
  | null => exact ⟨false, rfl⟩
  | bool x =>
    cases x with
    | true => cases h
    | false => exact ⟨false, rfl⟩
  | num n =>
    simp only [fieldMatches]
    have hn : ¬ (JSVal.num n).truthy = true := by
      intro ht
      simp [searchable, ht] at h
    rw [if_neg hn]
    exact ⟨_, rfl⟩
  | obj _ => cases h

/-- The items kept by a non-empty search term, as a plain filter. -/
theorem search_ok_shown (sf sf' : SearchFilter) (children : List Node) (query : Str)
    (hc : sf.container = Option.some children) (hr : sf.renderFunction = true)
    (hq : trim (toLowerCase query) ≠ [])
    (h : sf.search query = .ok sf') :
    sf'.shown = sf.items.filter (fun item =>
      sf.searchFields.any (fun field =>
        fieldContains (getNestedValue item field) (trim (toLowerCase query)))) := by
  unfold search at h
  have hne : (trim (toLowerCase query)).isEmpty = false := by
    cases hl : trim (toLowerCase query) with
    | nil => exact absurd hl hq
    | cons _ _ => rfl
  simp only [hne, Bool.false_eq_true, if_false] at h
  cases hf : JSArray.filter sf.items (itemMatches sf.searchFields (trim (toLowerCase query))) with
  | error e => rw [hf] at h; cases h
  | ok kept =>
    rw [hf] at h
    cases h
    rw [shown_render sf children kept hc hr]
    apply filter_ok_eq _ _ _ _ _ hf
    intro item _ b hb
    exact some_ok_eq_any _ _ _ b (fun field _ c hcm => fieldMatches_ok _ _ c hq hcm) hb

theorem search_total (sf : SearchFilter) (query : Str) (hw : sf.wellTyped = true) :
    ∃ sf', sf.search query = .ok sf' := by
  unfold search
  by_cases he : (trim (toLowerCase query)).isEmpty = true
  · simp only [he, if_true]; exact ⟨_, rfl⟩
  · simp only [he, if_false]
    have hall : ∀ item ∈ sf.items, ∃ b,
        itemMatches sf.searchFields (trim (toLowerCase query)) item = .ok b := by
      intro item hitem
      apply some_ok_of_forall_ok
      intro field hfield
      apply fieldMatches_total
      exact List.all_eq_true.mp (List.all_eq_true.mp hw item hitem) field hfield
    obtain ⟨r, hr⟩ := filter_ok_of_forall_ok _ _ hall
    rw [hr]
    exact ⟨_, rfl⟩

theorem entryContains_mono (v : JSVal) (t u : Str) (htu : u <:+: t)
    (h : entryContains v t = true) : entryContains v u = true := by
  cases v with
  | str s =>
    simp only [entryContains] at h ⊢
    exact decide_eq_true (htu.trans (of_decide_eq_true h))
  | undefined => cases h
  | null => cases h
  | bool _ => cases h
  | num _ => cases h
  | arr _ => cases h
  | obj _ => cases h

theorem fieldContains_mono (value : JSVal) (t u : Str) (htu : u <:+: t)
    (h : fieldContains value t = true) : fieldContains value u = true := by
  cases value with
  | str s =>
    simp only [fieldContains] at h ⊢
    exact decide_eq_true (htu.trans (of_decide_eq_true h))
  | arr vs =>
    simp only [fieldContains] at h ⊢
    rw [List.any_eq_true] at h ⊢
    obtain ⟨v, hv, hm⟩ := h
    exact ⟨v, hv, entryContains_mono v t u htu hm⟩
  | undefined => cases h
  | null => cases h
  | bool _ => cases h
  | num _ => cases h
  | obj _ => cases h

theorem search_empty_term (sf : SearchFilter) (query : Str)
    (he : trim (toLowerCase query) = []) : sf.search query = .ok (sf.render sf.items) := by
  unfold search
  simp only [he, List.isEmpty_nil, if_true]

/-- C1: with a render target and a rendering function in place, `search` with
the empty string succeeds and the render target then shows exactly the item
list of the filter, each item once and in the original order, whatever the
items and the search fields are. -/
theorem search_empty_renders_all (sf : SearchFilter) (children : List Node)
    (hc : sf.container = Option.some children) (hr : sf.renderFunction = true) :
    ∃ sf', sf.search [] = .ok sf' ∧ sf'.shown = sf.items ∧ sf'.items = sf.items := by
  refine ⟨sf.render sf.items, search_empty_term sf [] rfl, shown_render sf children _ hc hr, ?_⟩
  unfold render
  split
  · rfl
  · split <;> rfl

/-- C1 on the example filter: the empty query shows the three items in order. -/
theorem search_empty_renders_all_witness :
    ∃ sf', exampleFilter.search [] = .ok sf' ∧
      sf'.shown = [titled "Alpha", titled "Beta", titled "Gamma"] ∧
      sf'.items = exampleFilter.items :=
  search_empty_renders_all exampleFilter [] rfl rfl

/-- C2 as stated fails: the capital sigma is a substring of the title made of
the capitals alpha and sigma, as it stands and so also ignoring case, and the
title is a declared search field whose value is a string; yet the search for it
renders the empty list.  The title lower-cases to alpha and the final sigma
U+03C2, the term to the small sigma U+03C3. -/
theorem search_drops_substring_on_final_sigma :
    titled "\u0391\u03a3" ∈ capitalSigmaFilter.items ∧
    "title".toList ∈ capitalSigmaFilter.searchFields ∧
    getNestedValue (titled "\u0391\u03a3") "title".toList = JSVal.str "\u0391\u03a3".toList ∧
    "\u03a3".toList <:+: "\u0391\u03a3".toList ∧
    ∃ sf', capitalSigmaFilter.search "\u03a3".toList = .ok sf' ∧ sf'.shown = [] :=
  ⟨List.mem_cons_self _ _, List.mem_cons_self _ _, rfl, by decide, _, rfl, rfl⟩

/-- C2, amended: if the lower-cased search term is a substring of the
lower-cased value of a declared search field of an item (the string itself or
one string entry of an array), then every list `search` renders includes that
item; and when the search fields are read through own properties and their
values are strings, arrays of strings or falsy, `search` does render. -/
theorem search_keeps_matching_item (sf : SearchFilter) (children : List Node)
    (item : JSVal) (field term : Str)
    (hc : sf.container = Option.some children) (hr : sf.renderFunction = true)
    (hitem : item ∈ sf.items) (hfield : field ∈ sf.searchFields)
    (hsub : fieldContains (getNestedValue item field) (toLowerCase term) = true) :
    (∀ sf', sf.search term = .ok sf' → item ∈ sf'.shown) ∧
    (sf.ownFields = true → sf.wellTyped = true →
      ∃ sf', sf.search term = .ok sf' ∧ item ∈ sf'.shown) := by
  have key : ∀ sf', sf.search term = .ok sf' → item ∈ sf'.shown := by
    intro sf' h
    by_cases he : trim (toLowerCase term) = []
    · rw [search_empty_term sf term he] at h
      cases h
      rw [shown_render sf children _ hc hr]
      exact hitem
    · rw [search_ok_shown sf sf' children term hc hr he h, List.mem_filter]
      refine ⟨hitem, ?_⟩
      rw [List.any_eq_true]
      exact ⟨field, hfield, fieldContains_mono _ _ _ (trim_infix_self _) hsub⟩
  refine ⟨key, fun _ hw => ?_⟩
  obtain ⟨sf', h⟩ := search_total sf term hw
  exact ⟨sf', h, key sf' h⟩

/-- C2, amended, on the example filter: the term `ET` keeps the item titled
`Beta`. -/
theorem search_keeps_matching_item_witness :
    (∀ sf', exampleFilter.search "ET".toList = .ok sf' → titled "Beta" ∈ sf'.shown) ∧
    ∃ sf', exampleFilter.search "ET".toList = .ok sf' ∧ titled "Beta" ∈ sf'.shown :=
  ⟨(search_keeps_matching_item exampleFilter [] (titled "Beta") "title".toList "ET".toList
      rfl rfl (List.mem_cons_of_mem _ (List.mem_cons_self _ _)) (List.mem_cons_self _ _)
      (by decide)).1,
   (search_keeps_matching_item exampleFilter [] (titled "Beta") "title".toList "ET".toList
      rfl rfl (List.mem_cons_of_mem _ (List.mem_cons_self _ _)) (List.mem_cons_self _ _)
      (by decide)).2 (by decide) (by decide)⟩

/-- C3 as stated fails: the query `"a "` is not blank, its lower-cased form
`"a "` is a substring of no field of the item titled `"a"`, and `search`
renders that item all the same, because the query is trimmed as well. -/
theorem search_trims_query_counterexample :
    trim "a ".toList ≠ [] ∧
    ¬ (∀ sf', ({ exampleFilter with items := [titled "a"] } : SearchFilter).search "a ".toList
          = .ok sf' →
        List.Sublist sf'.shown [titled "a"] ∧
        ∀ item ∈ sf'.shown, ∃ field ∈ exampleFilter.searchFields,
          fieldContains (getNestedValue item field) (toLowerCase "a ".toList) = true) := by
  refine ⟨by decide, fun h => ?_⟩
  obtain ⟨field, hfield, hcontains⟩ := (h _ rfl).2 (titled "a") (List.mem_cons_self _ _)
  rw [List.mem_singleton.mp hfield] at hcontains
  revert hcontains
  decide

/-- C3, amended: for a query that is not blank, every list `search` renders is
an order-preserving sublist of the items and holds an item only if the
lower-cased value of one of its declared search fields (the string, or a
string entry of an array) contains the lower-cased and trimmed query; and on
items whose search-field values are strings, arrays of strings or falsy,
`search` does render. -/
theorem search_renders_matching_sublist (sf : SearchFilter) (children : List Node)
    (query : Str)
    (hc : sf.container = Option.some children) (hr : sf.renderFunction = true)
    (hq : trim query ≠ []) :
    (∀ sf', sf.search query = .ok sf' →
      List.Sublist sf'.shown sf.items ∧
      ∀ item ∈ sf'.shown, ∃ field ∈ sf.searchFields,
        fieldContains (getNestedValue item field) (trim (toLowerCase query)) = true) ∧
    (sf.wellTyped = true → ∃ sf', sf.search query = .ok sf') := by
  refine ⟨fun sf' h => ?_, search_total sf query⟩
  rw [search_ok_shown sf sf' children query hc hr (trim_toLowerCase_ne_nil query hq) h]
  refine ⟨List.filter_sublist _, fun item hitem => ?_⟩
  have := (List.mem_filter.mp hitem).2
  rw [List.any_eq_true] at this
  exact this

/-- C3, amended, on the example filter with the query `A `. -/
theorem search_renders_matching_sublist_witness :
    trim "A ".toList ≠ [] ∧
    ((∀ sf', exampleFilter.search "A ".toList = .ok sf' →
      List.Sublist sf'.shown exampleFilter.items ∧
      ∀ item ∈ sf'.shown, ∃ field ∈ exampleFilter.searchFields,
        fieldContains (getNestedValue item field) (trim (toLowerCase "A ".toList)) = true) ∧
    (exampleFilter.wellTyped = true → ∃ sf', exampleFilter.search "A ".toList = .ok sf')) :=
  ⟨by decide, search_renders_matching_sublist exampleFilter [] "A ".toList rfl rfl (by decide)⟩

end SearchFilter

/-! ## Problems page -/

namespace ProblemsPage

theorem shown_renderFilteredProblems (pg : ProblemsPage) (children : List Node)
    (l : List JSVal) (hc : pg.container = Option.some children) :
    (pg.renderFilteredProblems l).shown = l := by
  unfold renderFilteredProblems shown
  rw [hc]
  cases l with
  | nil => rfl
  | cons x rest =>
    simp only [List.length_cons, Nat.succ_ne_zero, if_false]
    exact SearchFilter.renderedItems_map_card (x :: rest)

theorem selectedTags_renderFilteredProblems (pg : ProblemsPage) (l : List JSVal) :
    (pg.renderFilteredProblems l).selectedTags = pg.selectedTags := by
  unfold renderFilteredProblems
  split
  · rfl
  · split <;> rfl

theorem entryContains_of_isString (v : JSVal) (t : Str) (h : v.isString = true) :
    lowerIncludes v t = .ok (entryContains v t) := by
  cases hl : lowerIncludes v t with
  | ok c => rw [SearchFilter.lowerIncludes_ok v t c hl]
  | error e =>
    cases v with
    | str s => cases hl
    | undefined => cases h
    | null => cases h
    | bool _ => cases h
    | num _ => cases h
    | arr _ => cases h
    | obj _ => cases h

theorem textFieldMatches_eq (value : JSVal) (t : Str) (ht : t ≠ [])
    (h : isTextField value = true) :
    textFieldMatches value t = .ok (entryContains value t) := by
  cases value with
  | str s =>
    cases s with
    | nil =>
      simp only [textFieldMatches, JSVal.truthy, List.isEmpty_nil, Bool.not_true,
        Bool.false_eq_true, if_false, entryContains, toLowerCase_nil, Except.ok.injEq]
      symm
      apply decide_eq_false
      intro hinfix
      exact ht (List.eq_nil_of_infix_nil hinfix)
    | cons c cs =>
      simp only [textFieldMatches, JSVal.truthy, List.isEmpty_cons, Bool.not_false, if_true]
      exact entryContains_of_isString _ t rfl
  | undefined => rfl
  | null => rfl
  | bool _ => cases h
  | num _ => cases h
  | arr _ => cases h
  | obj _ => cases h

theorem tagsMatch_eq (tags : JSVal) (t : Str) (h : isTagList tags = true) :
    tagsMatch tags t = .ok (tagsContain tags t) := by
  cases tags with
  | arr xs =>
    simp only [tagsMatch, JSVal.truthy, if_true, tagsContain]
    apply some_eq_any
    intro x hx
    exact entryContains_of_isString x t (List.all_eq_true.mp h x hx)
  | undefined => rfl
  | null => rfl
  | bool _ => cases h
  | num _ => cases h
  | str _ => cases h
  | obj _ => cases h

theorem isProblem_fields (problem : JSVal) (h : isProblem problem = true) :
    (∀ key, problem.get key = .ok (problem.getProp key)) ∧
    isTextField (problem.getProp "title".toList) = true ∧
    isTextField (problem.getProp "description".toList) = true ∧
    isTextField (problem.getProp "topic".toList) = true ∧
    isTagList (problem.getProp "tags".toList) = true := by
  cases problem with
  | obj props =>
    simp only [isProblem, Bool.and_eq_true] at h
    exact ⟨fun _ => rfl, h.1.1.1, h.1.1.2, h.1.2, h.2⟩
  | undefined => cases h
  | null => cases h
  | bool _ => cases h
  | num _ => cases h
  | str _ => cases h
  | arr _ => cases h

theorem inlineMatches_eq (problem : JSVal) (t : Str) (ht : t ≠ [])
    (h : isProblem problem = true) :
    inlineMatches t problem = .ok (problemContains problem t) := by
  obtain ⟨hget, h1, h2, h3, h4⟩ := isProblem_fields problem h
  unfold inlineMatches
  have hsome := some_eq_any ["title".toList, "description".toList, "topic".toList]
    (fun field =>
      match problem.get field with
      | .error e => .error e
      | .ok value => textFieldMatches value t)
    (fun field => entryContains (problem.getProp field) t)
    (by
      intro field hfield
      simp only [hget]
      simp only [List.mem_cons, List.mem_singleton, List.not_mem_nil, or_false] at hfield
      rcases hfield with rfl | rfl | rfl
      · exact textFieldMatches_eq _ t ht h1
      · exact textFieldMatches_eq _ t ht h2
      · exact textFieldMatches_eq _ t ht h3)
  rw [hsome, hget]
  simp only [List.any_cons, List.any_nil, Bool.or_false]
  unfold problemContains
  cases hb : (entryContains (problem.getProp "title".toList) t ||
      (entryContains (problem.getProp "description".toList) t ||
        entryContains (problem.getProp "topic".toList) t)) with
  | true =>
    simp only [Bool.or_assoc, hb, Bool.true_or]
  | false =>
    simp only [Bool.or_assoc]
    rw [tagsMatch_eq _ t h4]
    simp only [Bool.or_eq_false_iff] at hb
    simp only [hb.1, hb.2.1, hb.2.2, Bool.false_or]

theorem hasSelectedTags_eq (selectedTags : List Str) (problem : JSVal)
    (h : isProblem problem = true) :
    hasSelectedTags selectedTags problem = .ok (selectedTags.all (hasTag problem)) := by
  obtain ⟨hget, _, _, _, h4⟩ := isProblem_fields problem h
  unfold hasSelectedTags
  rw [hget]
  simp only
  unfold hasTag
  cases htags : problem.getProp "tags".toList with
  | arr xs =>
    simp only [JSVal.truthy, if_true]
    exact every_eq_all _ _ _ (fun tag _ => rfl)
  | undefined =>
    simp only [JSVal.truthy, Bool.false_eq_true, if_false]
    exact every_eq_all _ _ _ (fun tag _ => rfl)
  | null =>
    simp only [JSVal.truthy, Bool.false_eq_true, if_false]
    exact every_eq_all _ _ _ (fun tag _ => rfl)
  | bool _ => rw [htags] at h4; cases h4
  | num _ => rw [htags] at h4; cases h4
  | str _ => rw [htags] at h4; cases h4
  | obj _ => rw [htags] at h4; cases h4

theorem tagFilter_eq (pg : ProblemsPage)
    (hp : ∀ problem ∈ pg.problems, isProblem problem = true) :
    (if pg.selectedTags.length > 0 then
      JSArray.filter pg.problems (hasSelectedTags pg.selectedTags)
    else .ok pg.problems) =
    .ok (pg.problems.filter (fun problem => pg.selectedTags.all (hasTag problem))) := by
  split
  · exact filter_eq_filter _ _ _ (fun problem h => hasSelectedTags_eq _ problem (hp problem h))
  · next hlen =>
    have hnil : pg.selectedTags = [] := by
      cases hs : pg.selectedTags with
      | nil => rfl
      | cons t ts => rw [hs] at hlen; simp at hlen
    rw [hnil]
    simp

theorem applyFilters_ok (pg : ProblemsPage) (children : List Node) (q : Str)
    (hc : pg.container = Option.some children) (hq : pg.searchInput = Option.some q)
    (hp : ∀ problem ∈ pg.problems, isProblem problem = true) :
    ∃ pg', pg.applyFilters = .ok pg' ∧
      pg'.selectedTags = pg.selectedTags ∧
      pg'.shown = pg.problems.filter (fun problem =>
        pg.selectedTags.all (hasTag problem) &&
          (decide (trim q = []) || problemContains problem (trim (toLowerCase q)))) := by
  unfold applyFilters
  rw [tagFilter_eq pg hp, hq]
  simp only
  by_cases hb : trim q = []
  · simp only [hb, List.isEmpty_nil, Bool.not_true, Bool.false_eq_true, if_false,
      decide_True, Bool.true_or, Bool.and_true]
    exact ⟨_, rfl, selectedTags_renderFilteredProblems _ _,
      shown_renderFilteredProblems pg children _ hc⟩
  · have hne : (trim q).isEmpty = false := by
      cases hl : trim q with
      | nil => exact absurd hl hb
      | cons _ _ => rfl
    simp only [hne, Bool.not_false, if_true, hb, decide_False, Bool.false_or]
    rw [filter_eq_filter _ _ (fun problem => problemContains problem (trim (toLowerCase q)))
      (fun problem h => inlineMatches_eq problem _ (trim_toLowerCase_ne_nil q hb)
        (hp problem (List.mem_filter.mp h).1))]
    refine ⟨_, rfl, selectedTags_renderFilteredProblems _ _, ?_⟩
    rw [shown_renderFilteredProblems pg children _ hc, List.filter_filter]
    congr 1
    funext problem
    exact Bool.and_comm _ _

/-- C4: on a page whose container and search box exist and whose problems are
objects with string (or absent) title, description, topic and an array of
strings (or absent) as tags, `applyFilters` succeeds and shows exactly the
problems, in list order, that carry every selected tag and, unless the search
text is blank, contain the lower-cased trimmed text in their title,
description, topic or a tag; with a blank text that is the tag filter alone,
with no selected tag the search filter alone. -/
theorem applyFilters_shows_tagged_matches (pg : ProblemsPage) (children : List Node)
    (q : Str)
    (hc : pg.container = Option.some children) (hq : pg.searchInput = Option.some q)
    (hp : ∀ problem ∈ pg.problems, isProblem problem = true) :
    ∃ pg', pg.applyFilters = .ok pg' ∧
      pg'.selectedTags = pg.selectedTags ∧
      pg'.shown = pg.problems.filter (fun problem =>
        pg.selectedTags.all (hasTag problem) &&
          (decide (trim q = []) || problemContains problem (trim (toLowerCase q)))) ∧
      (trim q = [] → pg'.shown =
        pg.problems.filter (fun problem => pg.selectedTags.all (hasTag problem))) ∧
      (pg.selectedTags = [] → pg'.shown =
        pg.problems.filter (fun problem =>
          decide (trim q = []) || problemContains problem (trim (toLowerCase q)))) := by
  obtain ⟨pg', hrun, htags, hshown⟩ := applyFilters_ok pg children q hc hq hp
  refine ⟨pg', hrun, htags, hshown, fun hb => ?_, fun hnil => ?_⟩
  · rw [hshown]
    simp only [hb, decide_True, Bool.true_or, Bool.and_true]
  · rw [hshown, hnil]
    simp only [List.all_nil, Bool.true_and]

/-- The tag path keeps the conjunction: after `toggleTag`, on well-typed
problems, every problem shown carries every selected tag. -/
theorem toggleTag_shows_only_tagged (pg : ProblemsPage) (children : List Node) (q tag : Str)
    (hs : pg.searchFilter = true)
    (hc : pg.container = Option.some children) (hq : pg.searchInput = Option.some q)
    (hp : ∀ problem ∈ pg.problems, isProblem problem = true) :
    ∃ pg', pg.toggleTag tag = .ok pg' ∧
      ∀ problem ∈ pg'.shown, ∀ t ∈ pg'.selectedTags, hasTag problem t = true := by
  unfold toggleTag
  have hns : (!pg.searchFilter) = false := by rw [hs]; rfl
  rw [hns]
  simp only [Bool.false_eq_true, if_false]
  split
  · obtain ⟨pg', hrun, htags, hshown⟩ :=
      applyFilters_ok { pg with selectedTags := pg.selectedTags.filter (fun t => t != tag) }
        children q hc hq hp
    refine ⟨pg', hrun, fun problem hproblem t ht => ?_⟩
    rw [hshown] at hproblem
    rw [htags] at ht
    have := (List.mem_filter.mp hproblem).2
    rw [Bool.and_eq_true] at this
    exact List.all_eq_true.mp this.1 t ht
  · obtain ⟨pg', hrun, htags, hshown⟩ :=
      applyFilters_ok { pg with selectedTags := pg.selectedTags ++ [tag] } children q hc hq hp
    refine ⟨pg', hrun, fun problem hproblem t ht => ?_⟩
    rw [hshown] at hproblem
    rw [htags] at ht
    have := (List.mem_filter.mp hproblem).2
    rw [Bool.and_eq_true] at this
    exact List.all_eq_true.mp this.1 t ht

/-- C4 on the example page: with the tag `x` selected and the text ` AL` in the
search box, exactly the problem `Alpha` is shown. -/
theorem applyFilters_shows_tagged_matches_witness :
    ∃ pg', ({ examplePage with selectedTags := ["x".toList],
                               searchInput := Option.some " AL".toList } : ProblemsPage).applyFilters
        = .ok pg' ∧
      pg'.selectedTags = ["x".toList] ∧
      pg'.shown = [problemOf "Alpha" ["x", "y"]] := by
  obtain ⟨pg', hrun, htags, hshown, _, _⟩ :=
    applyFilters_shows_tagged_matches
      { examplePage with selectedTags := ["x".toList], searchInput := Option.some " AL".toList }
      (examplePage.problems.map Node.card) " AL".toList rfl rfl (by
        intro problem h
        have h' : problem ∈
            [problemOf "Alpha" ["x", "y"], problemOf "Beta" ["y"], problemOf "Gamma" ["x"]] := h
        simp only [List.mem_cons, List.mem_singleton, List.not_mem_nil, or_false] at h'
        rcases h' with rfl | rfl | rfl <;> rfl)
  refine ⟨pg', hrun, htags, ?_⟩
  rw [hshown]
  rfl

/-- C5, the failing run: with the tag `x` selected, typing `b` into the search
box goes through `SearchFilter.search`, which filters the whole problem list
by the text alone; the page then shows the problem `Beta`, whose tags do not
include the selected tag `x`. -/
theorem search_input_ignores_selected_tags :
    ∃ pg', examplePage.run [PageEvent.toggleTag "x".toList, PageEvent.input "b".toList] = .ok pg' ∧
      pg'.selectedTags = ["x".toList] ∧
      pg'.shown = [problemOf "Beta" ["y"]] ∧
      hasTag (problemOf "Beta" ["y"]) "x".toList = false :=
  ⟨_, rfl, rfl, rfl, rfl⟩

end ProblemsPage

/-! ## Visualizer -/

theorem hyphenMap_paths :
    hyphenMap.paths =
      [{ fromId := "a".toList, toId := "b-c".toList, time := JSNumber.parseInt "5".toList },
       { fromId := "a-b".toList, toId := "c".toList, time := JSNumber.parseInt "7".toList }] := by
  decide

theorem contains_iff_mem (keys : List Str) (key : Str) :
    keys.contains key = true ↔ key ∈ keys := by
  simp

theorem mem_setAdd (keys : List Str) (key k : Str) :
    k ∈ setAdd keys key ↔ k ∈ keys ∨ k = key := by
  unfold setAdd
  split
  next h =>
    have hmem : key ∈ keys := (contains_iff_mem _ _).mp h
    constructor
    · exact Or.inl
    · rintro (h1 | rfl)
      · exact h1
      · exact hmem
  next h => simp

theorem mem_setDelete (keys : List Str) (key k : Str) :
    k ∈ setDelete keys key ↔ k ∈ keys ∧ k ≠ key := by
  unfold setDelete
  simp [List.mem_filter]

/-- C6: on a set that does not hold the key `from-to` of a path, one click on
the line of the path gives a set holding both `from-to` and `to-from`, and a
second click on it gives a set holding neither. -/
theorem click_twice_adds_then_removes_both_keys (path : Path) (off : List Str)
    (h : pathKey path ∉ off) :
    pathKey path ∈ clickPath off path ∧ reversePathKey path ∈ clickPath off path ∧
    pathKey path ∉ clickPath (clickPath off path) path ∧
    reversePathKey path ∉ clickPath (clickPath off path) path := by
  have hfirst : clickPath off path = setAdd (setAdd off (pathKey path)) (reversePathKey path) := by
    unfold clickPath
    rw [if_neg]
    intro hc
    exact h ((contains_iff_mem _ _).mp hc)
  have hkey : pathKey path ∈ clickPath off path := by
    rw [hfirst, mem_setAdd, mem_setAdd]
    exact Or.inl (Or.inr rfl)
  have hrev : reversePathKey path ∈ clickPath off path := by
    rw [hfirst, mem_setAdd]
    exact Or.inr rfl
  have hsecond : clickPath (clickPath off path) path =
      setDelete (setDelete (clickPath off path) (pathKey path)) (reversePathKey path) := by
    generalize clickPath off path = once at hkey
    unfold clickPath
    rw [if_pos ((contains_iff_mem _ _).mpr hkey)]
  refine ⟨hkey, hrev, ?_, ?_⟩
  · rw [hsecond, mem_setDelete, mem_setDelete]
    intro hmem
    exact hmem.1.2 rfl
  · rw [hsecond, mem_setDelete]
    intro hmem
    exact hmem.2 rfl

/-- C6 on the path from `A` to `B` and the empty set. -/
theorem click_twice_adds_then_removes_both_keys_witness :
    "A-B".toList ∈ clickPath [] ⟨"A".toList, "B".toList, JSNumber.parseInt "5".toList⟩ ∧
    "B-A".toList ∈ clickPath [] ⟨"A".toList, "B".toList, JSNumber.parseInt "5".toList⟩ ∧
    "A-B".toList ∉ clickPath (clickPath [] ⟨"A".toList, "B".toList, JSNumber.parseInt "5".toList⟩)
      ⟨"A".toList, "B".toList, JSNumber.parseInt "5".toList⟩ ∧
    "B-A".toList ∉ clickPath (clickPath [] ⟨"A".toList, "B".toList, JSNumber.parseInt "5".toList⟩)
      ⟨"A".toList, "B".toList, JSNumber.parseInt "5".toList⟩ :=
  click_twice_adds_then_removes_both_keys
    ⟨"A".toList, "B".toList, JSNumber.parseInt "5".toList⟩ [] (List.not_mem_nil _)

theorem beq_false_of_ne (a b : Str) (h : ¬ a = b) : (a == b) = false := by
  simpa using h

theorem beq_true_of_eq (a b : Str) (h : a = b) : (a == b) = true := by
  simpa using h

theorem isWhiteSpace_false_of_sign_or_digit (c : Char)
    (h : c = '+' ∨ c = '-' ∨ c.isDigit = true) : isWhiteSpace c = false := by
  rcases h with rfl | rfl | h
  · decide
  · decide
  · simp only [Char.isDigit, Bool.and_eq_true, decide_eq_true_eq] at h
    have h1 : 48 ≤ c.toNat := h.1
    have h2 : c.toNat ≤ 57 := h.2
    exact isWhiteSpace_false_of_range c.toNat c rfl (by omega) (by omega) (by omega)

theorem trimStart_cons_of_not_space (c : Char) (rest : Str) (h : isWhiteSpace c = false) :
    trimStart (c :: rest) = c :: rest := by
  unfold trimStart
  rw [List.dropWhile_cons, h]
  rfl

/-- The number `parseFloat` reads from a decimal numeral is not `NaN`. -/
theorem parseFloatIsNaN_of_decimalNumeral (text : Str) (h : (decimalNumeral text).isSome = true) :
    parseFloatIsNaN text = false := by
  unfold decimalNumeral at h
  cases text with
  | nil => cases h
  | cons c0 rest0 =>
    by_cases hs : c0 = '+' ∨ c0 = '-'
    · have hd : dropSign (c0 :: rest0) = rest0 := by
        simp only [dropSign, if_pos hs]
      have ht : trimStart (c0 :: rest0) = c0 :: rest0 :=
        trimStart_cons_of_not_space _ _
          (isWhiteSpace_false_of_sign_or_digit c0 (hs.elim Or.inl (fun h2 => Or.inr (Or.inl h2))))
      unfold parseFloatIsNaN
      rw [ht, hd]
      rw [hd] at h
      cases rest0 with
      | nil => cases h
      | cons c rest =>
        simp only at h
        by_cases hc : c.isDigit = true
        · simp only [startsDecimal, hc, Bool.true_or, Bool.not_true]
        · rw [if_neg hc] at h
          cases h
    · have hd : dropSign (c0 :: rest0) = c0 :: rest0 := by
        simp only [dropSign, if_neg hs]
      rw [hd] at h
      simp only at h
      by_cases hc : c0.isDigit = true
      · have ht : trimStart (c0 :: rest0) = c0 :: rest0 :=
          trimStart_cons_of_not_space _ _
            (isWhiteSpace_false_of_sign_or_digit c0 (Or.inr (Or.inr hc)))
        unfold parseFloatIsNaN
        rw [ht, hd]
        simp only [startsDecimal, hc, Bool.true_or, Bool.not_true]
      · rw [if_neg hc] at h
        cases h

theorem isNaN_of_within (n : JSNumber) (bound : Nat) (h : n.within bound = true) :
    n.isNaN = false := by
  cases n with
  | parseInt text => cases h
  | parseFloat text =>
    unfold JSNumber.within at h
    simp only at h
    apply parseFloatIsNaN_of_decimalNumeral
    cases hd : decimalNumeral text with
    | none => rw [hd] at h; cases h
    | some _ => rfl

/-- Leaflet accepts the coordinates of a record given in degrees. -/
theorem addMarker_of_inDegrees (id : Str) (loc : Location) (h : loc.inDegrees = true) :
    addMarker id loc = Option.some [Layer.marker id loc] := by
  unfold Location.inDegrees at h
  rw [Bool.and_eq_true] at h
  unfold addMarker
  rw [isNaN_of_within _ _ h.1, isNaN_of_within _ _ h.2]
  rfl

theorem mem_of_lookup {β : Type} (obj : List (Str × β)) (key : Str) (value : β)
    (h : obj.lookup key = Option.some value) : (key, value) ∈ obj := by
  induction obj with
  | nil => cases h
  | cons entry rest ih =>
    obtain ⟨k0, v0⟩ := entry
    rw [List.lookup_cons] at h
    by_cases hk : key = k0
    · rw [beq_true_of_eq _ _ hk] at h
      cases h
      rw [hk]
      exact List.mem_cons_self _ _
    · rw [beq_false_of_ne _ _ hk] at h
      exact List.mem_cons_of_mem _ (ih h)

theorem mem_of_mem_enumerationOrder {β : Type} (obj : List (Str × β)) (entry : Str × β)
    (h : entry ∈ enumerationOrder obj) : entry ∈ obj := by
  unfold enumerationOrder at h
  rcases List.mem_append.mp h with h1 | h1
  · exact (List.mem_filter.mp (((List.perm_insertionSort _ _).mem_iff).mp h1)).1
  · exact (List.mem_filter.mp h1).1

theorem runSteps_map_some (steps : List (List Layer)) :
    runSteps (steps.map Option.some) = { layers := steps.flatten, completed := true } := by
  induction steps with
  | nil => rfl
  | cons layers rest ih =>
    rw [List.map_cons, runSteps, ih]
    rfl

/-- The read `locations[key]` for a key that is an own key or names no member of
`Object.prototype`. -/
theorem resolve_plain (v : Visualizer) (key : Str)
    (hkey : v.locations.lookup key = none → key ∉ objectPrototypeMembers) :
    v.resolve key =
      match v.locations.lookup key with
      | Option.some loc => Resolved.record loc
      | none => Resolved.missing := by
  unfold Visualizer.resolve
  cases hl : v.locations.lookup key with
  | some loc => rfl
  | none =>
    have hmem := hkey hl
    have hne : ¬ key = protoKey := by
      intro heq
      apply hmem
      rw [heq]
      decide
    simp only [if_neg hne, if_neg hmem]

/-- The layers of a path whose endpoints are records given in degrees. -/
theorem drawPath_of_records (v : Visualizer) (path : Path) (fromLoc toLoc : Location)
    (hfrom : v.resolve path.fromId = Resolved.record fromLoc)
    (hto : v.resolve path.toId = Resolved.record toLoc)
    (hf : fromLoc.inDegrees = true) (ht : toLoc.inDegrees = true) :
    drawPath v path = Option.some
      (if pathKey path ∈ v.toggledOffPathKeys then
        [Layer.polyline fromLoc toLoc "#FF0000".toList (pathKey path) (reversePathKey path)]
      else
        [Layer.polyline fromLoc toLoc "#0000FF".toList (pathKey path) (reversePathKey path),
         Layer.weightLabel fromLoc toLoc path.time]) := by
  unfold Location.inDegrees at hf ht
  rw [Bool.and_eq_true] at hf ht
  unfold drawPath
  rw [hfrom, hto]
  simp only [isNaN_of_within _ _ hf.1, isNaN_of_within _ _ hf.2, isNaN_of_within _ _ ht.1,
    isNaN_of_within _ _ ht.2, Bool.or_self, Bool.false_eq_true, if_false]
  by_cases hoff : pathKey path ∈ v.toggledOffPathKeys
  · rw [if_pos hoff, (contains_iff_mem _ _).mpr hoff]
    rfl
  · rw [if_neg hoff]
    have hc : v.toggledOffPathKeys.contains (pathKey path) = false := by
      cases hb : v.toggledOffPathKeys.contains (pathKey path) with
      | false => rfl
      | true => exact absurd ((contains_iff_mem _ _).mp hb) hoff
    rw [hc]
    rfl

/-- A path with an endpoint that reads as `undefined` draws nothing. -/
theorem drawPath_of_missing (v : Visualizer) (path : Path)
    (h : v.resolve path.fromId = Resolved.missing ∨ v.resolve path.toId = Resolved.missing) :
    drawPath v path = Option.some [] := by
  unfold drawPath
  rcases h with h | h
  · rw [h]
  · rw [h]
    cases v.resolve path.fromId <;> rfl

/-- C7 as stated fails, in two ways.  On the table whose second record has the
latitude `abc`, which `parseFloat` reads as `NaN`, the call `L.marker` throws
at that record: the map keeps the marker of the first record alone, and the
path from `A` to `C`, both in the table, gets no line.  On the table with the
records `A` and `B`, the path from `constructor` reads the inherited member of
that name as its endpoint, drawing it throws, and the path from `A` to `B`
that comes after it gets no line. -/
theorem drawMap_stops_at_a_throw :
    ((⟨"A".toList, "C".toList, JSNumber.parseInt "5".toList⟩ : Path) ∈ nanMap.paths ∧
      (nanMap.locations.lookup "A".toList).isSome = true ∧
      (nanMap.locations.lookup "C".toList).isSome = true ∧
      drawMap nanMap =
        { layers := [Layer.marker "A".toList
            ⟨"Alpha".toList, JSNumber.parseFloat "1".toList, JSNumber.parseFloat "1".toList⟩]
          completed := false }) ∧
    ((⟨"A".toList, "B".toList, JSNumber.parseInt "5".toList⟩ : Path) ∈ inheritedNameMap.paths ∧
      (inheritedNameMap.locations.lookup "A".toList).isSome = true ∧
      (inheritedNameMap.locations.lookup "B".toList).isSome = true ∧
      inheritedNameMap.locations.lookup "constructor".toList = none ∧
      drawMap inheritedNameMap =
        { layers := [Layer.marker "A".toList
            ⟨"Alpha".toList, JSNumber.parseFloat "1".toList, JSNumber.parseFloat "1".toList⟩,
           Layer.marker "B".toList
            ⟨"Beta".toList, JSNumber.parseFloat "2".toList, JSNumber.parseFloat "2".toList⟩]
          completed := false }) := by
  decide

/-- C7, amended: on a node table that has the prototype of a plain object and
whose records have coordinates in degrees, with paths whose endpoints outside
the table name no member of `Object.prototype`, `drawMap` runs to its end and
the layers on the map are the marker of each record followed by the layers of
each path in turn; a path whose two endpoints are in the node table gives
exactly one line, red `#FF0000` and without label when its key `from-to` is in
the disabled set, blue `#0000FF` and followed by one label with its time
otherwise; a path with an endpoint missing from the table gives no layer at
all. -/
theorem drawMap_draws_each_path (v : Visualizer)
    (hproto : v.locationsProto = none)
    (hdeg : ∀ entry ∈ v.locations, entry.2.inDegrees = true)
    (hnames : ∀ path ∈ v.paths,
      (v.locations.lookup path.fromId = none → path.fromId ∉ objectPrototypeMembers) ∧
      (v.locations.lookup path.toId = none → path.toId ∉ objectPrototypeMembers)) :
    drawMap v =
      { layers := (if v.locations.length = 0 then []
            else (enumerationOrder v.locations).map (fun entry => Layer.marker entry.1 entry.2)) ++
          v.paths.flatMap (fun path => (drawPath v path).getD [])
        completed := true } ∧
    ∀ path ∈ v.paths,
      (∀ fromLoc toLoc, v.locations.lookup path.fromId = Option.some fromLoc →
        v.locations.lookup path.toId = Option.some toLoc →
        drawPath v path = Option.some
          (if pathKey path ∈ v.toggledOffPathKeys then
            [Layer.polyline fromLoc toLoc "#FF0000".toList (pathKey path) (reversePathKey path)]
          else
            [Layer.polyline fromLoc toLoc "#0000FF".toList (pathKey path) (reversePathKey path),
             Layer.weightLabel fromLoc toLoc path.time])) ∧
      (v.locations.lookup path.fromId = none ∨ v.locations.lookup path.toId = none →
        drawPath v path = Option.some []) := by
  have hpath : ∀ path ∈ v.paths,
      (∀ fromLoc toLoc, v.locations.lookup path.fromId = Option.some fromLoc →
        v.locations.lookup path.toId = Option.some toLoc →
        drawPath v path = Option.some
          (if pathKey path ∈ v.toggledOffPathKeys then
            [Layer.polyline fromLoc toLoc "#FF0000".toList (pathKey path) (reversePathKey path)]
          else
            [Layer.polyline fromLoc toLoc "#0000FF".toList (pathKey path) (reversePathKey path),
             Layer.weightLabel fromLoc toLoc path.time])) ∧
      (v.locations.lookup path.fromId = none ∨ v.locations.lookup path.toId = none →
        drawPath v path = Option.some []) := by
    intro path hmem
    have rfrom := resolve_plain v path.fromId (hnames path hmem).1
    have rto := resolve_plain v path.toId (hnames path hmem).2
    constructor
    · intro fromLoc toLoc hfrom hto
      rw [hfrom] at rfrom
      rw [hto] at rto
      exact drawPath_of_records v path fromLoc toLoc rfrom rto
        (hdeg _ (mem_of_lookup _ _ _ hfrom)) (hdeg _ (mem_of_lookup _ _ _ hto))
    · intro hmissing
      apply drawPath_of_missing
      rcases hmissing with h | h
      · rw [h] at rfrom
        exact Or.inl rfrom
      · rw [h] at rto
        exact Or.inr rto
  have hsome : ∀ path ∈ v.paths, drawPath v path = Option.some ((drawPath v path).getD []) := by
    intro path hmem
    cases hfrom : v.locations.lookup path.fromId with
    | none => rw [(hpath path hmem).2 (Or.inl hfrom)]; rfl
    | some fromLoc =>
      cases hto : v.locations.lookup path.toId with
      | none => rw [(hpath path hmem).2 (Or.inr hto)]; rfl
      | some toLoc => rw [(hpath path hmem).1 fromLoc toLoc hfrom hto]; rfl
  refine ⟨?_, hpath⟩
  unfold drawMap
  by_cases hlen : v.locations.length = 0
  · rw [if_pos hlen, if_pos hlen]
    have hnil : v.paths.flatMap (fun path => (drawPath v path).getD []) = [] := by
      rw [List.flatMap_eq_nil_iff]
      intro path hmem
      have hl : v.locations.lookup path.fromId = none := by
        rw [List.length_eq_zero.mp hlen]
        rfl
      rw [(hpath path hmem).2 (Or.inl hl)]
      rfl
    rw [hnil]
    rfl
  · rw [if_neg hlen, if_neg hlen]
    have hmarkers : markerSteps v =
        ((enumerationOrder v.locations).map (fun entry => [Layer.marker entry.1 entry.2])).map
          Option.some := by
      unfold markerSteps inheritedKeys
      rw [hproto, List.map_map]
      simp only [List.map_nil, List.append_nil]
      apply List.map_congr_left
      intro entry hentry
      exact addMarker_of_inDegrees _ _ (hdeg entry (mem_of_mem_enumerationOrder _ _ hentry))
    have hpaths : v.paths.map (drawPath v) =
        (v.paths.map (fun path => (drawPath v path).getD [])).map Option.some := by
      rw [List.map_map]
      apply List.map_congr_left
      intro path hmem
      exact hsome path hmem
    rw [hmarkers, hpaths, ← List.map_append, runSteps_map_some, List.flatten_append]
    congr 1
    congr 1
    · induction enumerationOrder v.locations with
      | nil => rfl
      | cons entry rest ih => rw [List.map_cons, List.flatten_cons, ih]; rfl

/-- C7, amended, on the example map: the markers of `A` and `B`, then the blue
line and the label of the path from `A` to `B`; the path from `B` to `C`, which
is not in the table, draws nothing. -/
theorem drawMap_draws_each_path_witness :
    drawMap exampleMap =
      { layers :=
          [Layer.marker "A".toList
            ⟨"Alpha".toList, JSNumber.parseFloat "1.0".toList, JSNumber.parseFloat "2.0".toList⟩,
           Layer.marker "B".toList
            ⟨"Beta".toList, JSNumber.parseFloat "3.0".toList, JSNumber.parseFloat "4.0".toList⟩,
           Layer.polyline
            ⟨"Alpha".toList, JSNumber.parseFloat "1.0".toList, JSNumber.parseFloat "2.0".toList⟩
            ⟨"Beta".toList, JSNumber.parseFloat "3.0".toList, JSNumber.parseFloat "4.0".toList⟩
            "#0000FF".toList "A-B".toList "B-A".toList,
           Layer.weightLabel
            ⟨"Alpha".toList, JSNumber.parseFloat "1.0".toList, JSNumber.parseFloat "2.0".toList⟩
            ⟨"Beta".toList, JSNumber.parseFloat "3.0".toList, JSNumber.parseFloat "4.0".toList⟩
            (JSNumber.parseInt "5".toList)]
        completed := true } :=
  (drawMap_draws_each_path exampleMap rfl (by decide) (by decide)).1

/-- C8, the failing run: with location ids `a`, `b-c`, `a-b` and `c`, the paths
`a` to `b-c` and `a-b` to `c` share the key `a-b-c`; a click on the first and
then on the second leaves the set holding `b-c-a`, the reverse key of the
first path, without its key `a-b-c`. -/
theorem hyphen_ids_break_symmetric_storage :
    (hyphenMap.clicks [0, 1]).toggledOffPathKeys = ["b-c-a".toList] ∧
    (⟨"a".toList, "b-c".toList, JSNumber.parseInt "5".toList⟩ : Path) ∈ hyphenMap.paths ∧
    pathKey ⟨"a".toList, "b-c".toList, JSNumber.parseInt "5".toList⟩
      ∉ (hyphenMap.clicks [0, 1]).toggledOffPathKeys ∧
    reversePathKey ⟨"a".toList, "b-c".toList, JSNumber.parseInt "5".toList⟩
      ∈ (hyphenMap.clicks [0, 1]).toggledOffPathKeys := by
  decide

/-! ## CSV -/

theorem lookup_assign {β : Type} (obj : List (Str × β)) (key k : Str) (value : β) :
    (assign obj key value).lookup k = if k = key then Option.some value else obj.lookup k := by
  induction obj with
  | nil =>
    unfold assign
    rw [List.lookup_cons]
    by_cases hk : k = key
    · rw [if_pos hk, beq_true_of_eq _ _ hk]
    · rw [if_neg hk, beq_false_of_ne _ _ hk]
  | cons entry rest ih =>
    obtain ⟨k0, v0⟩ := entry
    unfold assign
    by_cases h0 : k0 = key
    · rw [if_pos h0, List.lookup_cons, List.lookup_cons]
      by_cases hk : k = key
      · rw [if_pos hk, beq_true_of_eq _ _ hk]
      · have hk0 : ¬ k = k0 := fun h => hk (h.trans h0)
        rw [if_neg hk, beq_false_of_ne _ _ hk, beq_false_of_ne _ _ hk0]
    · rw [if_neg h0, List.lookup_cons, List.lookup_cons]
      by_cases hk0 : k = k0
      · have hk : ¬ k = key := fun h => h0 (hk0.symm.trans h)
        rw [beq_true_of_eq _ _ hk0, if_neg hk]
      · rw [beq_false_of_ne _ _ hk0]
        exact ih

theorem lookup_set (obj : Row) (col k : Str) (value : Option Str) (hk : col ≠ k) :
    (obj.set col value).lookup k = obj.lookup k := by
  unfold Row.set
  split
  · rfl
  · rw [lookup_assign, if_neg (fun h => hk h.symm)]

theorem lookup_foldl_set_of_not_mem (cols : List (Nat × Str)) (values : List Str)
    (obj : Row) (k : Str) (hk : ∀ col ∈ cols, col.2 ≠ k) :
    (cols.foldl (fun obj (col : Nat × Str) => obj.set col.2 (values.get? col.1)) obj).lookup k
      = obj.lookup k := by
  induction cols generalizing obj with
  | nil => rfl
  | cons col rest ih =>
    rw [List.foldl_cons, ih _ (fun c hc => hk c (List.mem_cons_of_mem _ hc)),
      lookup_set _ _ _ _ (hk col (List.mem_cons_self _ _))]

theorem parseCSV_get_of_not_mem_header (text : Str) (k : Str) (hk : k ∉ csvHeader text) :
    ∀ row ∈ parseCSV text, row.get k = none := by
  intro row hrow
  unfold parseCSV at hrow
  simp only at hrow
  split at hrow
  · cases hrow
  · obtain ⟨line, _, rfl⟩ := List.mem_map.mp hrow
    unfold Row.get
    rw [lookup_foldl_set_of_not_mem]
    · rfl
    · intro col hcol heq
      apply hk
      unfold csvHeader
      rw [← heq]
      have := List.mem_map_of_mem Prod.snd hcol
      rwa [List.enum_map_snd] at this

theorem foldl_eq_of_forall_eq {α β : Type} (f : β → α → β) (acc : β) (xs : List α)
    (h : ∀ x ∈ xs, f acc x = acc) : xs.foldl f acc = acc := by
  induction xs with
  | nil => rfl
  | cons x rest ih =>
    rw [List.foldl_cons, h x (List.mem_cons_self _ _)]
    exact ih (fun y hy => h y (List.mem_cons_of_mem _ hy))

theorem loadLocations_nil_of_missing (rows : List Row) (k : Str)
    (hk : k ∈ ["LocationID".toList, "Latitude".toList, "Longitude".toList])
    (hrows : ∀ row ∈ rows, row.get k = none) :
    loadLocations rows = { own := [], proto := none } := by
  unfold loadLocations
  apply foldl_eq_of_forall_eq
  intro row hrow
  have ht : cellTruthy (row.get k) = false := by
    rw [hrows row hrow]
    rfl
  simp only [List.mem_cons, List.mem_singleton, List.not_mem_nil, or_false] at hk
  rcases hk with rfl | rfl | rfl <;>
    simp only [ht, Bool.false_and, Bool.and_false, Bool.false_eq_true, if_false]

theorem loadPaths_nil_of_missing (rows : List Row) (k : Str)
    (hk : k ∈ ["LocationID_1".toList, "LocationID_2".toList, "Time".toList])
    (hrows : ∀ row ∈ rows, row.get k = none) : loadPaths rows = [] := by
  unfold loadPaths
  apply foldl_eq_of_forall_eq
  intro row hrow
  have ht : cellTruthy (row.get k) = false := by
    rw [hrows row hrow]
    rfl
  simp only [List.mem_cons, List.mem_singleton, List.not_mem_nil, or_false] at hk
  rcases hk with rfl | rfl | rfl <;>
    simp only [ht, Bool.false_and, Bool.and_false, Bool.false_eq_true, if_false]

/-- C10: a text with fewer than two lines after trimming parses to the empty
list of rows; and when the header of the locations file lacks `LocationID`,
`Latitude` or `Longitude`, the node table built by `loadMasterGraph` is empty,
as is the path list when the header of the edges file lacks `LocationID_1`,
`LocationID_2` or `Time`. -/
theorem csv_structural_failure_gives_empty (locationsText pathsText : Str) :
    ((split (trim locationsText) '\n').length < 2 → parseCSV locationsText = []) ∧
    (∀ k ∈ ["LocationID".toList, "Latitude".toList, "Longitude".toList],
      k ∉ csvHeader locationsText →
      (loadMasterGraph locationsText pathsText).locations = []) ∧
    (∀ k ∈ ["LocationID_1".toList, "LocationID_2".toList, "Time".toList],
      k ∉ csvHeader pathsText →
      (loadMasterGraph locationsText pathsText).paths = []) := by
  refine ⟨fun h => ?_, fun k hk hmissing => ?_, fun k hk hmissing => ?_⟩
  · unfold parseCSV
    simp only [h, if_true]
  · exact congrArg LocationTable.own (loadLocations_nil_of_missing _ k hk
      (parseCSV_get_of_not_mem_header locationsText k hmissing))
  · exact loadPaths_nil_of_missing _ k hk
      (parseCSV_get_of_not_mem_header pathsText k hmissing)

/-- C10 on a text with a header alone, and on files whose headers lack
`Latitude` and `Time`. -/
theorem csv_structural_failure_gives_empty_witness :
    parseCSV "LocationID,Name,Latitude,Longitude\n".toList = [] ∧
    (loadMasterGraph "LocationID,Name,Lat,Longitude\nA,Alpha,1.0,2.0".toList
      "LocationID_1,LocationID_2\nA,B".toList).locations = [] ∧
    (loadMasterGraph "LocationID,Name,Lat,Longitude\nA,Alpha,1.0,2.0".toList
      "LocationID_1,LocationID_2\nA,B".toList).paths = [] :=
  ⟨(csv_structural_failure_gives_empty "LocationID,Name,Latitude,Longitude\n".toList []).1
      (by decide),
   (csv_structural_failure_gives_empty "LocationID,Name,Lat,Longitude\nA,Alpha,1.0,2.0".toList
      "LocationID_1,LocationID_2\nA,B".toList).2.1 "Latitude".toList (by decide) (by decide),
   (csv_structural_failure_gives_empty "LocationID,Name,Lat,Longitude\nA,Alpha,1.0,2.0".toList
      "LocationID_1,LocationID_2\nA,B".toList).2.2 "Time".toList (by decide) (by decide)⟩

/-! ## CSV round trip -/

theorem split_of_not_mem (a : Str) (sep : Char) (h : sep ∉ a) : split a sep = [a] := by
  induction a with
  | nil => rfl
  | cons c cs ih =>
    unfold split
    have hc : ¬ c = sep := fun hcs => h (hcs ▸ List.mem_cons_self _ _)
    rw [if_neg hc, ih (fun hm => h (List.mem_cons_of_mem _ hm))]

theorem split_append_cons (a b : Str) (sep : Char) (h : sep ∉ a) :
    split (a ++ sep :: b) sep = a :: split b sep := by
  induction a with
  | nil =>
    show split (sep :: b) sep = [] :: split b sep
    rw [split.eq_2, if_pos rfl]
  | cons c cs ih =>
    show split (c :: (cs ++ sep :: b)) sep = (c :: cs) :: split b sep
    have hc : ¬ c = sep := fun hcs => h (hcs ▸ List.mem_cons_self _ _)
    rw [split.eq_2, if_neg hc, ih (fun hm => h (List.mem_cons_of_mem _ hm))]

theorem split_lines {α : Type} (line : α → Str) (rows : List α) (a : Str)
    (ha : '\n' ∉ a) (hrows : ∀ r ∈ rows, '\n' ∉ line r) :
    split (a ++ rows.flatMap (fun r => '\n' :: line r)) '\n' = a :: rows.map line := by
  induction rows generalizing a with
  | nil =>
    rw [List.flatMap_nil, List.append_nil]
    exact split_of_not_mem a _ ha
  | cons r rest ih =>
    rw [List.flatMap_cons, List.cons_append, split_append_cons _ _ _ ha,
      ih (line r) (hrows r (List.mem_cons_self _ _))
        (fun x hx => hrows x (List.mem_cons_of_mem _ hx))]
    rfl

theorem trim_eq_self (s : Str)
    (hhead : ∀ c, s.head? = Option.some c → isWhiteSpace c = false)
    (hlast : ∀ c, s.getLast? = Option.some c → isWhiteSpace c = false) : trim s = s := by
  have hstart : trimStart s = s := by
    unfold trimStart
    cases s with
    | nil => rfl
    | cons c cs =>
      rw [List.dropWhile_cons, hhead c rfl]
      rfl
  unfold trim
  rw [hstart]
  unfold trimEnd
  cases hrev : s.reverse with
  | nil => rw [List.reverse_eq_nil_iff.mp hrev]; rfl
  | cons c cs =>
    have hc : isWhiteSpace c = false := by
      apply hlast
      rw [← List.head?_reverse, hrev]
      rfl
    rw [List.dropWhile_cons, hc]
    simp only [Bool.false_eq_true, if_false]
    rw [← hrev, List.reverse_reverse]

theorem noOuterSpace_spec (f : Str) (h : noOuterSpace f = true) :
    (∀ c, f.head? = Option.some c → isWhiteSpace c = false) ∧
    (∀ c, f.getLast? = Option.some c → isWhiteSpace c = false) := by
  unfold noOuterSpace at h
  cases hh : f.head? with
  | none => rw [hh] at h; cases h
  | some a =>
    cases hl : f.getLast? with
    | none => rw [hh, hl] at h; cases h
    | some b =>
      rw [hh, hl] at h
      simp only [Bool.and_eq_true, Bool.not_eq_true'] at h
      constructor
      · intro c hc; cases hc; exact h.1
      · intro c hc; cases hc; exact h.2

theorem plainField_spec (f : Str) (h : plainField f = true) :
    f ≠ [] ∧ ',' ∉ f ∧ '\n' ∉ f := by
  unfold plainField at h
  simp only [Bool.and_eq_true, Bool.not_eq_true'] at h
  refine ⟨?_, ?_, ?_⟩
  · intro hnil
    rw [hnil] at h
    exact absurd h.1.1 (by decide)
  · intro hmem
    have : f.contains ',' = true := by simpa using hmem
    rw [this] at h
    exact absurd h.1.2 (by decide)
  · intro hmem
    have : f.contains '\n' = true := by simpa using hmem
    rw [this] at h
    exact absurd h.2 (by decide)

theorem getLast?_append_of_ne_nil (a b : Str) (hb : b ≠ []) :
    (a ++ b).getLast? = b.getLast? := by
  rw [List.getLast?_append]
  cases hl : b.getLast? with
  | none => exact absurd (List.getLast?_eq_none_iff.mp hl) hb
  | some c => rfl

theorem last_of_lines {α : Type} (line : α → Str) (rows : List α) (a : Str)
    (ha : ∀ c, a.getLast? = Option.some c → isWhiteSpace c = false)
    (hrows : ∀ r ∈ rows, line r ≠ [] ∧
      ∀ c, (line r).getLast? = Option.some c → isWhiteSpace c = false) :
    ∀ c, (a ++ rows.flatMap (fun r => '\n' :: line r)).getLast? = Option.some c →
      isWhiteSpace c = false := by
  induction rows generalizing a with
  | nil =>
    rw [List.flatMap_nil, List.append_nil]
    exact ha
  | cons r rest ih =>
    have hr := hrows r (List.mem_cons_self _ _)
    rw [List.flatMap_cons, ← List.append_assoc]
    apply ih
    · have hstep : (a ++ '\n' :: line r).getLast? = (line r).getLast? := by
        rw [show a ++ '\n' :: line r = (a ++ ['\n']) ++ line r by simp]
        exact getLast?_append_of_ne_nil _ _ hr.1
      rw [hstep]
      exact hr.2
    · exact fun x hx => hrows x (List.mem_cons_of_mem _ hx)

theorem clean_fields (r : LocationRow) (h : r.clean = true) :
    ∀ f ∈ r.fields, (f ≠ [] ∧ ',' ∉ f ∧ '\n' ∉ f) ∧ trim f = f ∧
      ∀ c, f.getLast? = Option.some c → isWhiteSpace c = false := by
  intro f hf
  have hboth := List.all_eq_true.mp h f hf
  rw [Bool.and_eq_true] at hboth
  have hspace := noOuterSpace_spec f hboth.2
  exact ⟨plainField_spec f hboth.1, trim_eq_self f hspace.1 hspace.2, hspace.2⟩

theorem csvLine_facts (r : LocationRow) (h : r.clean = true) :
    '\n' ∉ csvLine r ∧ csvLine r ≠ [] ∧
    (∀ c, (csvLine r).getLast? = Option.some c → isWhiteSpace c = false) ∧
    (split (csvLine r) ',').map trim = r.fields := by
  have hall := clean_fields r h
  have hid := hall r.id (by simp [LocationRow.fields])
  have hname := hall r.name (by simp [LocationRow.fields])
  have hlat := hall r.lat (by simp [LocationRow.fields])
  have hlng := hall r.lng (by simp [LocationRow.fields])
  refine ⟨?_, ?_, ?_, ?_⟩
  · unfold csvLine
    simp only [List.mem_append, List.mem_cons]
    rintro (h1 | h1 | h1 | h1 | h1 | h1 | h1)
    · exact hid.1.2.2 h1
    · exact absurd h1 (by decide)
    · exact hname.1.2.2 h1
    · exact absurd h1 (by decide)
    · exact hlat.1.2.2 h1
    · exact absurd h1 (by decide)
    · exact hlng.1.2.2 h1
  · unfold csvLine
    intro hnil
    have := congrArg List.length hnil
    simp at this
  · unfold csvLine
    rw [show r.id ++ ',' :: (r.name ++ ',' :: (r.lat ++ ',' :: r.lng))
        = (r.id ++ ',' :: (r.name ++ ',' :: (r.lat ++ [','])))  ++ r.lng by simp,
      getLast?_append_of_ne_nil _ _ hlng.1.1]
    exact hlng.2.2
  · unfold csvLine
    rw [split_append_cons _ _ _ hid.1.2.1, split_append_cons _ _ _ hname.1.2.1,
      split_append_cons _ _ _ hlat.1.2.1, split_of_not_mem _ _ hlng.1.2.1]
    simp only [List.map_cons, List.map_nil, hid.2.1, hname.2.1, hlat.2.1, hlng.2.1]
    rfl

theorem trim_locationsCSV (rows : List LocationRow) (h : ∀ r ∈ rows, r.clean = true) :
    trim (locationsCSV rows) = locationsCSV rows := by
  apply trim_eq_self
  · intro c hc
    have : c = 'L' := by
      have hhead : (locationsCSV rows).head? = Option.some 'L' := rfl
      rw [hhead] at hc
      cases hc
      rfl
    rw [this]
    decide
  · unfold locationsCSV
    apply last_of_lines
    · intro c hc
      have hlast : locationsHeader.getLast? = Option.some 'e' := by decide
      rw [hlast] at hc
      cases hc
      decide
    · intro r hr
      have hf := csvLine_facts r (h r hr)
      exact ⟨hf.2.1, hf.2.2.1⟩

theorem parseCSV_locationsCSV (rows : List LocationRow) (h : ∀ r ∈ rows, r.clean = true) :
    parseCSV (locationsCSV rows) = rows.map LocationRow.object := by
  unfold parseCSV
  rw [trim_locationsCSV rows h]
  have hsplit : split (locationsCSV rows) '\n' = locationsHeader :: rows.map csvLine := by
    unfold locationsCSV
    exact split_lines csvLine rows locationsHeader (by decide)
      (fun r hr => (csvLine_facts r (h r hr)).1)
  simp only [hsplit]
  cases rows with
  | nil => rfl
  | cons r rest =>
    have hlen : ¬ (locationsHeader :: List.map csvLine (r :: rest)).length < 2 := by
      simp
    rw [if_neg hlen]
    simp only [List.tail_cons, List.headD_cons, List.map_map]
    apply List.map_congr_left
    intro x hx
    have hheader : (split locationsHeader ',').map trim =
        ["LocationID".toList, "Name".toList, "Latitude".toList, "Longitude".toList] := by
      decide
    simp only [Function.comp, (csvLine_facts x (h x hx)).2.2.2, hheader]
    rfl

theorem assign_of_not_mem {β : Type} (obj : List (Str × β)) (key : Str) (value : β)
    (h : key ∉ obj.map Prod.fst) : assign obj key value = obj ++ [(key, value)] := by
  induction obj with
  | nil => rfl
  | cons entry rest ih =>
    obtain ⟨k0, v0⟩ := entry
    unfold assign
    have h0 : ¬ k0 = key := fun heq => h (List.mem_cons.mpr (Or.inl heq.symm))
    rw [if_neg h0, ih (fun hm => h (List.mem_cons_of_mem _ hm))]
    rfl

theorem loadLocations_step (r : LocationRow) (h : r.clean = true) (hproto : r.id ≠ protoKey)
    (table : LocationTable) (hkey : r.id ∉ table.own.map Prod.fst) :
    (if cellTruthy (r.object.get "LocationID".toList) && cellTruthy (r.object.get "Latitude".toList)
          && cellTruthy (r.object.get "Longitude".toList) then
        table.set ((r.object.get "LocationID".toList).getD [])
          { name := if cellTruthy (r.object.get "Name".toList) then
                      (r.object.get "Name".toList).getD []
                    else "Unnamed Location".toList
            lat := JSNumber.parseFloat ((r.object.get "Latitude".toList).getD [])
            lng := JSNumber.parseFloat ((r.object.get "Longitude".toList).getD []) }
      else table) = { own := table.own ++ [r.entry], proto := table.proto } := by
  have hall := clean_fields r h
  have hne : ∀ f ∈ r.fields, cellTruthy (Option.some f) = true := by
    intro f hf
    have := (hall f hf).1.1
    cases f with
    | nil => exact absurd rfl this
    | cons _ _ => rfl
  have g1 : r.object.get "LocationID".toList = Option.some r.id := rfl
  have g2 : r.object.get "Name".toList = Option.some r.name := rfl
  have g3 : r.object.get "Latitude".toList = Option.some r.lat := rfl
  have g4 : r.object.get "Longitude".toList = Option.some r.lng := rfl
  rw [g1, g2, g3, g4, hne r.id (by simp [LocationRow.fields]),
    hne r.name (by simp [LocationRow.fields]), hne r.lat (by simp [LocationRow.fields]),
    hne r.lng (by simp [LocationRow.fields])]
  simp only [Bool.and_self, if_true, Option.getD_some]
  unfold LocationTable.set
  rw [if_neg hproto, assign_of_not_mem _ _ _ hkey]
  rfl

theorem loadLocations_foldl (rows : List LocationRow) (h : ∀ r ∈ rows, r.clean = true)
    (hproto : ∀ r ∈ rows, r.id ≠ protoKey) (table : LocationTable)
    (hids : (table.own.map Prod.fst ++ rows.map LocationRow.id).Nodup) :
    (rows.map LocationRow.object).foldl
      (fun locations row =>
        if cellTruthy (row.get "LocationID".toList) && cellTruthy (row.get "Latitude".toList)
            && cellTruthy (row.get "Longitude".toList) then
          locations.set ((row.get "LocationID".toList).getD [])
            { name := if cellTruthy (row.get "Name".toList) then (row.get "Name".toList).getD []
                      else "Unnamed Location".toList
              lat := JSNumber.parseFloat ((row.get "Latitude".toList).getD [])
              lng := JSNumber.parseFloat ((row.get "Longitude".toList).getD []) }
        else locations)
      table = { own := table.own ++ rows.map LocationRow.entry, proto := table.proto } := by
  induction rows generalizing table with
  | nil => simp
  | cons r rest ih =>
    rw [List.map_cons, List.foldl_cons]
    have hkey : r.id ∉ table.own.map Prod.fst := by
      intro hmem
      rw [List.map_cons, List.nodup_append] at hids
      exact hids.2.2 hmem (List.mem_cons_self _ _)
    rw [loadLocations_step r (h r (List.mem_cons_self _ _)) (hproto r (List.mem_cons_self _ _))
        table hkey,
      ih (fun x hx => h x (List.mem_cons_of_mem _ hx))
        (fun x hx => hproto x (List.mem_cons_of_mem _ hx))]
    · simp
    · have : (table.own ++ [r.entry]).map Prod.fst ++ rest.map LocationRow.id
          = table.own.map Prod.fst ++ (r :: rest).map LocationRow.id := by
        simp [LocationRow.entry]
      exact this ▸ hids

/-- The table built from the text of clean rows with distinct ids other than
`__proto__`: the entries of the rows as own properties, in order of creation,
and the prototype of a plain object. -/
theorem loadLocations_locationsCSV (rows : List LocationRow)
    (hclean : ∀ r ∈ rows, r.clean = true) (hids : (rows.map LocationRow.id).Nodup)
    (hproto : ∀ r ∈ rows, r.id ≠ protoKey) :
    loadLocations (parseCSV (locationsCSV rows)) =
      { own := rows.map LocationRow.entry, proto := none } := by
  rw [parseCSV_locationsCSV rows hclean]
  unfold loadLocations
  rw [loadLocations_foldl rows hclean hproto { own := [], proto := none } (by simpa using hids)]
  rfl

theorem lookup_map_entry (rows : List LocationRow) (hids : (rows.map LocationRow.id).Nodup)
    (r : LocationRow) (hr : r ∈ rows) :
    (rows.map LocationRow.entry).lookup r.id = Option.some r.entry.2 := by
  induction rows with
  | nil => cases hr
  | cons r0 rest ih =>
    rw [List.map_cons, List.nodup_cons] at hids
    rw [List.map_cons]
    show List.lookup r.id ((r0.id, r0.entry.2) :: rest.map LocationRow.entry) = _
    rw [List.lookup_cons]
    by_cases hk : r.id = r0.id
    · rw [beq_true_of_eq _ _ hk]
      rcases List.mem_cons.mp hr with heq | hmem
      · rw [heq]
      · exact absurd (hk ▸ List.mem_map_of_mem LocationRow.id hmem) hids.1
    · rw [beq_false_of_ne _ _ hk]
      rcases List.mem_cons.mp hr with heq | hmem
      · exact absurd (congrArg LocationRow.id heq) hk
      · exact ih hids.2 hmem

/-- C9 as stated fails, in two ways.  The rows with ids `A` and `A ` have
distinct ids and non-empty cells free of commas and newlines, yet the text
built from them gives a table with the single key `A`, holding the cells of
the second row, because every cell is trimmed.  And the single row with the id
`__proto__` gives a table without any record: the assignment to that key
installs the record as the prototype of the table. -/
theorem trimmed_and_proto_ids_lose_records :
    ((∀ r ∈ collidingRows, ∀ f ∈ r.fields, plainField f = true) ∧
      (collidingRows.map LocationRow.id).Nodup ∧
      (loadMasterGraph (locationsCSV collidingRows) []).locations =
        [("A".toList, ⟨"Beta".toList, JSNumber.parseFloat "3.0".toList,
          JSNumber.parseFloat "4.0".toList⟩)] ∧
      (loadMasterGraph (locationsCSV collidingRows) []).locations.length ≠
        collidingRows.length) ∧
    ((∀ r ∈ protoRows, ∀ f ∈ r.fields, plainField f = true) ∧
      (protoRows.map LocationRow.id).Nodup ∧
      (loadMasterGraph (locationsCSV protoRows) []).locations = [] ∧
      (loadMasterGraph (locationsCSV protoRows) []).locationsProto =
        Option.some ⟨"Alpha".toList, JSNumber.parseFloat "1.0".toList,
          JSNumber.parseFloat "2.0".toList⟩) := by
  decide

/-- C9, amended: for rows with distinct ids, none of them `__proto__`, whose
cells are not empty, hold no comma and no newline and neither start nor end
with white space, the text made of the header and one comma-joined line per
row gives a node table with exactly one record per row, keyed by the id of the
row and holding its name and the numbers `parseFloat` reads from its latitude
and longitude; the table holds no other key and keeps the prototype of a plain
object. -/
theorem locations_csv_round_trip (rows : List LocationRow) (pathsText : Str)
    (hclean : ∀ r ∈ rows, r.clean = true)
    (hids : (rows.map LocationRow.id).Nodup)
    (hproto : ∀ r ∈ rows, r.id ≠ protoKey) :
    (loadMasterGraph (locationsCSV rows) pathsText).locations.length = rows.length ∧
    (∀ r ∈ rows, (loadMasterGraph (locationsCSV rows) pathsText).locations.lookup r.id =
      Option.some { name := r.name, lat := JSNumber.parseFloat r.lat,
                    lng := JSNumber.parseFloat r.lng }) ∧
    (∀ key record,
      (loadMasterGraph (locationsCSV rows) pathsText).locations.lookup key = Option.some record →
      ∃ r ∈ rows, r.id = key) ∧
    (loadMasterGraph (locationsCSV rows) pathsText).locationsProto = none := by
  have htable := loadLocations_locationsCSV rows hclean hids hproto
  have hown : (loadMasterGraph (locationsCSV rows) pathsText).locations =
      rows.map LocationRow.entry := congrArg LocationTable.own htable
  have hp : (loadMasterGraph (locationsCSV rows) pathsText).locationsProto = none :=
    congrArg LocationTable.proto htable
  refine ⟨?_, ?_, ?_, hp⟩
  · rw [hown, List.length_map]
  · intro r hr
    rw [hown]
    exact lookup_map_entry rows hids r hr
  · intro key record hl
    rw [hown] at hl
    obtain ⟨r, hr, heq⟩ := List.mem_map.mp (mem_of_lookup _ _ _ hl)
    exact ⟨r, hr, congrArg Prod.fst heq⟩

/-- C9, amended, on the two rows of the example of the specification. -/
theorem locations_csv_round_trip_witness :
    (loadMasterGraph
        "LocationID,Name,Latitude,Longitude\nA,Alpha,1.0,2.0\nB,Beta,3.0,4.0".toList
        []).locations.length = 2 ∧
    (loadMasterGraph
        "LocationID,Name,Latitude,Longitude\nA,Alpha,1.0,2.0\nB,Beta,3.0,4.0".toList
        []).locations.lookup "A".toList =
      Option.some ⟨"Alpha".toList, JSNumber.parseFloat "1.0".toList,
        JSNumber.parseFloat "2.0".toList⟩ ∧
    (loadMasterGraph
        "LocationID,Name,Latitude,Longitude\nA,Alpha,1.0,2.0\nB,Beta,3.0,4.0".toList
        []).locations.lookup "B".toList =
      Option.some ⟨"Beta".toList, JSNumber.parseFloat "3.0".toList,
        JSNumber.parseFloat "4.0".toList⟩ :=
  ⟨(locations_csv_round_trip exampleRows [] (by decide) (by decide) (by decide)).1,
   (locations_csv_round_trip exampleRows [] (by decide) (by decide) (by decide)).2.1
      ⟨"A".toList, "Alpha".toList, "1.0".toList, "2.0".toList⟩ (by decide),
   (locations_csv_round_trip exampleRows [] (by decide) (by decide) (by decide)).2.1
      ⟨"B".toList, "Beta".toList, "3.0".toList, "4.0".toList⟩ (by decide)⟩

/-! ## Symmetric storage on ids without a hyphen -/

theorem split_key (a b : Str) (ha : '-' ∉ a) (hb : '-' ∉ b) :
    split (a ++ "-".toList ++ b) '-' = [a, b] := by
  rw [show a ++ "-".toList ++ b = a ++ '-' :: b by simp,
    split_append_cons _ _ _ ha, split_of_not_mem _ _ hb]

theorem key_injective (a b c d : Str) (ha : '-' ∉ a) (hb : '-' ∉ b) (hc : '-' ∉ c)
    (hd : '-' ∉ d) (h : a ++ "-".toList ++ b = c ++ "-".toList ++ d) : a = c ∧ b = d := by
  have hsplit := congrArg (fun s => split s '-') h
  simp only [split_key a b ha hb, split_key c d hc hd] at hsplit
  simp only [List.cons.injEq, and_true] at hsplit
  exact hsplit

theorem clickPath_keeps_symmetry (off : List Str) (e p : Path)
    (he : '-' ∉ e.fromId ∧ '-' ∉ e.toId) (hp : '-' ∉ p.fromId ∧ '-' ∉ p.toId)
    (h : pathKey p ∈ off ↔ reversePathKey p ∈ off) :
    pathKey p ∈ clickPath off e ↔ reversePathKey p ∈ clickPath off e := by
  have h1 : pathKey p = pathKey e ↔ reversePathKey p = reversePathKey e := by
    unfold pathKey reversePathKey
    constructor
    · intro heq
      obtain ⟨hf, ht⟩ := key_injective _ _ _ _ hp.1 hp.2 he.1 he.2 heq
      rw [hf, ht]
    · intro heq
      obtain ⟨ht, hf⟩ := key_injective _ _ _ _ hp.2 hp.1 he.2 he.1 heq
      rw [hf, ht]
  have h2 : pathKey p = reversePathKey e ↔ reversePathKey p = pathKey e := by
    unfold pathKey reversePathKey
    constructor
    · intro heq
      obtain ⟨hf, ht⟩ := key_injective _ _ _ _ hp.1 hp.2 he.2 he.1 heq
      rw [hf, ht]
    · intro heq
      obtain ⟨ht, hf⟩ := key_injective _ _ _ _ hp.2 hp.1 he.1 he.2 heq
      rw [hf, ht]
  unfold clickPath
  split
  · simp only [mem_setDelete]
    rw [h, ne_eq, ne_eq, ne_eq, ne_eq, h1, h2]
    tauto
  · simp only [mem_setAdd]
    rw [h, h1, h2]
    tauto

/-- On a map whose location ids hold no hyphen, every sequence of clicks from
the empty set keeps each loaded path and its reverse disabled together. -/
theorem clicks_keep_symmetry (v : Visualizer) (indices : List Nat)
    (hids : ∀ p ∈ v.paths, '-' ∉ p.fromId ∧ '-' ∉ p.toId)
    (hsym : ∀ p ∈ v.paths, pathKey p ∈ v.toggledOffPathKeys ↔
      reversePathKey p ∈ v.toggledOffPathKeys) :
    ∀ p ∈ v.paths, pathKey p ∈ (v.clicks indices).toggledOffPathKeys ↔
      reversePathKey p ∈ (v.clicks indices).toggledOffPathKeys := by
  induction indices generalizing v with
  | nil => exact hsym
  | cons i rest ih =>
    have hpaths : (v.click i).paths = v.paths := by
      unfold Visualizer.click
      split
      · rfl
      · split <;> rfl
    have hstep : ∀ p ∈ v.paths, pathKey p ∈ (v.click i).toggledOffPathKeys ↔
        reversePathKey p ∈ (v.click i).toggledOffPathKeys := by
      intro p hp
      unfold Visualizer.click
      split
      · exact hsym p hp
      · next e he =>
        split
        · exact clickPath_keeps_symmetry _ e p (hids e (List.get?_mem he)) (hids p hp)
            (hsym p hp)
        · exact hsym p hp
    intro p hp
    have := ih (v.click i) (by rw [hpaths]; exact hids) (by rw [hpaths]; exact hstep) p
      (by rw [hpaths]; exact hp)
    exact this

/-! ## Monotone search -/

theorem toLowerCaseFrom_eq_map (b : Bool) (s : Str) (h : ∀ c ∈ s, c.toNat ≠ 0x3A3) :
    toLowerCaseFrom b s = s.map lowerChar := by
  induction s generalizing b with
  | nil => rfl
  | cons c rest ih =>
    unfold toLowerCaseFrom
    rw [if_neg (h c (List.mem_cons_self _ _)), ih _ (fun x hx => h x (List.mem_cons_of_mem _ hx)),
      List.map_cons]

/-- On a text without capital sigma lower-casing goes character by character,
so it keeps the substrings of the text. -/
theorem toLowerCase_substring (q1 q2 : Str) (hsub : q1 <:+: q2)
    (hsigma : ∀ c ∈ q2, c.toNat ≠ 0x3A3) : toLowerCase q1 <:+: toLowerCase q2 := by
  unfold toLowerCase
  rw [toLowerCaseFrom_eq_map false q2 hsigma,
    toLowerCaseFrom_eq_map false q1 (fun c hc => hsigma c (hsub.subset hc))]
  exact hsub.map lowerChar

theorem dropWhile_append_keeps (p : Char → Bool) (l z : Str) (c : Char)
    (hz : z.head? = Option.some c) (hc : p c = false) :
    ∃ l', (l ++ z).dropWhile p = l' ++ z := by
  induction l with
  | nil =>
    refine ⟨[], ?_⟩
    cases z with
    | nil => cases hz
    | cons d z' =>
      cases hz
      rw [List.nil_append, List.dropWhile_cons, hc]
      rfl
  | cons a rest ih =>
    rw [List.cons_append, List.dropWhile_cons]
    split
    · exact ih
    · exact ⟨a :: rest, rfl⟩

theorem trimEnd_append_keeps (w r : Str) (c : Char)
    (hw : w.getLast? = Option.some c) (hc : isWhiteSpace c = false) :
    ∃ r', trimEnd (w ++ r) = w ++ r' := by
  unfold trimEnd
  rw [List.reverse_append]
  obtain ⟨l', hl⟩ := dropWhile_append_keeps isWhiteSpace r.reverse w.reverse c
    (by rw [List.head?_reverse]; exact hw) hc
  rw [hl, List.reverse_append, List.reverse_reverse]
  exact ⟨l'.reverse, rfl⟩

theorem trim_ends (x : Str) (hx : trim x ≠ []) :
    (∃ c, (trim x).head? = Option.some c ∧ isWhiteSpace c = false) ∧
    (∃ d, (trim x).getLast? = Option.some d ∧ isWhiteSpace d = false) := by
  constructor
  · obtain ⟨t, ht⟩ := trimEnd_prefix_self (trimStart x)
    have hhead := List.head?_dropWhile_not isWhiteSpace x
    cases hx' : trim x with
    | nil => exact absurd hx' hx
    | cons c rest =>
      refine ⟨c, rfl, ?_⟩
      have hstart : trimStart x = c :: (rest ++ t) := by
        rw [← ht]
        show trim x ++ t = c :: (rest ++ t)
        rw [hx']
        rfl
      unfold trimStart at hstart
      rw [hstart] at hhead
      exact hhead
  · have hhead := List.head?_dropWhile_not isWhiteSpace (trimStart x).reverse
    have hlast : (trim x).getLast? = ((trimStart x).reverse.dropWhile isWhiteSpace).head? := by
      unfold trim trimEnd
      rw [List.getLast?_reverse]
    cases hd : ((trimStart x).reverse.dropWhile isWhiteSpace).head? with
    | none =>
      exfalso
      apply hx
      unfold trim trimEnd
      rw [List.head?_eq_none_iff.mp hd]
      rfl
    | some d =>
      rw [hd] at hhead
      exact ⟨d, hlast.trans hd, hhead⟩

theorem infix_trim_of_ends (t l r a b : Str) (c d : Char) (ht : t ≠ [])
    (hc : t.head? = Option.some c) (hcw : isWhiteSpace c = false)
    (hd : t.getLast? = Option.some d) (hdw : isWhiteSpace d = false) :
    t <:+: trim (a ++ (l ++ t ++ r) ++ b) := by
  have hy : a ++ (l ++ t ++ r) ++ b = (a ++ l) ++ (t ++ (r ++ b)) := by
    simp only [List.append_assoc]
  obtain ⟨l', hl'⟩ := dropWhile_append_keeps isWhiteSpace (a ++ l) (t ++ (r ++ b)) c
    (by rw [List.head?_append, hc]; rfl) hcw
  obtain ⟨r', hr'⟩ := trimEnd_append_keeps (l' ++ t) (r ++ b) d
    (by rw [getLast?_append_of_ne_nil _ _ ht]; exact hd) hdw
  have htrim : trim (a ++ (l ++ t ++ r) ++ b) = l' ++ t ++ r' := by
    unfold trim trimStart
    rw [hy, hl', ← List.append_assoc]
    exact hr'
  rw [htrim]
  exact ⟨l', r', rfl⟩

theorem trim_substring (x y : Str) (h : x <:+: y) : trim x <:+: trim y := by
  by_cases hx : trim x = []
  · rw [hx]
    exact List.nil_infix
  · obtain ⟨⟨c, hc, hcw⟩, ⟨d, hd, hdw⟩⟩ := trim_ends x hx
    obtain ⟨l, r, hlr⟩ := trim_infix_self x
    obtain ⟨a, b, hab⟩ := h
    have := infix_trim_of_ends (trim x) l r a b c d hx hc hcw hd hdw
    rw [hlr, hab] at this
    exact this

theorem some_mono {α : Type} (xs : List α) (p1 p2 : α → JS Bool) (b2 : Bool)
    (h : ∀ x ∈ xs, ∀ c2, p2 x = .ok c2 → ∃ c1, p1 x = .ok c1 ∧ (c2 = true → c1 = true))
    (h2 : JSArray.some xs p2 = .ok b2) :
    ∃ b1, JSArray.some xs p1 = .ok b1 ∧ (b2 = true → b1 = true) := by
  induction xs with
  | nil => exact ⟨false, rfl, fun hb => by cases h2; cases hb⟩
  | cons y rest ih =>
    unfold JSArray.some at h2 ⊢
    cases hy : p2 y with
    | error err => rw [hy] at h2; cases h2
    | ok c2 =>
      obtain ⟨c1, hc1, himp⟩ := h y (List.mem_cons_self _ _) c2 hy
      rw [hc1]
      rw [hy] at h2
      cases c1 with
      | true => exact ⟨true, rfl, fun _ => rfl⟩
      | false =>
        cases c2 with
        | true => exact absurd (himp rfl) (by decide)
        | false => exact ih (fun x hx => h x (List.mem_cons_of_mem _ hx)) h2

theorem filter_mono {α : Type} (xs : List α) (p1 p2 : α → JS Bool) (r2 : List α)
    (h : ∀ x ∈ xs, ∀ c2, p2 x = .ok c2 → ∃ c1, p1 x = .ok c1 ∧ (c2 = true → c1 = true))
    (h2 : JSArray.filter xs p2 = .ok r2) :
    ∃ r1, JSArray.filter xs p1 = .ok r1 ∧ ∀ x ∈ r2, x ∈ r1 := by
  induction xs generalizing r2 with
  | nil =>
    cases h2
    exact ⟨[], rfl, fun x hx => hx⟩
  | cons y rest ih =>
    unfold JSArray.filter at h2 ⊢
    cases hy : p2 y with
    | error err => rw [hy] at h2; cases h2
    | ok c2 =>
      rw [hy] at h2
      cases hrest : JSArray.filter rest p2 with
      | error err => rw [hrest] at h2; cases h2
      | ok kept2 =>
        rw [hrest] at h2
        cases h2
        obtain ⟨c1, hc1, himp⟩ := h y (List.mem_cons_self _ _) c2 hy
        obtain ⟨kept1, hkept1, hsub⟩ :=
          ih kept2 (fun x hx => h x (List.mem_cons_of_mem _ hx)) hrest
        rw [hc1, hkept1]
        refine ⟨_, rfl, ?_⟩
        intro x hx
        cases c2 with
        | true =>
          rw [himp rfl]
          rcases List.mem_cons.mp hx with rfl | hmem
          · exact List.mem_cons_self _ _
          · exact List.mem_cons_of_mem _ (hsub x hmem)
        | false =>
          cases c1 with
          | true => exact List.mem_cons_of_mem _ (hsub x hx)
          | false => exact hsub x hx

namespace SearchFilter

theorem lowerIncludes_mono (v : JSVal) (t1 t2 : Str) (ht : t1 <:+: t2) (c2 : Bool)
    (h : lowerIncludes v t2 = .ok c2) :
    ∃ c1, lowerIncludes v t1 = .ok c1 ∧ (c2 = true → c1 = true) := by
  cases v with
  | str s =>
    refine ⟨_, rfl, fun hc => ?_⟩
    simp only [lowerIncludes, Except.ok.injEq] at h
    rw [← h] at hc
    exact (includes_iff _ _).mpr (ht.trans ((includes_iff _ _).mp hc))
  | undefined => cases h
  | null => cases h
  | bool _ => cases h
  | num _ => cases h
  | arr _ => cases h
  | obj _ => cases h

theorem fieldMatches_mono (value : JSVal) (t1 t2 : Str) (ht : t1 <:+: t2) (c2 : Bool)
    (h : fieldMatches value t2 = .ok c2) :
    ∃ c1, fieldMatches value t1 = .ok c1 ∧ (c2 = true → c1 = true) := by
  cases value with
  | arr vs =>
    simp only [fieldMatches] at h ⊢
    exact some_mono vs _ _ c2 (fun v _ c hc => lowerIncludes_mono v t1 t2 ht c hc) h
  | str s =>
    simp only [fieldMatches] at h ⊢
    by_cases hs : (JSVal.str s).truthy = true
    · rw [if_pos hs] at h ⊢
      exact lowerIncludes_mono _ t1 t2 ht c2 h
    · rw [if_neg hs] at h ⊢
      exact ⟨false, rfl, fun hc => by cases h; cases hc⟩
  | undefined => exact ⟨false, rfl, fun hc => by cases h; cases hc⟩
  | null => exact ⟨false, rfl, fun hc => by cases h; cases hc⟩
  | bool x =>
    cases x with
    | true => cases h
    | false => exact ⟨false, rfl, fun hc => by cases h; cases hc⟩
  | num n =>
    simp only [fieldMatches] at h ⊢
    by_cases hn : (JSVal.num n).truthy = true
    · rw [if_pos hn] at h; cases h
    · rw [if_neg hn] at h ⊢
      exact ⟨false, rfl, fun hc => by cases h; cases hc⟩
  | obj _ => cases h

/-- A search whose term is a substring of another term renders whenever the
other search does, and shows at least the same items. -/
theorem search_mono_of_substring (sf : SearchFilter) (children : List Node) (q1 q2 : Str)
    (hc : sf.container = Option.some children) (hr : sf.renderFunction = true)
    (ht : trim (toLowerCase q1) <:+: trim (toLowerCase q2)) :
    ∀ sf2, sf.search q2 = .ok sf2 →
      ∃ sf1, sf.search q1 = .ok sf1 ∧ ∀ item ∈ sf2.shown, item ∈ sf1.shown := by
  intro sf2 h2
  by_cases h1 : trim (toLowerCase q1) = []
  · refine ⟨_, search_empty_term sf q1 h1, ?_⟩
    rw [shown_render sf children _ hc hr]
    intro item hitem
    by_cases he2 : trim (toLowerCase q2) = []
    · rw [search_empty_term sf q2 he2] at h2
      cases h2
      rw [shown_render sf children _ hc hr] at hitem
      exact hitem
    · rw [search_ok_shown sf sf2 children q2 hc hr he2 h2] at hitem
      exact (List.mem_filter.mp hitem).1
  · have he2 : trim (toLowerCase q2) ≠ [] := by
      intro hnil
      rw [hnil] at ht
      exact h1 (List.eq_nil_of_infix_nil ht)
    have hn1 : (trim (toLowerCase q1)).isEmpty = false := by
      cases hl : trim (toLowerCase q1) with
      | nil => exact absurd hl h1
      | cons _ _ => rfl
    have hn2 : (trim (toLowerCase q2)).isEmpty = false := by
      cases hl : trim (toLowerCase q2) with
      | nil => exact absurd hl he2
      | cons _ _ => rfl
    unfold search at h2 ⊢
    simp only [hn1, hn2, Bool.false_eq_true, if_false] at h2 ⊢
    cases hf : JSArray.filter sf.items (itemMatches sf.searchFields (trim (toLowerCase q2))) with
    | error err => rw [hf] at h2; cases h2
    | ok kept2 =>
      rw [hf] at h2
      cases h2
      obtain ⟨kept1, hkept1, hsub⟩ := filter_mono sf.items
        (itemMatches sf.searchFields (trim (toLowerCase q1)))
        (itemMatches sf.searchFields (trim (toLowerCase q2))) kept2
        (fun item _ c2 hc2 => some_mono sf.searchFields _ _ c2
          (fun field _ c hcm => fieldMatches_mono _ _ _ ht c hcm) hc2) hf
      rw [hkept1]
      refine ⟨_, rfl, ?_⟩
      rw [shown_render sf children _ hc hr, shown_render sf children _ hc hr]
      exact hsub

/-- C17 as stated fails: the capital sigma is a substring of the query alpha,
sigma in capitals, whose lower-cased form ends in the final sigma; that query
keeps the item titled alpha, final sigma, while the query sigma alone,
lower-cased to the small sigma, shows nothing. -/
theorem search_not_monotone_on_final_sigma :
    "\u03a3".toList <:+: "\u0391\u03a3".toList ∧
    ∃ sf1 sf2, sigmaFilter.search "\u03a3".toList = .ok sf1 ∧
      sigmaFilter.search "\u0391\u03a3".toList = .ok sf2 ∧
      sf2.shown = [titled "\u03b1\u03c2"] ∧ sf1.shown = [] :=
  ⟨by decide, _, _, rfl, rfl, rfl, rfl⟩

/-- C17, amended: for two queries such that the lower-cased first is a
substring of the lower-cased second, whenever `search` renders for the second
query it renders for the first as well, and every item shown for the second is
shown for the first; and when the search fields are read through own
properties and their values are strings, arrays of strings or falsy, `search`
does render for the second query. -/
theorem search_monotone_in_lowercased_query (sf : SearchFilter) (children : List Node)
    (q1 q2 : Str)
    (hc : sf.container = Option.some children) (hr : sf.renderFunction = true)
    (hsub : toLowerCase q1 <:+: toLowerCase q2) :
    (∀ sf2, sf.search q2 = .ok sf2 →
      ∃ sf1, sf.search q1 = .ok sf1 ∧ ∀ item ∈ sf2.shown, item ∈ sf1.shown) ∧
    (sf.ownFields = true → sf.wellTyped = true → ∃ sf2, sf.search q2 = .ok sf2) :=
  ⟨search_mono_of_substring sf children q1 q2 hc hr (trim_substring _ _ hsub),
   fun _ hw => search_total sf q2 hw⟩

/-- C17, amended, on the example filter with the queries `eT` and `BEta`. -/
theorem search_monotone_in_lowercased_query_witness :
    toLowerCase "eT".toList <:+: toLowerCase "BEta".toList ∧
    exampleFilter.search "BEta".toList = .ok (exampleFilter.render [titled "Beta"]) ∧
    ∃ sf1, exampleFilter.search "eT".toList = .ok sf1 ∧
      ∀ item ∈ (exampleFilter.render [titled "Beta"]).shown, item ∈ sf1.shown :=
  ⟨by decide, rfl,
   (search_monotone_in_lowercased_query exampleFilter [] "eT".toList "BEta".toList rfl rfl
    (by decide)).1 (exampleFilter.render [titled "Beta"]) rfl⟩

end SearchFilter

/-! ## The two searches of the Problems page -/

theorem getNestedValue_top (problem : JSVal) (key : Str) (hkey : split key '.' = [key])
    (hp : problem.truthy = true) :
    SearchFilter.getNestedValue problem key =
      if (problem.getProp key).isUndefined then JSVal.null else problem.getProp key := by
  unfold SearchFilter.getNestedValue
  rw [hkey, List.foldl_cons, List.foldl_nil, hp]
  cases (problem.getProp key).isUndefined <;> rfl

theorem fieldContains_text (value : JSVal) (t : Str) (h : isTextField value = true) :
    SearchFilter.fieldContains (if value.isUndefined then JSVal.null else value) t
      = entryContains value t := by
  cases value with
  | str s => rfl
  | undefined => rfl
  | null => rfl
  | bool _ => cases h
  | num _ => cases h
  | arr _ => cases h
  | obj _ => cases h

theorem fieldContains_tags (value : JSVal) (t : Str) (h : isTagList value = true) :
    SearchFilter.fieldContains (if value.isUndefined then JSVal.null else value) t
      = tagsContain value t := by
  cases value with
  | arr xs => rfl
  | undefined => rfl
  | null => rfl
  | bool _ => cases h
  | num _ => cases h
  | str _ => cases h
  | obj _ => cases h

theorem searchable_text (value : JSVal) (h : isTextField value = true) :
    SearchFilter.searchable (if value.isUndefined then JSVal.null else value) = true := by
  cases value with
  | str s => rfl
  | undefined => rfl
  | null => rfl
  | bool _ => cases h
  | num _ => cases h
  | arr _ => cases h
  | obj _ => cases h

theorem searchable_tags (value : JSVal) (h : isTagList value = true) :
    SearchFilter.searchable (if value.isUndefined then JSVal.null else value) = true := by
  cases value with
  | arr xs => exact h
  | undefined => rfl
  | null => rfl
  | bool _ => cases h
  | num _ => cases h
  | str _ => cases h
  | obj _ => cases h

theorem isProblem_truthy (problem : JSVal) (h : isProblem problem = true) :
    problem.truthy = true := by
  cases problem with
  | obj _ => rfl
  | undefined => cases h
  | null => cases h
  | bool _ => cases h
  | num _ => cases h
  | str _ => cases h
  | arr _ => cases h

theorem itemMatches_problem (problem : JSVal) (t : Str) (ht : t ≠ [])
    (h : isProblem problem = true) :
    SearchFilter.itemMatches
        ["title".toList, "description".toList, "topic".toList, "tags".toList] t problem
      = .ok (problemContains problem t) := by
  obtain ⟨_, h1, h2, h3, h4⟩ := ProblemsPage.isProblem_fields problem h
  have htruthy := isProblem_truthy problem h
  have hfields : ∀ field ∈ ["title".toList, "description".toList, "topic".toList, "tags".toList],
      SearchFilter.fieldMatches (SearchFilter.getNestedValue problem field) t =
        .ok (SearchFilter.fieldContains (SearchFilter.getNestedValue problem field) t) := by
    intro field hfield
    have hs : SearchFilter.searchable (SearchFilter.getNestedValue problem field) = true := by
      simp only [List.mem_cons, List.mem_singleton, List.not_mem_nil, or_false] at hfield
      rcases hfield with rfl | rfl | rfl | rfl
      · rw [getNestedValue_top problem _ (by decide) htruthy]; exact searchable_text _ h1
      · rw [getNestedValue_top problem _ (by decide) htruthy]; exact searchable_text _ h2
      · rw [getNestedValue_top problem _ (by decide) htruthy]; exact searchable_text _ h3
      · rw [getNestedValue_top problem _ (by decide) htruthy]; exact searchable_tags _ h4
    obtain ⟨b, hb⟩ := SearchFilter.fieldMatches_total _ t hs
    rw [hb, SearchFilter.fieldMatches_ok _ t b ht hb]
  unfold SearchFilter.itemMatches
  rw [some_eq_any _ _ _ hfields]
  simp only [List.any_cons, List.any_nil, Bool.or_false]
  rw [getNestedValue_top problem "title".toList (by decide) htruthy,
    getNestedValue_top problem "description".toList (by decide) htruthy,
    getNestedValue_top problem "topic".toList (by decide) htruthy,
    getNestedValue_top problem "tags".toList (by decide) htruthy,
    fieldContains_text _ t h1, fieldContains_text _ t h2, fieldContains_text _ t h3,
    fieldContains_tags _ t h4]
  unfold problemContains
  simp only [Bool.or_assoc]

theorem filterOf_search_shown (pg : ProblemsPage) (children : List Node) (q : Str)
    (hc : pg.container = Option.some children) (hnb : trim q ≠ [])
    (hp : ∀ problem ∈ pg.problems, isProblem problem = true) :
    ∃ sf', (ProblemsPage.filterOf pg).search q = .ok sf' ∧
      sf'.shown = pg.problems.filter (fun problem =>
        problemContains problem (trim (toLowerCase q))) := by
  have ht := trim_toLowerCase_ne_nil q hnb
  have hne : (trim (toLowerCase q)).isEmpty = false := by
    cases hl : trim (toLowerCase q) with
    | nil => exact absurd hl ht
    | cons _ _ => rfl
  unfold SearchFilter.search
  simp only [hne, Bool.false_eq_true, if_false]
  have hfilter : JSArray.filter (ProblemsPage.filterOf pg).items
      (SearchFilter.itemMatches (ProblemsPage.filterOf pg).searchFields (trim (toLowerCase q)))
      = .ok (pg.problems.filter (fun problem =>
          problemContains problem (trim (toLowerCase q)))) :=
    filter_eq_filter _ _ _ (fun problem h => itemMatches_problem problem _ ht (hp problem h))
  rw [hfilter]
  exact ⟨_, rfl, SearchFilter.shown_render _ children _ hc rfl⟩

/-- C18: for a problem whose title, description and topic are strings or absent
and whose tags is an array of strings or absent, and a search text that is not
blank, the inline search predicate of `applyFilters` and the predicate of
`SearchFilter.search` over the fields title, description, topic and tags return
the same answer; and on a page of such problems with no tag selected,
`applyFilters` and `SearchFilter.search` both render and show the same list. -/
theorem inline_search_agrees_with_search_filter (q : Str) (hnb : trim q ≠ []) :
    (∀ problem, isProblem problem = true →
      ∃ b, inlineMatches (trim (toLowerCase q)) problem = .ok b ∧
        SearchFilter.itemMatches
          ["title".toList, "description".toList, "topic".toList, "tags".toList]
          (trim (toLowerCase q)) problem = .ok b) ∧
    (∀ (pg : ProblemsPage) (children : List Node),
      pg.container = Option.some children → pg.searchInput = Option.some q →
      pg.selectedTags = [] → (∀ problem ∈ pg.problems, isProblem problem = true) →
      ∃ pg' sf', pg.applyFilters = .ok pg' ∧ (ProblemsPage.filterOf pg).search q = .ok sf' ∧
        pg'.shown = sf'.shown) := by
  have ht := trim_toLowerCase_ne_nil q hnb
  constructor
  · intro problem hproblem
    exact ⟨_, ProblemsPage.inlineMatches_eq problem _ ht hproblem,
      itemMatches_problem problem _ ht hproblem⟩
  · intro pg children hc hq htags hp
    obtain ⟨pg', hrun, _, hshown⟩ := ProblemsPage.applyFilters_ok pg children q hc hq hp
    obtain ⟨sf', hsearch, hsf⟩ := filterOf_search_shown pg children q hc hnb hp
    refine ⟨pg', sf', hrun, hsearch, ?_⟩
    rw [hshown, hsf, htags]
    simp only [List.all_nil, Bool.true_and, hnb, decide_False, Bool.false_or]

/-- C18 on the example page with the text `AL` in the search box. -/
theorem inline_search_agrees_with_search_filter_witness :
    trim "AL".toList ≠ [] ∧
    ∃ pg' sf',
      ({ examplePage with searchInput := Option.some "AL".toList } : ProblemsPage).applyFilters
        = .ok pg' ∧
      (ProblemsPage.filterOf
        { examplePage with searchInput := Option.some "AL".toList }).search "AL".toList
        = .ok sf' ∧
      pg'.shown = sf'.shown :=
  ⟨by decide,
   (inline_search_agrees_with_search_filter "AL".toList (by decide)).2
    { examplePage with searchInput := Option.some "AL".toList }
    (examplePage.problems.map Node.card) rfl rfl rfl (by
      intro problem h
      have h' : problem ∈
          [problemOf "Alpha" ["x", "y"], problemOf "Beta" ["y"], problemOf "Gamma" ["x"]] := h
      simp only [List.mem_cons, List.mem_singleton, List.not_mem_nil, or_false] at h'
      rcases h' with rfl | rfl | rfl <;> rfl)⟩

/-! ## Clearing the filters -/

/-- The method `createProblemCard` returns the card of a problem of the data
model. -/
theorem createProblemCard_ok (problem : JSVal) (h : isProblem problem = true) :
    ProblemsPage.createProblemCard problem = .ok (Node.card problem) := by
  obtain ⟨hget, _, _, _, h4⟩ := ProblemsPage.isProblem_fields problem h
  unfold ProblemsPage.createProblemCard
  rw [hget]
  cases htags : problem.getProp "tags".toList with
  | arr xs => rfl
  | undefined => rfl
  | null => rfl
  | bool b => rw [htags] at h4; cases h4
  | num n => rw [htags] at h4; cases h4
  | str t => rw [htags] at h4; cases h4
  | obj props => rw [htags] at h4; cases h4

/-- C13: on a page whose container and search box exist and whose problems are
problems of the data model, whatever tags are selected and whatever text is in
the box, `createProblemCard` returns the card of each stored problem, and
`clearAllFilters` leaves no tag selected, the empty text in the box, and shows
the whole problem list in its stored order. -/
theorem clearAllFilters_resets (pg : ProblemsPage) (children : List Node) (q : Str)
    (hc : pg.container = Option.some children) (hq : pg.searchInput = Option.some q)
    (hp : ∀ problem ∈ pg.problems, isProblem problem = true) :
    (∀ problem ∈ pg.problems,
      ProblemsPage.createProblemCard problem = .ok (Node.card problem)) ∧
    pg.clearAllFilters.selectedTags = [] ∧
    pg.clearAllFilters.searchInput = Option.some [] ∧
    pg.clearAllFilters.shown = pg.problems ∧
    pg.clearAllFilters.problems = pg.problems := by
  unfold ProblemsPage.clearAllFilters ProblemsPage.renderProblems
  refine ⟨fun problem hmem => createProblemCard_ok problem (hp problem hmem), ?_, ?_, ?_, ?_⟩
  · rw [ProblemsPage.selectedTags_renderFilteredProblems]
  · unfold ProblemsPage.renderFilteredProblems
    simp only [hc, hq, Option.map_some']
    split <;> rfl
  · exact ProblemsPage.shown_renderFilteredProblems _ children _ hc
  · unfold ProblemsPage.renderFilteredProblems
    simp only [hc]
    split <;> rfl

/-- C13 on the example page with a tag selected and a text in the box. -/
theorem clearAllFilters_resets_witness :
    (∀ problem ∈ filteredPage.problems,
      ProblemsPage.createProblemCard problem = .ok (Node.card problem)) ∧
    filteredPage.clearAllFilters.selectedTags = [] ∧
    filteredPage.clearAllFilters.searchInput = Option.some [] ∧
    filteredPage.clearAllFilters.shown =
      [problemOf "Alpha" ["x", "y"], problemOf "Beta" ["y"], problemOf "Gamma" ["x"]] ∧
    filteredPage.clearAllFilters.problems = filteredPage.problems :=
  clearAllFilters_resets filteredPage (examplePage.problems.map Node.card) "al".toList rfl rfl (by
    intro problem h
    have h' : problem ∈
        [problemOf "Alpha" ["x", "y"], problemOf "Beta" ["y"], problemOf "Gamma" ["x"]] := h
    simp only [List.mem_cons, List.mem_singleton, List.not_mem_nil, or_false] at h'
    rcases h' with rfl | rfl | rfl <;> rfl)

/-! ## Theme -/

theorem toggle_spec (tm : ThemeManager) :
    tm.toggle.stored = Option.some tm.toggle.theme ∧
    (tm.toggle.theme = "light".toList ∨ tm.toggle.theme = "dark".toList) ∧
    (tm.theme = "dark".toList → tm.toggle.theme = "light".toList) ∧
    (tm.theme = "light".toList → tm.toggle.theme = "dark".toList) := by
  have htheme : tm.toggle.theme =
      if tm.theme = "dark".toList then "light".toList else "dark".toList := rfl
  have hstored : tm.toggle.stored = Option.some tm.toggle.theme := rfl
  by_cases h : tm.theme = "dark".toList
  · rw [if_pos h] at htheme
    exact ⟨hstored, Or.inl htheme, fun _ => htheme,
      fun hl => absurd (h.symm.trans hl) (by decide)⟩
  · rw [if_neg h] at htheme
    exact ⟨hstored, Or.inr htheme, fun hd => absurd hd h, fun _ => htheme⟩

theorem systemChange_of_stored (tm : ThemeManager) (isDark : Bool)
    (hs : tm.stored = Option.some tm.theme)
    (ht : tm.theme = "light".toList ∨ tm.theme = "dark".toList) :
    tm.systemChange isDark = tm := by
  unfold ThemeManager.systemChange ThemeManager.hasStoredTheme
  rw [hs]
  rcases ht with h | h <;> rw [h] <;> rfl

theorem run_cons (tm : ThemeManager) (e : ThemeEvent) (rest : List ThemeEvent) :
    tm.run (e :: rest) = (tm.step e).run rest := rfl

theorem run_keeps_preference (tm : ThemeManager) (events : List ThemeEvent)
    (hs : tm.stored = Option.some tm.theme)
    (ht : tm.theme = "light".toList ∨ tm.theme = "dark".toList) :
    (tm.run events).stored = Option.some (tm.run events).theme ∧
    ((tm.run events).theme = "light".toList ∨ (tm.run events).theme = "dark".toList) := by
  induction events generalizing tm with
  | nil => exact ⟨hs, ht⟩
  | cons e rest ih =>
    rw [run_cons]
    cases e with
    | toggle => exact ih tm.toggle (toggle_spec tm).1 (toggle_spec tm).2.1
    | systemChange isDark =>
      have hstep : tm.step (ThemeEvent.systemChange isDark) = tm :=
        systemChange_of_stored tm isDark hs ht
      rw [hstep]
      exact ih tm hs ht

/-- C15: from any state of the theme manager, after a first toggle and any
further sequence of toggles and system colour-scheme changes, the stored
preference is the current theme, the theme is `light` or `dark`, a toggle
turns `dark` into `light` and `light` into `dark`, and a system change leaves
the state as it is. -/
theorem theme_follows_stored_preference (tm : ThemeManager) (events : List ThemeEvent) :
    (tm.toggle.run events).stored = Option.some (tm.toggle.run events).theme ∧
    ((tm.toggle.run events).theme = "light".toList ∨
      (tm.toggle.run events).theme = "dark".toList) ∧
    ((tm.toggle.run events).theme = "dark".toList →
      (tm.toggle.run events).toggle.theme = "light".toList) ∧
    ((tm.toggle.run events).theme = "light".toList →
      (tm.toggle.run events).toggle.theme = "dark".toList) ∧
    ∀ isDark, (tm.toggle.run events).systemChange isDark = tm.toggle.run events := by
  obtain ⟨hs, ht⟩ := run_keeps_preference tm.toggle events (toggle_spec tm).1 (toggle_spec tm).2.1
  exact ⟨hs, ht, (toggle_spec _).2.2.1, (toggle_spec _).2.2.2,
    fun isDark => systemChange_of_stored _ isDark hs ht⟩

/-- C15 on a manager created without a stored theme on a light system: after a
toggle, a system change to dark and a second toggle, the theme is `light`
again and stored. -/
theorem theme_follows_stored_preference_witness :
    (((ThemeManager.create none false).toggle.run
        [ThemeEvent.systemChange true, ThemeEvent.toggle]).theme = "dark".toList →
      ((ThemeManager.create none false).toggle.run
        [ThemeEvent.systemChange true, ThemeEvent.toggle]).toggle.theme = "light".toList) ∧
    ((ThemeManager.create none false).toggle.run
        [ThemeEvent.systemChange true, ThemeEvent.toggle]).theme = "light".toList ∧
    ((ThemeManager.create none false).toggle.run
        [ThemeEvent.systemChange true, ThemeEvent.toggle]).stored = Option.some "light".toList :=
  ⟨(theme_follows_stored_preference (ThemeManager.create none false)
      [ThemeEvent.systemChange true, ThemeEvent.toggle]).2.2.1, by decide, by decide⟩

/-! ## Relative time -/

/-- C14: with `d` the floor of the seconds from the timestamp to the current
time, for `d >= 60` the result is `N unit ago`, where the unit is the largest
entry of the table that is at most `d`, `N` is the floor of `d` over it, and
the unit takes an `s` exactly when `N` is not one; for `d < 60`, negative
values included, the result is `Just now`. -/
theorem formatRelativeTime_spec (dateValue : JSVal → Option Int) (now date : Int)
    (dateString : JSVal) (hdate : dateValue dateString = Option.some date) :
    (60 ≤ (now - date) / 1000 →
      ∃ unit seconds, (unit, seconds) ∈ intervals ∧ seconds ≤ (now - date) / 1000 ∧
        (∀ entry ∈ intervals, entry.2 ≤ (now - date) / 1000 → entry.2 ≤ seconds) ∧
        formatRelativeTime dateValue now dateString =
          numberToString ((now - date) / 1000 / seconds) ++ " ".toList ++ unit ++
            (if (now - date) / 1000 / seconds = 1 then [] else "s".toList) ++ " ago".toList) ∧
    ((now - date) / 1000 < 60 →
      formatRelativeTime dateValue now dateString = "Just now".toList) := by
  unfold formatRelativeTime
  rw [hdate]
  simp only
  generalize (now - date) / 1000 = d
  have hmem : ∀ entry ∈ intervals, entry.2 = 31536000 ∨ entry.2 = 2592000 ∨ entry.2 = 604800 ∨
      entry.2 = 86400 ∨ entry.2 = 3600 ∨ entry.2 = 60 := by
    intro entry hentry
    simp only [intervals, List.mem_cons, List.mem_singleton, List.not_mem_nil, or_false] at hentry
    rcases hentry with rfl | rfl | rfl | rfl | rfl | rfl <;> simp
  constructor
  · intro hd
    by_cases h1 : 31536000 ≤ d
    · refine ⟨"year".toList, 31536000, by decide, h1, fun entry he hle => ?_, ?_⟩
      · rcases hmem entry he with h | h | h | h | h | h <;> omega
      · simp only [relativeTimeOf, intervals]
        rw [if_pos (by omega)]
        rfl
    by_cases h2 : 2592000 ≤ d
    · refine ⟨"month".toList, 2592000, by decide, h2, fun entry he hle => ?_, ?_⟩
      · rcases hmem entry he with h | h | h | h | h | h <;> omega
      · simp only [relativeTimeOf, intervals]
        rw [if_neg (by omega), if_pos (by omega)]
        rfl
    by_cases h3 : 604800 ≤ d
    · refine ⟨"week".toList, 604800, by decide, h3, fun entry he hle => ?_, ?_⟩
      · rcases hmem entry he with h | h | h | h | h | h <;> omega
      · simp only [relativeTimeOf, intervals]
        rw [if_neg (by omega), if_neg (by omega), if_pos (by omega)]
        rfl
    by_cases h4 : 86400 ≤ d
    · refine ⟨"day".toList, 86400, by decide, h4, fun entry he hle => ?_, ?_⟩
      · rcases hmem entry he with h | h | h | h | h | h <;> omega
      · simp only [relativeTimeOf, intervals]
        rw [if_neg (by omega), if_neg (by omega), if_neg (by omega), if_pos (by omega)]
        rfl
    by_cases h5 : 3600 ≤ d
    · refine ⟨"hour".toList, 3600, by decide, h5, fun entry he hle => ?_, ?_⟩
      · rcases hmem entry he with h | h | h | h | h | h <;> omega
      · simp only [relativeTimeOf, intervals]
        rw [if_neg (by omega), if_neg (by omega), if_neg (by omega), if_neg (by omega),
          if_pos (by omega)]
        rfl
    · refine ⟨"minute".toList, 60, by decide, hd, fun entry he hle => ?_, ?_⟩
      · rcases hmem entry he with h | h | h | h | h | h <;> omega
      · simp only [relativeTimeOf, intervals]
        rw [if_neg (by omega), if_neg (by omega), if_neg (by omega), if_neg (by omega),
          if_neg (by omega), if_pos (by omega)]
        rfl
  · intro hd
    simp only [relativeTimeOf, intervals]
    rw [if_neg (by omega), if_neg (by omega), if_neg (by omega), if_neg (by omega),
      if_neg (by omega), if_neg (by omega)]

/-- C14 on a timestamp 259200 seconds before the current time. -/
theorem formatRelativeTime_spec_witness :
    (∃ unit seconds, (unit, seconds) ∈ intervals ∧ seconds ≤ (259200000 - 0) / 1000 ∧
        (∀ entry ∈ intervals, entry.2 ≤ (259200000 - 0) / 1000 → entry.2 ≤ seconds) ∧
        formatRelativeTime (fun _ => Option.some 0) 259200000 JSVal.null =
          numberToString ((259200000 - 0) / 1000 / seconds) ++ " ".toList ++ unit ++
            (if (259200000 - 0) / 1000 / seconds = 1 then [] else "s".toList) ++
            " ago".toList) ∧
    formatRelativeTime (fun _ => Option.some 0) 259200000 JSVal.null = "3 days ago".toList :=
  ⟨(formatRelativeTime_spec (fun _ => Option.some 0) 259200000 0 JSVal.null rfl).1 (by decide),
   by decide⟩

/-! ## Announcements -/

theorem orderedInsert_eq {α : Type} (compare : α → α → JS Int) (r : α → α → Prop)
    [DecidableRel r] (a : α) (sorted : List α)
    (h : ∀ b ∈ sorted, ∃ c, compare a b = .ok c ∧ (c ≤ 0 ↔ r a b)) :
    JSArray.orderedInsert compare a sorted = .ok (List.orderedInsert r a sorted) := by
  induction sorted with
  | nil => rfl
  | cons b rest ih =>
    obtain ⟨c, hc, hiff⟩ := h b (List.mem_cons_self _ _)
    unfold JSArray.orderedInsert
    rw [hc, List.orderedInsert]
    simp only
    by_cases hr : r a b
    · rw [if_pos (hiff.mpr hr), if_pos hr]
    · rw [if_neg (fun hle => hr (hiff.mp hle)), if_neg hr,
        ih (fun x hx => h x (List.mem_cons_of_mem _ hx))]

theorem sort_eq_insertionSort {α : Type} (compare : α → α → JS Int) (r : α → α → Prop)
    [DecidableRel r] (xs : List α)
    (h : ∀ a ∈ xs, ∀ b ∈ xs, ∃ c, compare a b = .ok c ∧ (c ≤ 0 ↔ r a b)) :
    JSArray.sort compare xs = .ok (List.insertionSort r xs) := by
  induction xs with
  | nil => rfl
  | cons a rest ih =>
    unfold JSArray.sort
    rw [ih (fun x hx y hy => h x (List.mem_cons_of_mem _ hx) y (List.mem_cons_of_mem _ hy)),
      List.insertionSort]
    apply orderedInsert_eq
    intro b hb
    exact h a (List.mem_cons_self _ _) b
      (List.mem_cons_of_mem _ ((List.perm_insertionSort r rest).subset hb))

theorem compareAnnouncements_valid (dateValue : JSVal → Option Int) (a b : JSVal)
    (ha : validAnnouncement dateValue a = true) (hb : validAnnouncement dateValue b = true) :
    ∃ c, compareAnnouncements dateValue a b = .ok c ∧
      (c ≤ 0 ↔ postedAt dateValue b ≤ postedAt dateValue a) := by
  have hget : ∀ v : JSVal, validAnnouncement dateValue v = true →
      v.get "posted_at".toList = .ok (v.getProp "posted_at".toList) ∧
      ∃ t, dateValue (v.getProp "posted_at".toList) = Option.some t := by
    intro v hv
    cases v with
    | undefined => cases hv
    | null => cases hv
    | bool _ => exact ⟨rfl, Option.isSome_iff_exists.mp hv⟩
    | num _ => exact ⟨rfl, Option.isSome_iff_exists.mp hv⟩
    | str _ => exact ⟨rfl, Option.isSome_iff_exists.mp hv⟩
    | arr _ => exact ⟨rfl, Option.isSome_iff_exists.mp hv⟩
    | obj _ => exact ⟨rfl, Option.isSome_iff_exists.mp hv⟩
  obtain ⟨hga, ta, hta⟩ := hget a ha
  obtain ⟨hgb, tb, htb⟩ := hget b hb
  refine ⟨tb - ta, ?_, ?_⟩
  · unfold compareAnnouncements
    rw [hgb, hga]
    simp only [htb, hta]
  · unfold postedAt
    rw [hta, htb]
    simp only [Option.getD_some]
    omega

theorem renderAnnouncements_shown (pg : AnnouncementsPage) (children : List Node)
    (hc : pg.container = Option.some children) :
    pg.renderAnnouncements.shown = pg.announcements ∧
    pg.renderAnnouncements.announcements = pg.announcements := by
  by_cases hlen : pg.announcements.length = 0
  · have hrender : pg.renderAnnouncements =
        { pg with container := Option.some [Node.noAnnouncementsYet] } := by
      unfold AnnouncementsPage.renderAnnouncements
      rw [hc]
      simp only [hlen, if_true]
    rw [hrender]
    exact ⟨(List.length_eq_zero.mp hlen).symm, rfl⟩
  · have hrender : pg.renderAnnouncements =
        { pg with container := Option.some (pg.announcements.map Node.card) } := by
      unfold AnnouncementsPage.renderAnnouncements
      rw [hc]
      simp only [hlen, if_false]
    rw [hrender]
    exact ⟨SearchFilter.renderedItems_map_card _, rfl⟩

theorem setupSearch_keeps (pg : AnnouncementsPage) (children : List Node)
    (hc : pg.container = Option.some children) :
    pg.setupSearch.announcements = pg.announcements ∧
    ∃ children', pg.setupSearch.container = Option.some children' := by
  unfold AnnouncementsPage.setupSearch
  split
  · exact ⟨rfl, children, hc⟩
  · refine ⟨rfl, ?_⟩
    unfold SearchFilter.render AnnouncementsPage.filterOf
    simp only [hc, Option.isNone_some, Bool.not_true, Bool.or_self, Bool.false_eq_true, if_false]
    split
    · exact ⟨_, rfl⟩
    · exact ⟨_, rfl⟩

/-- C11: when every fetched announcement has a valid `posted_at`, `init` stores
a permutation of the fetched list in which no announcement comes before a
later one, and the container shows that list in that order. -/
theorem init_sorts_newest_first (dateValue : JSVal → Option Int) (pg : AnnouncementsPage)
    (children : List Node) (data : List JSVal)
    (hc : pg.container = Option.some children)
    (hvalid : ∀ a ∈ data, validAnnouncement dateValue a = true) :
    ∃ pg', pg.init dateValue (FetchResult.data data) = .ok pg' ∧
      pg'.announcements.Perm data ∧
      pg'.announcements.Pairwise (fun a b => postedAt dateValue b ≤ postedAt dateValue a) ∧
      pg'.shown = pg'.announcements := by
  have hsort := sort_eq_insertionSort (compareAnnouncements dateValue)
    (fun a b => postedAt dateValue b ≤ postedAt dateValue a) data
    (fun a ha b hb => compareAnnouncements_valid dateValue a b (hvalid a ha) (hvalid b hb))
  unfold AnnouncementsPage.init AnnouncementsPage.loadAnnouncements
  simp only [hsort]
  refine ⟨_, rfl, ?_, ?_, ?_⟩
  · obtain ⟨hkeep, children', hc'⟩ := setupSearch_keeps
      { pg with announcements :=
          List.insertionSort (fun a b => postedAt dateValue b ≤ postedAt dateValue a) data }
      children hc
    rw [(renderAnnouncements_shown _ children' hc').2, hkeep]
    exact List.perm_insertionSort _ data
  · obtain ⟨hkeep, children', hc'⟩ := setupSearch_keeps
      { pg with announcements :=
          List.insertionSort (fun a b => postedAt dateValue b ≤ postedAt dateValue a) data }
      children hc
    rw [(renderAnnouncements_shown _ children' hc').2, hkeep]
    haveI : IsTotal JSVal (fun a b => postedAt dateValue b ≤ postedAt dateValue a) :=
      ⟨fun a b => le_total _ _⟩
    haveI : IsTrans JSVal (fun a b => postedAt dateValue b ≤ postedAt dateValue a) :=
      ⟨fun a b c hab hbc => le_trans hbc hab⟩
    exact List.sorted_insertionSort _ data
  · obtain ⟨_, children', hc'⟩ := setupSearch_keeps
      { pg with announcements :=
          List.insertionSort (fun a b => postedAt dateValue b ≤ postedAt dateValue a) data }
      children hc
    rw [(renderAnnouncements_shown _ children' hc').1, (renderAnnouncements_shown _ children' hc').2]

/-- C11 on the example of the specification: the announcement of 2024-06-01
comes first. -/
theorem init_sorts_newest_first_witness :
    (∀ a ∈ [postedOn "2024-01-01", postedOn "2024-06-01"],
      validAnnouncement isoDateValue a = true) ∧
    (∃ pg', (AnnouncementsPage.create [] true).init isoDateValue
        (FetchResult.data [postedOn "2024-01-01", postedOn "2024-06-01"]) = .ok pg' ∧
      pg'.announcements.Perm [postedOn "2024-01-01", postedOn "2024-06-01"] ∧
      pg'.announcements.Pairwise
        (fun a b => postedAt isoDateValue b ≤ postedAt isoDateValue a) ∧
      pg'.shown = pg'.announcements) ∧
    (∃ pg', (AnnouncementsPage.create [] true).init isoDateValue
        (FetchResult.data [postedOn "2024-01-01", postedOn "2024-06-01"]) = .ok pg' ∧
      pg'.announcements = [postedOn "2024-06-01", postedOn "2024-01-01"] ∧
      pg'.shown = [postedOn "2024-06-01", postedOn "2024-01-01"]) := by
  have hvalid : ∀ a ∈ [postedOn "2024-01-01", postedOn "2024-06-01"],
      validAnnouncement isoDateValue a = true := by
    intro a ha
    simp only [List.mem_cons, List.mem_singleton, List.not_mem_nil, or_false] at ha
    rcases ha with rfl | rfl <;> decide
  exact ⟨hvalid,
    init_sorts_newest_first isoDateValue (AnnouncementsPage.create [] true) []
      [postedOn "2024-01-01", postedOn "2024-06-01"] rfl hvalid,
    ⟨_, rfl, rfl, rfl⟩⟩

/-! ## Start-up after a failed fetch -/

/-- C12, the failing start-up: when `fetchJSON` resolves to an error, each of
the three pages appends the error card in its load method, and `init` goes on:
the constructor of `SearchFilter` and the render method of the page clear the
container, which ends up holding the placeholder for an empty list and no
error card, whatever it held before and whether the search box exists. -/
theorem fetch_failure_ends_in_placeholder (dateValue toNumber : JSVal → Option Int)
    (localeCompare : Str → JSVal → Int) (children : List Node) (searchInput : Bool)
    (searchText : Option Str) :
    (∃ loaded pg,
      (AnnouncementsPage.create children searchInput).loadAnnouncements dateValue
        (FetchResult.error "HTTP error! status: 404".toList) = .ok loaded ∧
      loaded.container = Option.some (children ++ [Node.errorMessage]) ∧
      (AnnouncementsPage.create children searchInput).init dateValue
        (FetchResult.error "HTTP error! status: 404".toList) = .ok pg ∧
      pg.container = Option.some [Node.noAnnouncementsYet]) ∧
    (∃ pg, (ModulesPage.create children searchInput).init toNumber
        (FetchResult.error "HTTP error! status: 404".toList) = .ok pg ∧
      pg.container = Option.some [Node.noModulesYet]) ∧
    (∃ pg, (ProblemsPage.create children searchText).init localeCompare
        (FetchResult.error "HTTP error! status: 404".toList) = .ok pg ∧
      pg.container = Option.some [Node.noProblemsFound]) := by
  refine ⟨?_, ?_, ?_⟩
  · cases searchInput
    · exact ⟨_, _, rfl, rfl, rfl, rfl⟩
    · exact ⟨_, _, rfl, rfl, rfl, rfl⟩
  · cases searchInput
    · exact ⟨_, rfl, rfl⟩
    · exact ⟨_, rfl, rfl⟩
  · cases searchText
    · exact ⟨_, rfl, rfl⟩
    · exact ⟨_, rfl, rfl⟩

/-! ## Frame of an edge click -/

theorem clickPath_frame (off : List Str) (e f : Path)
    (he : '-' ∉ e.fromId ∧ '-' ∉ e.toId) (hf : '-' ∉ f.fromId ∧ '-' ∉ f.toId)
    (hsame : ¬ (f.fromId = e.fromId ∧ f.toId = e.toId))
    (hreverse : ¬ (f.fromId = e.toId ∧ f.toId = e.fromId)) :
    pathKey f ∈ clickPath off e ↔ pathKey f ∈ off := by
  have h1 : pathKey f ≠ pathKey e := by
    unfold pathKey
    intro heq
    exact hsame (key_injective _ _ _ _ hf.1 hf.2 he.1 he.2 heq)
  have h2 : pathKey f ≠ reversePathKey e := by
    unfold pathKey reversePathKey
    intro heq
    exact hreverse (key_injective _ _ _ _ hf.1 hf.2 he.2 he.1 heq)
  unfold clickPath
  split
  · simp only [mem_setDelete]
    exact ⟨fun h => h.1.1, fun h => ⟨⟨h, h1⟩, h2⟩⟩
  · simp only [mem_setAdd]
    constructor
    · rintro ((h | h) | h)
      · exact h
      · exact absurd h h1
      · exact absurd h h2
    · exact fun h => Or.inl (Or.inl h)

/-- C16, the failing click: on the map with the ids `a`, `b-c`, `a-b` and `c`,
the path from `a-b` to `c` is neither the path from `a` to `b-c` nor its
reverse, yet a click on the latter puts the key `a-b-c` of the former into the
set, which was empty. -/
theorem click_disables_other_edge_on_hyphen_ids :
    (⟨"a".toList, "b-c".toList, JSNumber.parseInt "5".toList⟩ : Path) ∈ hyphenMap.paths ∧
    (⟨"a-b".toList, "c".toList, JSNumber.parseInt "7".toList⟩ : Path) ∈ hyphenMap.paths ∧
    ("a-b".toList, "c".toList) ≠ ("a".toList, "b-c".toList) ∧
    ("a-b".toList, "c".toList) ≠ ("b-c".toList, "a".toList) ∧
    pathKey ⟨"a-b".toList, "c".toList, JSNumber.parseInt "7".toList⟩
      ∉ hyphenMap.toggledOffPathKeys ∧
    pathKey ⟨"a-b".toList, "c".toList, JSNumber.parseInt "7".toList⟩
      ∈ (hyphenMap.click 0).toggledOffPathKeys := by
  decide

end Cop3530
